import Mathlib

/-!
# Geo::MapMaker `util.c` : a shallow embedding

The C file `Geo-MapMaker/lib/Geo/MapMaker/util.c` moves the points of one line away
from another line.  This development embeds its functions as Lean definitions and
proves properties of them.

Modelling conventions.

* A C `double` is an element of a linearly ordered field `K`; arithmetic is exact
  (no rounding, no NaN, no infinities, no signed zero).  The literal `0.001` is
  `1 / 1000`.
* The functions of `<math.h>` that the file calls (`sqrt`, `sin`, `cos`, `atan2`)
  are passed explicitly as a `Libm K`.  `fabs` is the absolute value of the field.
  `realLibm` interprets them as the real functions; `atan2 y x` is the argument of
  the complex number `x + y i`, which is `0` at the origin and `π` on the negative
  real axis, like the C function.
* A Perl scalar is a value of `SV K`.  Arrays live at addresses in a `Heap K`, and
  a reference is the address of its array, so two references to one array share
  its slots.  A function that stores into arrays returns the arrays after the
  call.  Where the C code dereferences the `NULL` that `av_fetch` returns for an
  absent slot its behaviour is undefined; the embedding returns `none` there.
* The coordinate arrays `xx`, `yy` with their length `npoints` are one list of
  pairs; `xx[i]` is the first component of the `i`-th element.
* A local variable that the C code reads before it has been assigned is given its
  starting value by an explicit parameter (`av_locals`).
* The debug output (`DEBUGF`, `move_line_away_debug`) has no effect on results and
  is left out.
-/

namespace GeoMapMaker

/-! ## The C math library -/

/-- The functions of `<math.h>` used by `util.c`. -/
structure Libm (K : Type) where
  sqrt : K → K
  sin : K → K
  cos : K → K
  atan2 : K → K → K

/-- The math library over the real numbers. -/
noncomputable def realLibm : Libm ℝ where
  sqrt := Real.sqrt
  sin := Real.sin
  cos := Real.cos
  atan2 := fun y x => Complex.arg ⟨x, y⟩

/-! ## Perl values -/

/-- Perl scalar values, as far as `util.c` inspects them. A reference carries the
address of what it refers to. -/
inductive SV (K : Type) where
  | undef : SV K
  | nv (v : K) : SV K
  | pv (s : String) : SV K
  | rv_av (a : Nat) : SV K
  | rv_other (a : Nat) : SV K

/-- A Perl array: the list of its slots. A slot that was never assigned holds no
scalar, and `av_fetch` returns `NULL` for it. -/
abbrev AV (K : Type) := List (Option (SV K))

/-- The arrays of the interpreter, by address. References with the same address
refer to the same array. -/
abbrev Heap (K : Type) := Nat → AV K

/-- The conversions of the Perl runtime that depend on the representation of
strings and references. -/
structure Perl (K : Type) where
  str_nv : String → K
  nv_pv : K → String
  ref_nv : Nat → K
  ref_pv : Nat → String

section Defs

variable {K : Type} [LinearOrderedField K]

/-- The macro `SvOK`: the scalar is defined. -/
def SvOK : SV K → Bool
  | SV.undef => false
  | _ => true

/-- The macro `IS_ARRAY_REF`. -/
def IS_ARRAY_REF : SV K → Bool
  | SV.rv_av _ => true
  | _ => false

/-- The macro `SvNV`: numeric value of a scalar. -/
def SvNV (P : Perl K) : SV K → K
  | SV.undef => 0
  | SV.nv v => v
  | SV.pv s => P.str_nv s
  | SV.rv_av a => P.ref_nv a
  | SV.rv_other a => P.ref_nv a

/-- The macro `SvPV`: string value of a scalar. -/
def SvPV (P : Perl K) : SV K → String
  | SV.undef => ""
  | SV.nv v => P.nv_pv v
  | SV.pv s => s
  | SV.rv_av a => P.ref_pv a
  | SV.rv_other a => P.ref_pv a

/-- The call `av_fetch(av, i, 0)`: the scalar in slot `i`, or `NULL` (`none`) when
the slot is beyond the end of the array or was never assigned. -/
def av_fetch (av : AV K) (i : Nat) : Option (SV K) := av.getD i none

/-- The two assignments `x = SvNV(*(av_fetch(xy, 0, 0)))` and
`y = SvNV(*(av_fetch(xy, 1, 0)))` of lines 129-130 and 303-304. The result of
`av_fetch` is dereferenced without a test; `none` stands for the dereference of
`NULL`, where the behaviour of the program is undefined. -/
def fetch_xy (P : Perl K) (xy : AV K) : Option (K × K) :=
  match av_fetch xy 0, av_fetch xy 1 with
  | some e0, some e1 => some (SvNV P e0, SvNV P e1)
  | _, _ => none

/-- A `for` loop with a body that can fail: the body runs on the items in order,
and a failure ends the run. -/
def for_each {σ ι : Type} (body : σ → ι → Option σ) : σ → List ι → Option σ
  | s, [] => some s
  | s, i :: rest =>
    match body s i with
    | none => none
    | some s' => for_each body s' rest

/-! ## Geometry -/

/-- `pyth`, lines 12-16. -/
def pyth (L : Libm K) (x0 y0 x1 y1 : K) : K :=
  let dx := x1 - x0
  let dy := y1 - y0
  L.sqrt (dx * dx + dy * dy)

/-- The outputs `*rlp, *pxp, *pyp, *slp, *dlp` of `segment_voodoo`. -/
structure voodoo_t (K : Type) where
  rl : K
  px : K
  py : K
  sl : K
  dl : K

/-- `segment_voodoo`, lines 316-340. -/
def segment_voodoo (L : Libm K) (cx cy ax ay bx b_y : K) : voodoo_t K :=
  let l2 := (bx - ax) * (bx - ax) + (b_y - ay) * (b_y - ay)
  let ll := L.sqrt l2
  let rl := ((cx - ax) * (bx - ax) + (cy - ay) * (b_y - ay)) / l2
  let px := ax + rl * (bx - ax)
  let py := ay + rl * (b_y - ay)
  let sl := ((ay - cy) * (bx - ax) - (ax - cx) * (b_y - ay)) / l2
  let dl := |sl| * ll
  { rl := rl, px := px, py := py, sl := sl, dl := dl }

/-- `point_info_t`, lines 144-146. -/
structure point_info_t (K : Type) where
  dp : K

/-- `line_info_t`, lines 148-159. -/
structure line_info_t (K : Type) where
  rl : K
  px : K
  py : K
  sl : K
  dl : K
  ll : K
  l2 : K
  dx : K
  dy : K
  theta : K

instance : Inhabited (point_info_t K) := ⟨⟨0⟩⟩

instance : Inhabited (line_info_t K) := ⟨⟨0, 0, 0, 0, 0, 0, 0, 0, 0, 0⟩⟩

/-- The array element `xx[i]`. -/
def xx_at (pts : List (K × K)) (i : Nat) : K := (pts.getD i (0, 0)).1

/-- The array element `yy[i]`. -/
def yy_at (pts : List (K × K)) (i : Nat) : K := (pts.getD i (0, 0)).2

/-- The body of the second loop of `recalculate`, lines 169-182. -/
def recalculate_line (L : Libm K) (cx cy : K) (pts : List (K × K)) (i : Nat) :
    line_info_t K :=
  let ax := xx_at pts i
  let ay := yy_at pts i
  let bx := xx_at pts (i + 1)
  let b_y := yy_at pts (i + 1)
  let ll := pyth L ax ay bx b_y
  let l2 := ll * ll
  let dx := bx - ax
  let dy := b_y - ay
  let theta := L.atan2 dy dx
  let rl := ((cx - ax) * (bx - ax) + (cy - ay) * (b_y - ay)) / l2
  let px := ax + rl * (bx - ax)
  let py := ay + rl * (b_y - ay)
  let sl := ((ay - cy) * (bx - ax) - (ax - cx) * (b_y - ay)) / l2
  let dl := |sl| * ll
  { rl := rl, px := px, py := py, sl := sl, dl := dl, ll := ll, l2 := l2,
    dx := dx, dy := dy, theta := theta }

/-- `recalculate`, lines 161-184: the filled parts of `point_info` and `line_info`. -/
def recalculate (L : Libm K) (cx cy : K) (pts : List (K × K)) :
    List (point_info_t K) × List (line_info_t K) :=
  ((List.range pts.length).map
      (fun i => { dp := pyth L cx cy (xx_at pts i) (yy_at pts i) }),
   (List.range (pts.length - 1)).map (fun i => recalculate_line L cx cy pts i))

/-- The variables of `move_point_away` that change during the passes. -/
structure mpa_state (K : Type) where
  x : K
  y : K
  point_info : List (point_info_t K)
  line_info : List (line_info_t K)

/-- The assignment to `*xp, *yp` that all passes share (lines 229-236, 242-249,
254-261, 265-272), followed by the call of `recalculate`. -/
def relocate (L : Libm K) (distance general_direction : K) (pts : List (K × K))
    (ox oy angle : K) : mpa_state K :=
  let x := if L.sin (angle - general_direction) < 0
    then ox - distance * L.sin angle else ox + distance * L.sin angle
  let y := if L.sin (angle - general_direction) < 0
    then oy + distance * L.cos angle else oy - distance * L.cos angle
  { x := x, y := y,
    point_info := (recalculate L x y pts).1,
    line_info := (recalculate L x y pts).2 }

/-- The body of the loop of lines 218-239. -/
def corner_step (L : Libm K) (distance minimum_distance general_direction : K)
    (pts : List (K × K)) (s : mpa_state K) (i : Nat) : mpa_state K :=
  let li := s.line_info.getD i default
  let lj := s.line_info.getD (i + 1) default
  if (li.dl < minimum_distance ∧ lj.dl < minimum_distance ∧
      li.rl ≥ 0 ∧ li.rl ≤ 1 ∧ lj.rl ≥ 0 ∧ lj.rl ≤ 1) ∨
     (s.point_info.getD (i + 1) default).dp < minimum_distance then
    let adx := li.dx / li.ll + lj.dx / lj.ll
    let ady := li.dy / li.ll + lj.dy / lj.ll
    let atheta := L.atan2 ady adx
    relocate L distance general_direction pts (xx_at pts (i + 1)) (yy_at pts (i + 1)) atheta
  else s

/-- The body of the loop of lines 240-252. -/
def segment_step (L : Libm K) (distance minimum_distance general_direction : K)
    (pts : List (K × K)) (s : mpa_state K) (i : Nat) : mpa_state K :=
  let li := s.line_info.getD i default
  if li.dl < minimum_distance ∧ li.rl ≥ 0 ∧ li.rl ≤ 1 then
    relocate L distance general_direction pts li.px li.py li.theta
  else s

/-- The conditional of lines 253-274. -/
def endpoint_step (L : Libm K) (distance minimum_distance general_direction : K)
    (pts : List (K × K)) (s : mpa_state K) : mpa_state K :=
  let npoints := pts.length
  if (s.point_info.getD 0 default).dp < minimum_distance then
    relocate L distance general_direction pts (xx_at pts 0) (yy_at pts 0)
      (s.line_info.getD 0 default).theta
  else if (s.point_info.getD (npoints - 1) default).dp < minimum_distance then
    relocate L distance general_direction pts
      (xx_at pts (npoints - 1)) (yy_at pts (npoints - 1))
      (s.line_info.getD (npoints - 2) default).theta
  else s

/-- `move_point_away`, lines 186-278; the result is the final `(*xp, *yp)`. -/
def move_point_away (L : Libm K) (x y minimum_distance general_direction : K)
    (pts : List (K × K)) : K × K :=
  let distance := minimum_distance
  let minimum_distance := distance + 1 / 1000
  let npoints := pts.length
  if npoints < 1 then (x, y)
  else if npoints = 1 then
    let theta := L.atan2 (yy_at pts 0 - y) (xx_at pts 0 - x)
    if pyth L x y (xx_at pts 0) (yy_at pts 0) < minimum_distance then
      (xx_at pts 0 + distance * L.cos theta, yy_at pts 0 + distance * L.sin theta)
    else (x, y)
  else
    let s0 : mpa_state K :=
      { x := x, y := y,
        point_info := (recalculate L x y pts).1,
        line_info := (recalculate L x y pts).2 }
    let s1 := (List.range (npoints - 2)).foldl
      (corner_step L distance minimum_distance general_direction pts) s0
    let s2 := (List.range (npoints - 1)).foldl
      (segment_step L distance minimum_distance general_direction pts) s1
    let s3 := endpoint_step L distance minimum_distance general_direction pts s2
    (s3.x, s3.y)

/-! ## Marshalling and the batch driver -/

/-- The starting values of the locals `prev_exists`, `prev_x`, `prev_y` of
`av_to_arrays`, which are declared without an initialiser (lines 284-288). -/
structure av_locals (K : Type) where
  prev_exists : Bool
  prev_x : K
  prev_y : K

/-- The variables of the loop of `av_to_arrays`; `out` is `(*xp)[0..j)` paired with
`(*yp)[0..j)`. -/
structure av_state (K : Type) where
  out : List (K × K)
  prev_exists : Bool
  prev_x : K
  prev_y : K

/-- The body of the loop of `av_to_arrays`, lines 297-311, for the slot `pointp` of
the array `points`. -/
def av_to_arrays_step (P : Perl K) (h : Heap K) (s : av_state K)
    (pointp : Option (SV K)) : Option (av_state K) :=
  match pointp with
  | some (SV.rv_av xy) =>
    if (h xy).length < 2 then some s
    else
      match fetch_xy P (h xy) with
      | none => none
      | some p =>
        if s.prev_exists = true ∧ p.1 = s.prev_x ∧ p.2 = s.prev_y then some s
        else some { out := s.out ++ [p], prev_exists := true, prev_x := p.1, prev_y := p.2 }
  | _ => some s

/-- `av_to_arrays`, lines 280-314, for the array at the address `points`; the
function reads the arrays and writes none. -/
def av_to_arrays (P : Perl K) (u : av_locals K) (h : Heap K) (points : Nat) :
    Option (List (K × K)) :=
  (for_each (av_to_arrays_step P h)
    { out := [], prev_exists := u.prev_exists, prev_x := u.prev_x, prev_y := u.prev_y }
    (h points)).map (fun s => s.out)

/-- The direction angle computed in lines 81-104. -/
def general_direction_of (L : Libm K) (P : Perl K) (arg_general_direction : SV K) : K :=
  if SvOK arg_general_direction = true then
    let s := SvPV P arg_general_direction
    if s = "north" ∨ s = "n" then L.atan2 (-1) 0
    else if s = "south" ∨ s = "s" then L.atan2 1 0
    else if s = "east" ∨ s = "e" then L.atan2 0 1
    else if s = "west" ∨ s = "w" then L.atan2 0 (-1)
    else if s = "northeast" ∨ s = "ne" then L.atan2 (-1) 1
    else if s = "southeast" ∨ s = "se" then L.atan2 1 1
    else if s = "northwest" ∨ s = "nw" then L.atan2 (-1) (-1)
    else if s = "southwest" ∨ s = "sw" then L.atan2 1 (-1)
    else if s = "ese" then L.atan2 1 1 * (1 / 2)
    else if s = "sse" then L.atan2 1 1 * (3 / 2)
    else if s = "ssw" then L.atan2 1 1 * (5 / 2)
    else if s = "wsw" then L.atan2 1 1 * (7 / 2)
    else if s = "wnw" then L.atan2 1 1 * (9 / 2)
    else if s = "nnw" then L.atan2 1 1 * (11 / 2)
    else if s = "nne" then L.atan2 1 1 * (13 / 2)
    else if s = "ene" then L.atan2 1 1 * (15 / 2)
    else SvNV P arg_general_direction
  else 0

/-- The bounds after lines 58-77: the four flags and the four values. -/
structure bbox_t (K : Type) where
  check_north : Bool
  check_south : Bool
  check_east : Bool
  check_west : Bool
  north : K
  south : K
  east : K
  west : K

/-- Lines 58-77 of `move_line_away`. -/
def bbox_of (P : Perl K) (arg_north arg_south arg_east arg_west : SV K) : bbox_t K :=
  let check_north := SvOK arg_north
  let check_south := SvOK arg_south
  let check_east := SvOK arg_east
  let check_west := SvOK arg_west
  let north := if check_north = true then SvNV P arg_north else 0
  let south := if check_south = true then SvNV P arg_south else 0
  let east := if check_east = true then SvNV P arg_east else 0
  let west := if check_west = true then SvNV P arg_west else 0
  let ns := if check_south = true ∧ check_north = true ∧ south < north
    then (south, north) else (north, south)
  let ew := if check_east = true ∧ check_west = true ∧ east < west
    then (west, east) else (east, west)
  { check_north := check_north, check_south := check_south,
    check_east := check_east, check_west := check_west,
    north := ns.1, south := ns.2, east := ew.1, west := ew.2 }

/-- The body of the loop of `move_line_away`, lines 123-137, for the index `i` of
the array at the address `points_b`. The two calls of `av_store` write slots `0`
and `1` of the array `xy` itself, so every reference to that array sees the new
coordinates; they do not change the length of any array. -/
def move_line_away_step (L : Libm K) (P : Perl K) (b : bbox_t K)
    (minimum_distance general_direction : K) (pts_a : List (K × K))
    (points_b : Nat) (h : Heap K) (i : Nat) : Option (Heap K) :=
  match av_fetch (h points_b) i with
  | some (SV.rv_av xy) =>
    if (h xy).length < 2 then some h
    else
      match fetch_xy P (h xy) with
      | none => none
      | some p =>
        if b.check_north = true ∧ p.2 < b.north then some h
        else if b.check_south = true ∧ p.2 > b.south then some h
        else if b.check_east = true ∧ p.1 > b.east then some h
        else if b.check_west = true ∧ p.1 < b.west then some h
        else
          let r := move_point_away L p.1 p.2 minimum_distance general_direction pts_a
          some (Function.update h xy
            (((h xy).set 0 (some (SV.nv r.1))).set 1 (some (SV.nv r.2))))
  | _ => some h

/-- `move_line_away`, lines 40-142; the result is the arrays after the call, or
`none` when the call dereferences `NULL`. -/
def move_line_away (L : Libm K) (P : Perl K) (u : av_locals K) (h : Heap K)
    (arg_north arg_south arg_east arg_west arg_minimum_distance
      arg_general_direction arg_points_b arg_points_a : SV K) : Option (Heap K) :=
  let b := bbox_of P arg_north arg_south arg_east arg_west
  let minimum_distance :=
    if SvOK arg_minimum_distance = true then SvNV P arg_minimum_distance else 1
  let general_direction := general_direction_of L P arg_general_direction
  match arg_points_a, arg_points_b with
  | SV.rv_av points_a, SV.rv_av points_b =>
    match av_to_arrays P u h points_a with
    | none => none
    | some pts_a =>
      for_each (move_line_away_step L P b minimum_distance general_direction pts_a points_b)
        h (List.range (h points_b).length)
  | _, _ => some h

/-! ## Reference definitions used in the statements -/

/-- The coordinates that an entry of the reference collection gives: those of the
first two slots of an array with at least two elements. -/
def entry_coords (P : Perl K) (h : Heap K) : Option (SV K) → Option (K × K)
  | some (SV.rv_av xy) => if (h xy).length < 2 then none else fetch_xy P (h xy)
  | _ => none

/-- The coordinates of the entries that the loops accept as points. -/
def well_formed_coords (P : Perl K) (h : Heap K) (points : List (Option (SV K))) :
    List (K × K) :=
  points.filterMap (entry_coords P h)

/-- The points of a list that differ from the point immediately before them; `prev`
is the point before the head of the list, if there is one. -/
def collapse_adjacent : Option (K × K) → List (K × K) → List (K × K)
  | _, [] => []
  | prev, p :: ps =>
    if prev = some p then collapse_adjacent (some p) ps
    else p :: collapse_adjacent (some p) ps

/-- An array that holds a point with numeric coordinates. -/
def point_av (p : K × K) : AV K := [some (SV.nv p.1), some (SV.nv p.2)]

/-- The arrays given by a list: the array at address `a` is the `a`-th of the list,
and every other address holds the empty array. -/
def heap_of (arrays : List (AV K)) : Heap K := fun a => arrays.getD a []

/-- The statement of the bounding-box filter: the given north and south values,
in the order the filter uses them (exchanged when both are given and south is
below north). -/
def stated_north_south (P : Perl K) (arg_north arg_south : SV K) : K × K :=
  if SvOK arg_north = true ∧ SvOK arg_south = true ∧ SvNV P arg_south < SvNV P arg_north
  then (SvNV P arg_south, SvNV P arg_north) else (SvNV P arg_north, SvNV P arg_south)

/-- The statement of the bounding-box filter: the given east and west values,
exchanged when both are given and east is below west. -/
def stated_east_west (P : Perl K) (arg_east arg_west : SV K) : K × K :=
  if SvOK arg_east = true ∧ SvOK arg_west = true ∧ SvNV P arg_east < SvNV P arg_west
  then (SvNV P arg_west, SvNV P arg_east) else (SvNV P arg_east, SvNV P arg_west)

/-- The statement of the bounding-box filter: the point `(x, y)` satisfies every
given bound. -/
def stated_in_bbox (P : Perl K) (arg_north arg_south arg_east arg_west : SV K)
    (t : K × K) : Prop :=
  (SvOK arg_north = false ∨ t.2 ≥ (stated_north_south P arg_north arg_south).1) ∧
  (SvOK arg_south = false ∨ t.2 ≤ (stated_north_south P arg_north arg_south).2) ∧
  (SvOK arg_east = false ∨ t.1 ≤ (stated_east_west P arg_east arg_west).1) ∧
  (SvOK arg_west = false ∨ t.1 ≥ (stated_east_west P arg_east arg_west).2)

instance (P : Perl K) (arg_north arg_south arg_east arg_west : SV K) (t : K × K) :
    Decidable (stated_in_bbox P arg_north arg_south arg_east arg_west t) := by
  unfold stated_in_bbox
  exact inferInstance

/-- The statement of the bounding-box filter: the array that replaces the target
`t`, with the coordinates of `move_point_away` when `t` satisfies every given
bound and with its own coordinates otherwise. -/
def stated_target (L : Libm K) (P : Perl K)
    (arg_north arg_south arg_east arg_west : SV K) (d g : K) (pts_a : List (K × K))
    (t : K × K) : AV K :=
  point_av (if stated_in_bbox P arg_north arg_south arg_east arg_west t then
    move_point_away L t.1 t.2 d g pts_a else t)

/-- The arrays of the state are those that `recalculate` computes for the point of
the state. -/
def fresh (L : Libm K) (pts : List (K × K)) (s : mpa_state K) : Prop :=
  s.point_info = (recalculate L s.x s.y pts).1 ∧
  s.line_info = (recalculate L s.x s.y pts).2

/-- The entries that the loops of `move_line_away` and `av_to_arrays` pass over:
an absent slot, a scalar that is not a reference to an array, and a reference to
an array with fewer than two elements. -/
def skipped_entry (h : Heap K) : Option (SV K) → Prop
  | some (SV.rv_av xy) => (h xy).length < 2
  | _ => True

/-- The entries that the loops read without touching an unassigned slot: those
that are passed over, and the arrays with at least two elements whose first two
slots are assigned. -/
def readable_entry (h : Heap K) : Option (SV K) → Prop
  | some (SV.rv_av xy) =>
    (h xy).length < 2 ∨ (av_fetch (h xy) 0 ≠ none ∧ av_fetch (h xy) 1 ≠ none)
  | _ => True

/-- The sixteen compass tokens in the order east, east-south-east, ..., around the
compass. -/
def compass_tokens : List String :=
  ["e", "ese", "se", "sse", "s", "ssw", "sw", "wsw",
   "w", "wnw", "nw", "nnw", "n", "nne", "ne", "ene"]

/-- A Perl runtime in which every string and every reference has numeric value
`0`. -/
def plain_perl (K : Type) [LinearOrderedField K] : Perl K :=
  { str_nv := fun _ => 0, nv_pv := fun _ => "", ref_nv := fun _ => 0,
    ref_pv := fun _ => "" }

/-- The state of `move_point_away` after the first call of `recalculate`
(line 212). -/
def mpa_start (L : Libm K) (x y : K) (pts : List (K × K)) : mpa_state K :=
  { x := x, y := y, point_info := (recalculate L x y pts).1,
    line_info := (recalculate L x y pts).2 }

/-- The state of `move_point_away` after `k` iterations of the corner loop. -/
def after_corner (L : Libm K) (x y d g : K) (pts : List (K × K)) (k : Nat) : mpa_state K :=
  (List.range k).foldl (corner_step L d (d + 1 / 1000) g pts) (mpa_start L x y pts)

/-- The state of `move_point_away` after the whole corner loop and `k` iterations of
the segment loop. -/
def after_segment (L : Libm K) (x y d g : K) (pts : List (K × K)) (k : Nat) :
    mpa_state K :=
  (List.range k).foldl (segment_step L d (d + 1 / 1000) g pts)
    (after_corner L x y d g pts (pts.length - 2))

end Defs


/-! ## Reference definitions over the reals -/

section RealDefs

/-- Euclidean distance between two points of the plane. -/
noncomputable def euclid (p q : ℝ × ℝ) : ℝ :=
  Real.sqrt ((p.1 - q.1) ^ 2 + (p.2 - q.2) ^ 2)

/-- The point `A + s * (B - A)` of the line through `A` and `B`. -/
def segment_point (a b : ℝ × ℝ) (s : ℝ) : ℝ × ℝ :=
  (a.1 + s * (b.1 - a.1), a.2 + s * (b.2 - a.2))

/-- The query `q` is at Euclidean distance at least `thr` from every vertex and
from every point of every closed segment of the line. -/
def clear_of (q : ℝ × ℝ) (pts : List (ℝ × ℝ)) (thr : ℝ) : Prop :=
  (∀ v ∈ pts, thr ≤ euclid q v) ∧
  (∀ i, i + 1 < pts.length → ∀ s : ℝ, 0 ≤ s → s ≤ 1 →
    thr ≤ euclid q (segment_point (pts.getD i (0, 0)) (pts.getD (i + 1) (0, 0)) s))

/-- The point `r` is anchored at distance `d`: it is at Euclidean distance `d` from
a vertex, or on some segment its `rl` lies in `[0, 1]` and its `dl` is `d`. -/
def anchored (pts : List (ℝ × ℝ)) (d : ℝ) (r : ℝ × ℝ) : Prop :=
  (∃ i, i < pts.length ∧ euclid r (pts.getD i (0, 0)) = d) ∨
  (∃ i, i + 1 < pts.length ∧
    0 ≤ (recalculate_line realLibm r.1 r.2 pts i).rl ∧
    (recalculate_line realLibm r.1 r.2 pts i).rl ≤ 1 ∧
    (recalculate_line realLibm r.1 r.2 pts i).dl = d)

/-- The point that the segment pass is stated to assign: `P + d * (-sin t, cos t)`
when `sin (t - g) < 0`, and `P + d * (sin t, -cos t)` otherwise. -/
noncomputable def stated_segment_target (px py d t g : ℝ) : ℝ × ℝ :=
  if Real.sin (t - g) < 0 then (px + d * (-Real.sin t), py + d * Real.cos t)
  else (px + d * Real.sin t, py + d * (-Real.cos t))

/-- The reference definition of `recalculate`: one entry per vertex with the
Euclidean distance to the query, and one entry per pair of consecutive vertices
with the outputs of `segment_voodoo`, the length of the segment, its square, the
segment vector and its angle. -/
noncomputable def recalculate_reference (cx cy : ℝ) (pts : List (ℝ × ℝ)) :
    List (point_info_t ℝ) × List (line_info_t ℝ) :=
  (pts.map (fun v => { dp := euclid (cx, cy) v }),
   (pts.zip pts.tail).map (fun ab =>
     { rl := (segment_voodoo realLibm cx cy ab.1.1 ab.1.2 ab.2.1 ab.2.2).rl,
       px := (segment_voodoo realLibm cx cy ab.1.1 ab.1.2 ab.2.1 ab.2.2).px,
       py := (segment_voodoo realLibm cx cy ab.1.1 ab.1.2 ab.2.1 ab.2.2).py,
       sl := (segment_voodoo realLibm cx cy ab.1.1 ab.1.2 ab.2.1 ab.2.2).sl,
       dl := (segment_voodoo realLibm cx cy ab.1.1 ab.1.2 ab.2.1 ab.2.2).dl,
       ll := euclid ab.1 ab.2,
       l2 := euclid ab.1 ab.2 ^ 2,
       dx := ab.2.1 - ab.1.1,
       dy := ab.2.2 - ab.1.2,
       theta := realLibm.atan2 (ab.2.2 - ab.1.2) (ab.2.1 - ab.1.1) }))

end RealDefs

/-! ## Facts about the real math library -/

section RealLemmas

@[simp] lemma realLibm_sqrt (x : ℝ) : realLibm.sqrt x = Real.sqrt x := rfl

@[simp] lemma realLibm_sin (x : ℝ) : realLibm.sin x = Real.sin x := rfl

@[simp] lemma realLibm_cos (x : ℝ) : realLibm.cos x = Real.cos x := rfl

lemma realLibm_atan2 (y x : ℝ) : realLibm.atan2 y x = Complex.arg ⟨x, y⟩ := rfl

/-- The modulus of `x + y i` is the Euclidean length of `(x, y)`. -/
lemma abs_mk_eq_sqrt (x y : ℝ) : Complex.abs ⟨x, y⟩ = Real.sqrt (x * x + y * y) := by
  rw [Complex.abs_apply, Complex.normSq_mk]

lemma sq_sum_pos {x y : ℝ} (h : x ≠ 0 ∨ y ≠ 0) : 0 < x * x + y * y := by
  rcases h with h | h
  · have := mul_self_pos.mpr h
    nlinarith [mul_self_nonneg y]
  · have := mul_self_pos.mpr h
    nlinarith [mul_self_nonneg x]

/-- The cosine of `atan2 y x` away from the origin. -/
lemma cos_atan2 {x y : ℝ} (h : x ≠ 0 ∨ y ≠ 0) :
    Real.cos (realLibm.atan2 y x) = x / Real.sqrt (x * x + y * y) := by
  have hz : (⟨x, y⟩ : ℂ) ≠ 0 := by
    intro hc
    have h1 := congrArg Complex.re hc
    have h2 := congrArg Complex.im hc
    simp at h1 h2
    rcases h with h | h
    · exact h h1
    · exact h h2
  rw [realLibm_atan2, Complex.cos_arg hz, abs_mk_eq_sqrt]

/-- The sine of `atan2 y x`. -/
lemma sin_atan2 (x y : ℝ) :
    Real.sin (realLibm.atan2 y x) = y / Real.sqrt (x * x + y * y) := by
  rw [realLibm_atan2, Complex.sin_arg, abs_mk_eq_sqrt]

/-- The value of `pyth` over the reals, with squares. -/
lemma pyth_real (x0 y0 x1 y1 : ℝ) :
    pyth realLibm x0 y0 x1 y1 = Real.sqrt ((x1 - x0) ^ 2 + (y1 - y0) ^ 2) := by
  simp only [pyth, realLibm_sqrt, sq]

end RealLemmas

/-! ## The segment projection -/

section Projection

variable {K : Type} [LinearOrderedField K]

lemma seg_l2_ne_zero {ax ay bx b_y : K} (h : (ax, ay) ≠ (bx, b_y)) :
    (bx - ax) * (bx - ax) + (b_y - ay) * (b_y - ay) ≠ 0 := by
  intro h0
  have h1 : (bx - ax) * (bx - ax) = 0 := by
    nlinarith [mul_self_nonneg (bx - ax), mul_self_nonneg (b_y - ay)]
  have h2 : (b_y - ay) * (b_y - ay) = 0 := by
    nlinarith [mul_self_nonneg (bx - ax), mul_self_nonneg (b_y - ay)]
  have e1 : bx - ax = 0 := by simpa using h1
  have e2 : b_y - ay = 0 := by simpa using h2
  apply h
  rw [Prod.mk.injEq]
  exact ⟨(sub_eq_zero.mp e1).symm, (sub_eq_zero.mp e2).symm⟩

/-- C10. For distinct `A` and `B`, the point `(px, py)` returned by `segment_voodoo`
is `A + rl * (B - A)`, the vector from it to the query `C` is orthogonal to `B - A`,
and `rl` lies in `[0, 1]` exactly when `(px, py)` is a point `A + s * (B - A)` of
the closed segment, `0 ≤ s ≤ 1`. -/
theorem segment_voodoo_orthogonal_foot (L : Libm K) (cx cy ax ay bx b_y : K)
    (hAB : (ax, ay) ≠ (bx, b_y)) :
    (segment_voodoo L cx cy ax ay bx b_y).px
        = ax + (segment_voodoo L cx cy ax ay bx b_y).rl * (bx - ax) ∧
    (segment_voodoo L cx cy ax ay bx b_y).py
        = ay + (segment_voodoo L cx cy ax ay bx b_y).rl * (b_y - ay) ∧
    (cx - (segment_voodoo L cx cy ax ay bx b_y).px) * (bx - ax)
        + (cy - (segment_voodoo L cx cy ax ay bx b_y).py) * (b_y - ay) = 0 ∧
    ((0 ≤ (segment_voodoo L cx cy ax ay bx b_y).rl ∧
        (segment_voodoo L cx cy ax ay bx b_y).rl ≤ 1) ↔
      ∃ s : K, 0 ≤ s ∧ s ≤ 1 ∧
        (segment_voodoo L cx cy ax ay bx b_y).px = ax + s * (bx - ax) ∧
        (segment_voodoo L cx cy ax ay bx b_y).py = ay + s * (b_y - ay)) := by
  have hl2 := seg_l2_ne_zero hAB
  simp only [segment_voodoo]
  refine ⟨trivial, trivial, ?_, ?_⟩
  · field_simp
    ring
  · constructor
    · intro h
      exact ⟨_, h.1, h.2, rfl, rfl⟩
    · rintro ⟨s, hs0, hs1, hx, hy⟩
      set rl := ((cx - ax) * (bx - ax) + (cy - ay) * (b_y - ay)) /
        ((bx - ax) * (bx - ax) + (b_y - ay) * (b_y - ay)) with hrl
      have e1 : (rl - s) * (bx - ax) = 0 := by linear_combination hx
      have e2 : (rl - s) * (b_y - ay) = 0 := by linear_combination hy
      have e3 : (rl - s) * ((bx - ax) * (bx - ax) + (b_y - ay) * (b_y - ay)) = 0 := by
        linear_combination (bx - ax) * e1 + (b_y - ay) * e2
      have e4 : rl - s = 0 := by
        rcases mul_eq_zero.mp e3 with h | h
        · exact h
        · exact absurd h hl2
      have e5 : rl = s := sub_eq_zero.mp e4
      rw [e5]
      exact ⟨hs0, hs1⟩

/-- The orthogonal-foot theorem at the query `(5, 1)` and the segment from `(0, 0)`
to `(10, 0)`, over the rationals. -/
theorem segment_voodoo_orthogonal_foot_witness :
    ((0 : ℚ), (0 : ℚ)) ≠ (10, 0) ∧
    (segment_voodoo ⟨id, id, id, fun y _ => y⟩ (5 : ℚ) 1 0 0 10 0).px = 5 ∧
    (segment_voodoo ⟨id, id, id, fun y _ => y⟩ (5 : ℚ) 1 0 0 10 0).py = 0 ∧
    (segment_voodoo ⟨id, id, id, fun y _ => y⟩ (5 : ℚ) 1 0 0 10 0).rl = 1 / 2 ∧
    ((5 : ℚ) - (segment_voodoo ⟨id, id, id, fun y _ => y⟩ (5 : ℚ) 1 0 0 10 0).px) * (10 - 0)
      + (1 - (segment_voodoo ⟨id, id, id, fun y _ => y⟩ (5 : ℚ) 1 0 0 10 0).py) * (0 - 0)
      = 0 :=
  ⟨by decide, by norm_num [segment_voodoo], by norm_num [segment_voodoo],
    by norm_num [segment_voodoo],
    (segment_voodoo_orthogonal_foot ⟨id, id, id, fun y _ => y⟩ (5 : ℚ) 1 0 0 10 0
      (by decide)).2.2.1⟩

end Projection

/-! ## The side rule -/

section SideRule

/-- C6. The point assigned by the shared relocation code is the anchor plus
`distance` times a vector `n`, where `n` is the left normal `(-sin a, cos a)` when
`sin (a - g) < 0` and the right normal `(sin a, -cos a)` otherwise; `n` has length
one, is orthogonal to `(cos a, sin a)`, and its dot product with the preferred
direction `(cos g, sin g)` is not negative. -/
theorem side_rule_agrees_with_direction (a g d ox oy : ℝ) (pts : List (ℝ × ℝ)) :
    ∃ nx ny : ℝ,
      (nx, ny) = (if Real.sin (a - g) < 0 then (-Real.sin a, Real.cos a)
                  else (Real.sin a, -Real.cos a)) ∧
      (relocate realLibm d g pts ox oy a).x = ox + d * nx ∧
      (relocate realLibm d g pts ox oy a).y = oy + d * ny ∧
      nx ^ 2 + ny ^ 2 = 1 ∧
      nx * Real.cos a + ny * Real.sin a = 0 ∧
      0 ≤ nx * Real.cos g + ny * Real.sin g := by
  by_cases h : Real.sin (a - g) < 0
  · refine ⟨-Real.sin a, Real.cos a, by simp [h], ?_, ?_, ?_, ?_, ?_⟩
    · simp [relocate, h]; ring
    · simp [relocate, h]
    · nlinarith [Real.sin_sq_add_cos_sq a]
    · ring
    · have e := Real.sin_sub a g
      nlinarith
  · refine ⟨Real.sin a, -Real.cos a, by simp [h], ?_, ?_, ?_, ?_, ?_⟩
    · simp [relocate, h]
    · simp [relocate, h]; ring
    · nlinarith [Real.sin_sq_add_cos_sq a]
    · ring
    · have e := Real.sin_sub a g
      have h' := not_lt.mp h
      nlinarith

end SideRule

/-! ## A reference line with a single vertex -/

section SingleVertex

/-- The value of `move_point_away` on a one-vertex line, over any field. -/
lemma move_point_away_singleton {K : Type} [LinearOrderedField K] (L : Libm K)
    (x y d g vx vy : K) :
    move_point_away L x y d g [(vx, vy)] =
      if pyth L x y vx vy < d + 1 / 1000 then
        (vx + d * L.cos (L.atan2 (vy - y) (vx - x)),
         vy + d * L.sin (L.atan2 (vy - y) (vx - x)))
      else (x, y) := by
  simp [move_point_away, xx_at, yy_at]

/-- C2. On the one-vertex line `[V0]`, `move_point_away` returns
`V0 + d * (cos t, sin t)` with `t = atan2 (V0.y - q.y) (V0.x - q.x)` when the
Euclidean distance from `q` to `V0` is below `d + 0.001`, and `q` otherwise; for
`q ≠ V0` the relocated point is `V0 + d * (V0 - q) / |V0 - q|`. -/
theorem single_vertex_rule (qx qy d g vx vy : ℝ) :
    move_point_away realLibm qx qy d g [(vx, vy)] =
      (if Real.sqrt ((vx - qx) ^ 2 + (vy - qy) ^ 2) < d + 1 / 1000 then
        (vx + d * Real.cos (realLibm.atan2 (vy - qy) (vx - qx)),
         vy + d * Real.sin (realLibm.atan2 (vy - qy) (vx - qx)))
       else (qx, qy)) ∧
    ((qx, qy) ≠ (vx, vy) →
      (vx + d * Real.cos (realLibm.atan2 (vy - qy) (vx - qx)),
       vy + d * Real.sin (realLibm.atan2 (vy - qy) (vx - qx))) =
      (vx + d * ((vx - qx) / Real.sqrt ((vx - qx) ^ 2 + (vy - qy) ^ 2)),
       vy + d * ((vy - qy) / Real.sqrt ((vx - qx) ^ 2 + (vy - qy) ^ 2)))) := by
  constructor
  · rw [move_point_away_singleton, pyth_real]
    simp only [realLibm_cos, realLibm_sin]
  · intro hne
    have h : vx - qx ≠ 0 ∨ vy - qy ≠ 0 := by
      by_contra hc
      push_neg at hc
      apply hne
      rw [Prod.mk.injEq]
      exact ⟨(sub_eq_zero.mp hc.1).symm, (sub_eq_zero.mp hc.2).symm⟩
    rw [cos_atan2 h, sin_atan2]
    simp only [sq]

/-- The single-vertex rule at `V0 = (0, 0)`, `q = (3, 4)`, `d = 10`: the query is at
distance `5` and is sent to `(-6, -8)`. -/
theorem single_vertex_rule_witness :
    ((3 : ℝ), (4 : ℝ)) ≠ (0, 0) ∧
    move_point_away realLibm 3 4 10 0 [(0, 0)] = (-6, -8) := by
  have h5 : Real.sqrt ((0 - 3) ^ 2 + (0 - 4) ^ 2) = 5 := by
    rw [show ((0 : ℝ) - 3) ^ 2 + (0 - 4) ^ 2 = 5 ^ 2 by norm_num]
    exact Real.sqrt_sq (by norm_num)
  have hne : ((3 : ℝ), (4 : ℝ)) ≠ (0, 0) := by
    intro h
    have := congrArg Prod.fst h
    norm_num at this
  have h := single_vertex_rule 3 4 10 0 0 0
  refine ⟨hne, ?_⟩
  rw [h.1, if_pos (by rw [h5]; norm_num), h.2 hne, h5]
  norm_num

/-- C3, as the code behaves. For `V0 = (0, 0)`, the query `(0.5, 0)` and
`minDistance = 1`, the query is relocated and the result is `(-1, 0)`: the ray from
the query through `V0` points in the direction of angle `π`. -/
theorem single_vertex_example (g : ℝ) :
    pyth realLibm (1 / 2) 0 0 0 < 1 + 1 / 1000 ∧
    move_point_away realLibm (1 / 2) 0 1 g [(0, 0)] = (-1, 0) := by
  have hs : Real.sqrt ((0 - 1 / 2) ^ 2 + (0 - 0) ^ 2) = 1 / 2 := by
    rw [show ((0 : ℝ) - 1 / 2) ^ 2 + (0 - 0) ^ 2 = (1 / 2) ^ 2 by norm_num]
    exact Real.sqrt_sq (by norm_num)
  have h5 : (0 - 1 / 2 : ℝ) ≠ 0 ∨ (0 - 0 : ℝ) ≠ 0 := Or.inl (by norm_num)
  have hlt : pyth realLibm (1 / 2) 0 0 0 < 1 + 1 / 1000 := by
    rw [pyth_real, hs]; norm_num
  refine ⟨hlt, ?_⟩
  rw [move_point_away_singleton, if_pos hlt]
  simp only [realLibm_cos, realLibm_sin]
  rw [cos_atan2 h5, sin_atan2]
  simp only [← sq]
  rw [hs]
  norm_num

/-- C3, as the specification states it, fails: the result is not `(1, 0)`. -/
theorem single_vertex_example_not_spec :
    move_point_away realLibm (1 / 2) 0 1 0 [(0, 0)] ≠ (1, 0) := by
  have hs : Real.sqrt ((0 - 1 / 2) ^ 2 + (0 - 0) ^ 2) = 1 / 2 := by
    rw [show ((0 : ℝ) - 1 / 2) ^ 2 + (0 - 0) ^ 2 = (1 / 2) ^ 2 by norm_num]
    exact Real.sqrt_sq (by norm_num)
  have h5 : (0 - 1 / 2 : ℝ) ≠ 0 ∨ (0 - 0 : ℝ) ≠ 0 := Or.inl (by norm_num)
  rw [move_point_away_singleton, pyth_real, if_pos (by rw [hs]; norm_num)]
  simp only [realLibm_cos, realLibm_sin]
  rw [cos_atan2 h5, sin_atan2]
  simp only [← sq]
  rw [hs]
  intro hc
  have := congrArg Prod.fst hc
  norm_num at this

end SingleVertex


/-! ## The bounding box -/

section Batch

variable {K : Type} [LinearOrderedField K]

/-- The north bound after the exchange of lines 68-72, when north is given. -/
lemma bbox_north (P : Perl K) (aN aS aE aW : SV K) (h : SvOK aN = true) :
    (bbox_of P aN aS aE aW).north = (stated_north_south P aN aS).1 := by
  unfold bbox_of stated_north_south
  by_cases hs : SvOK aS = true
  · by_cases hlt : SvNV P aS < SvNV P aN
    · simp [h, hs, hlt]
    · simp [h, hs, hlt]
  · simp [h, hs]

/-- The south bound after the exchange of lines 68-72, when south is given. -/
lemma bbox_south (P : Perl K) (aN aS aE aW : SV K) (h : SvOK aS = true) :
    (bbox_of P aN aS aE aW).south = (stated_north_south P aN aS).2 := by
  unfold bbox_of stated_north_south
  by_cases hs : SvOK aN = true
  · by_cases hlt : SvNV P aS < SvNV P aN
    · simp [h, hs, hlt]
    · simp [h, hs, hlt]
  · simp [h, hs]

/-- The east bound after the exchange of lines 73-77, when east is given. -/
lemma bbox_east (P : Perl K) (aN aS aE aW : SV K) (h : SvOK aE = true) :
    (bbox_of P aN aS aE aW).east = (stated_east_west P aE aW).1 := by
  unfold bbox_of stated_east_west
  by_cases hs : SvOK aW = true
  · by_cases hlt : SvNV P aE < SvNV P aW
    · simp [h, hs, hlt]
    · simp [h, hs, hlt]
  · simp [h, hs]

/-- The west bound after the exchange of lines 73-77, when west is given. -/
lemma bbox_west (P : Perl K) (aN aS aE aW : SV K) (h : SvOK aW = true) :
    (bbox_of P aN aS aE aW).west = (stated_east_west P aE aW).2 := by
  unfold bbox_of stated_east_west
  by_cases hs : SvOK aE = true
  · by_cases hlt : SvNV P aE < SvNV P aW
    · simp [h, hs, hlt]
    · simp [h, hs, hlt]
  · simp [h, hs]

/-- The skip tests of lines 131-134, in terms of the stated bounds. -/
lemma skip_iff_not_in_bbox (P : Perl K) (aN aS aE aW : SV K) (t : K × K) :
    (((bbox_of P aN aS aE aW).check_north = true ∧ t.2 < (bbox_of P aN aS aE aW).north) ∨
     ((bbox_of P aN aS aE aW).check_south = true ∧ t.2 > (bbox_of P aN aS aE aW).south) ∨
     ((bbox_of P aN aS aE aW).check_east = true ∧ t.1 > (bbox_of P aN aS aE aW).east) ∨
     ((bbox_of P aN aS aE aW).check_west = true ∧ t.1 < (bbox_of P aN aS aE aW).west)) ↔
    ¬ stated_in_bbox P aN aS aE aW t := by
  have cN : (bbox_of P aN aS aE aW).check_north = SvOK aN := rfl
  have cS : (bbox_of P aN aS aE aW).check_south = SvOK aS := rfl
  have cE : (bbox_of P aN aS aE aW).check_east = SvOK aE := rfl
  have cW : (bbox_of P aN aS aE aW).check_west = SvOK aW := rfl
  have iN : ((bbox_of P aN aS aE aW).check_north = true ∧ t.2 < (bbox_of P aN aS aE aW).north) ↔
      ¬ (SvOK aN = false ∨ t.2 ≥ (stated_north_south P aN aS).1) := by
    rw [cN]
    by_cases hc : SvOK aN = true
    · rw [bbox_north P aN aS aE aW hc]; simp [hc]
    · simp [hc]
  have iS : ((bbox_of P aN aS aE aW).check_south = true ∧ t.2 > (bbox_of P aN aS aE aW).south) ↔
      ¬ (SvOK aS = false ∨ t.2 ≤ (stated_north_south P aN aS).2) := by
    rw [cS]
    by_cases hc : SvOK aS = true
    · rw [bbox_south P aN aS aE aW hc]; simp [hc]
    · simp [hc]
  have iE : ((bbox_of P aN aS aE aW).check_east = true ∧ t.1 > (bbox_of P aN aS aE aW).east) ↔
      ¬ (SvOK aE = false ∨ t.1 ≤ (stated_east_west P aE aW).1) := by
    rw [cE]
    by_cases hc : SvOK aE = true
    · rw [bbox_east P aN aS aE aW hc]; simp [hc]
    · simp [hc]
  have iW : ((bbox_of P aN aS aE aW).check_west = true ∧ t.1 < (bbox_of P aN aS aE aW).west) ↔
      ¬ (SvOK aW = false ∨ t.1 ≥ (stated_east_west P aE aW).2) := by
    rw [cW]
    by_cases hc : SvOK aW = true
    · rw [bbox_west P aN aS aE aW hc]; simp [hc]
    · simp [hc]
  rw [iN, iS, iE, iW]
  unfold stated_in_bbox
  constructor
  · rintro (h | h | h | h) hc
    · exact h hc.1
    · exact h hc.2.1
    · exact h hc.2.2.1
    · exact h hc.2.2.2
  · intro h
    by_contra hc
    push_neg at hc
    exact h ⟨hc.1, hc.2.1, hc.2.2.1, hc.2.2.2⟩

end Batch

/-! ## Lines without repeated vertices -/

section ReferenceLine

lemma chain_getD {α : Type} (l : List α) (d : α) (h : List.Chain' (fun a b => a ≠ b) l)
    (i : Nat) (hi : i + 1 < l.length) : l.getD i d ≠ l.getD (i + 1) d := by
  rw [List.getD_eq_getElem l d (by omega), List.getD_eq_getElem l d hi]
  have := (List.chain'_iff_get.mp h) i (by omega)
  simpa using this

/-- The entries of `line_info` have positive `ll` and `l2` on a line without
consecutive equal vertices. -/
lemma recalculate_line_pos (cx cy : ℝ) (pts : List (ℝ × ℝ))
    (h : List.Chain' (fun a b => a ≠ b) pts) (i : Nat) (hi : i + 1 < pts.length) :
    0 < (recalculate_line realLibm cx cy pts i).l2 ∧
    0 < (recalculate_line realLibm cx cy pts i).ll := by
  have hne := chain_getD pts (0, 0) h i hi
  have hd : xx_at pts (i + 1) - xx_at pts i ≠ 0 ∨ yy_at pts (i + 1) - yy_at pts i ≠ 0 := by
    by_contra hc
    push_neg at hc
    apply hne
    apply Prod.ext
    · exact (sub_eq_zero.mp hc.1).symm
    · exact (sub_eq_zero.mp hc.2).symm
  have hll : 0 < pyth realLibm (xx_at pts i) (yy_at pts i) (xx_at pts (i + 1))
      (yy_at pts (i + 1)) := by
    simp only [pyth, realLibm_sqrt]
    exact Real.sqrt_pos.mpr (sq_sum_pos hd)
  simp only [recalculate_line]
  exact ⟨mul_pos hll hll, hll⟩

end ReferenceLine

/-! ## Perpendicular foot and normal offsets -/

section Passes

/-- The vector from the foot of the perpendicular to `C`, in terms of `sl`. -/
lemma foot_offsets (dx dy u v S rl sl : ℝ) (hS : S = dx * dx + dy * dy) (hne : S ≠ 0)
    (hrl : rl * S = u * dx + v * dy) (hsl : sl * S = -v * dx + u * dy) :
    u - rl * dx = sl * dy ∧ v - rl * dy = -(sl * dx) := by
  constructor
  · have h : (u - rl * dx - sl * dy) * S = 0 := by
      linear_combination (-dx) * hrl - dy * hsl + u * hS
    rcases mul_eq_zero.mp h with h | h
    · linarith
    · exact absurd h hne
  · have h : (v - rl * dy + sl * dx) * S = 0 := by
      linear_combination (-dy) * hrl + dx * hsl + v * hS
    rcases mul_eq_zero.mp h with h | h
    · linarith
    · exact absurd h hne

/-- The distance from `C` to the foot of the perpendicular is `fabs(sl) * ll`. -/
lemma foot_distance (ax ay bx b_y cx cy ll : ℝ) (hll : 0 < ll)
    (hl2 : ll * ll = (bx - ax) * (bx - ax) + (b_y - ay) * (b_y - ay)) :
    Real.sqrt
      ((cx - (ax + ((cx - ax) * (bx - ax) + (cy - ay) * (b_y - ay)) / (ll * ll) * (bx - ax))) ^ 2 +
       (cy - (ay + ((cx - ax) * (bx - ax) + (cy - ay) * (b_y - ay)) / (ll * ll) * (b_y - ay))) ^ 2)
      = |((ay - cy) * (bx - ax) - (ax - cx) * (b_y - ay)) / (ll * ll)| * ll := by
  have hne : ll * ll ≠ 0 := (mul_pos hll hll).ne'
  have hnn : 0 ≤ |((ay - cy) * (bx - ax) - (ax - cx) * (b_y - ay)) / (ll * ll)| * ll :=
    mul_nonneg (abs_nonneg _) hll.le
  obtain ⟨e1, e2⟩ := foot_offsets (bx - ax) (b_y - ay) (cx - ax) (cy - ay) (ll * ll)
    (((cx - ax) * (bx - ax) + (cy - ay) * (b_y - ay)) / (ll * ll))
    (((ay - cy) * (bx - ax) - (ax - cx) * (b_y - ay)) / (ll * ll)) hl2 hne
    (div_mul_cancel₀ _ hne) (by rw [div_mul_cancel₀ _ hne]; ring)
  generalize ((cx - ax) * (bx - ax) + (cy - ay) * (b_y - ay)) / (ll * ll) = rl at e1 e2 ⊢
  generalize ((ay - cy) * (bx - ax) - (ax - cx) * (b_y - ay)) / (ll * ll) = sl at e1 e2 hnn ⊢
  rw [← Real.sqrt_sq hnn]
  congr 1
  rw [mul_pow, sq_abs]
  have h1 : cx - (ax + rl * (bx - ax)) = sl * (b_y - ay) := by linarith
  have h2 : cy - (ay + rl * (b_y - ay)) = -(sl * (bx - ax)) := by linarith
  rw [h1, h2]
  have : ll ^ 2 = (bx - ax) * (bx - ax) + (b_y - ay) * (b_y - ay) := by rw [sq]; exact hl2
  rw [this]
  ring

/-- Moving the foot `P = A + r (B - A)` by `k` along the unit normal `(sn, -cs)` of
the segment keeps `rl` and gives `fabs(sl) * ll = |k|`. -/
lemma shift_core (ax ay bx b_y r ll k sn cs : ℝ) (hll : 0 < ll)
    (hl2 : ll * ll = (bx - ax) * (bx - ax) + (b_y - ay) * (b_y - ay))
    (hsn : sn = (b_y - ay) / ll) (hcs : cs = (bx - ax) / ll) :
    ((((ax + r * (bx - ax)) + k * sn) - ax) * (bx - ax) +
      (((ay + r * (b_y - ay)) - k * cs) - ay) * (b_y - ay)) / (ll * ll) = r ∧
    |((ay - ((ay + r * (b_y - ay)) - k * cs)) * (bx - ax) -
      (ax - ((ax + r * (bx - ax)) + k * sn)) * (b_y - ay)) / (ll * ll)| * ll = |k| := by
  have hne : ll ≠ 0 := hll.ne'
  have hne2 : ll * ll ≠ 0 := mul_ne_zero hne hne
  have hsn' : sn * ll = b_y - ay := by rw [hsn]; exact div_mul_cancel₀ _ hne
  have hcs' : cs * ll = bx - ax := by rw [hcs]; exact div_mul_cancel₀ _ hne
  have horth : sn * (bx - ax) - cs * (b_y - ay) = 0 := by
    have h : (sn * (bx - ax) - cs * (b_y - ay)) * ll = 0 := by
      linear_combination (bx - ax) * hsn' - (b_y - ay) * hcs'
    rcases mul_eq_zero.mp h with h | h
    · exact h
    · exact absurd h hne
  have hpar : cs * (bx - ax) + sn * (b_y - ay) = ll := by
    have h : (cs * (bx - ax) + sn * (b_y - ay) - ll) * ll = 0 := by
      linear_combination (bx - ax) * hcs' + (b_y - ay) * hsn' - hl2
    rcases mul_eq_zero.mp h with h | h
    · linarith
    · exact absurd h hne
  constructor
  · rw [div_eq_iff hne2]
    linear_combination k * horth - r * hl2
  · have h : ((ay - ((ay + r * (b_y - ay)) - k * cs)) * (bx - ax) -
        (ax - ((ax + r * (bx - ax)) + k * sn)) * (b_y - ay)) = k * ll := by
      linear_combination k * hpar
    rw [h, mul_div_mul_right _ _ hne, abs_div, abs_of_pos hll, div_mul_cancel₀ _ hne]

/-! ## The geometry cache over the reals -/

lemma recalc_line_getD {K : Type} [LinearOrderedField K] (L : Libm K) (cx cy : K)
    (pts : List (K × K)) (i : Nat) (hi : i + 1 < pts.length) :
    (recalculate L cx cy pts).2.getD i default = recalculate_line L cx cy pts i := by
  simp only [recalculate]
  rw [List.getD_eq_getElem _ _ (by simp; omega)]
  simp

lemma recalc_point_getD {K : Type} [LinearOrderedField K] (L : Libm K) (cx cy : K)
    (pts : List (K × K)) (i : Nat) (hi : i < pts.length) :
    ((recalculate L cx cy pts).1.getD i default).dp =
      pyth L cx cy (xx_at pts i) (yy_at pts i) := by
  simp only [recalculate]
  rw [List.getD_eq_getElem _ _ (by simp; omega)]
  simp

lemma pyth_eq_euclid (x0 y0 x1 y1 : ℝ) :
    pyth realLibm x0 y0 x1 y1 = euclid (x0, y0) (x1, y1) := by
  simp only [pyth, realLibm_sqrt, euclid]
  congr 1
  ring

/-- The length of a segment between distinct consecutive vertices is positive and
its square is `dx * dx + dy * dy`. -/
lemma seg_len_facts (pts : List (ℝ × ℝ)) (h : List.Chain' (fun a b => a ≠ b) pts)
    (i : Nat) (hi : i + 1 < pts.length) :
    0 < pyth realLibm (xx_at pts i) (yy_at pts i) (xx_at pts (i + 1)) (yy_at pts (i + 1)) ∧
    pyth realLibm (xx_at pts i) (yy_at pts i) (xx_at pts (i + 1)) (yy_at pts (i + 1)) *
      pyth realLibm (xx_at pts i) (yy_at pts i) (xx_at pts (i + 1)) (yy_at pts (i + 1)) =
      (xx_at pts (i + 1) - xx_at pts i) * (xx_at pts (i + 1) - xx_at pts i) +
      (yy_at pts (i + 1) - yy_at pts i) * (yy_at pts (i + 1) - yy_at pts i) ∧
    (xx_at pts (i + 1) - xx_at pts i ≠ 0 ∨ yy_at pts (i + 1) - yy_at pts i ≠ 0) := by
  have hne := chain_getD pts (0, 0) h i hi
  have hd : xx_at pts (i + 1) - xx_at pts i ≠ 0 ∨ yy_at pts (i + 1) - yy_at pts i ≠ 0 := by
    by_contra hc
    push_neg at hc
    apply hne
    apply Prod.ext
    · exact (sub_eq_zero.mp hc.1).symm
    · exact (sub_eq_zero.mp hc.2).symm
  refine ⟨?_, ?_, hd⟩
  · simp only [pyth, realLibm_sqrt]
    exact Real.sqrt_pos.mpr (sq_sum_pos hd)
  · simp only [pyth, realLibm_sqrt]
    exact Real.mul_self_sqrt (sq_sum_pos hd).le

/-- The value `dl` of a segment entry is the Euclidean distance from the query to the
projected point. -/
lemma line_dl_eq_euclid (pts : List (ℝ × ℝ)) (h : List.Chain' (fun a b => a ≠ b) pts)
    (i : Nat) (hi : i + 1 < pts.length) (cx cy : ℝ) :
    (recalculate_line realLibm cx cy pts i).dl =
      euclid (cx, cy) ((recalculate_line realLibm cx cy pts i).px,
        (recalculate_line realLibm cx cy pts i).py) := by
  obtain ⟨hll, hl2, _⟩ := seg_len_facts pts h i hi
  simp only [recalculate_line, euclid]
  exact (foot_distance _ _ _ _ cx cy _ hll hl2).symm

/-- The projected point is the point of parameter `rl` of the segment. -/
lemma line_foot_eq (L : Libm ℝ) (pts : List (ℝ × ℝ)) (i : Nat) (cx cy : ℝ) :
    ((recalculate_line L cx cy pts i).px, (recalculate_line L cx cy pts i).py) =
      segment_point (pts.getD i (0, 0)) (pts.getD (i + 1) (0, 0))
        (recalculate_line L cx cy pts i).rl := rfl

/-- After the assignment of the segment pass, `rl` on that segment is unchanged and
`dl` is `|distance|`. -/
lemma relocate_on_segment (pts : List (ℝ × ℝ)) (h : List.Chain' (fun a b => a ≠ b) pts)
    (i : Nat) (hi : i + 1 < pts.length) (cx cy d g : ℝ) :
    (recalculate_line realLibm
        (relocate realLibm d g pts (recalculate_line realLibm cx cy pts i).px
          (recalculate_line realLibm cx cy pts i).py
          (recalculate_line realLibm cx cy pts i).theta).x
        (relocate realLibm d g pts (recalculate_line realLibm cx cy pts i).px
          (recalculate_line realLibm cx cy pts i).py
          (recalculate_line realLibm cx cy pts i).theta).y pts i).rl
      = (recalculate_line realLibm cx cy pts i).rl ∧
    (recalculate_line realLibm
        (relocate realLibm d g pts (recalculate_line realLibm cx cy pts i).px
          (recalculate_line realLibm cx cy pts i).py
          (recalculate_line realLibm cx cy pts i).theta).x
        (relocate realLibm d g pts (recalculate_line realLibm cx cy pts i).px
          (recalculate_line realLibm cx cy pts i).py
          (recalculate_line realLibm cx cy pts i).theta).y pts i).dl = |d| := by
  obtain ⟨hll, hl2, hd⟩ := seg_len_facts pts h i hi
  have hsn := sin_atan2 (xx_at pts (i + 1) - xx_at pts i) (yy_at pts (i + 1) - yy_at pts i)
  have hcs := cos_atan2 hd
  have hpy : Real.sqrt ((xx_at pts (i + 1) - xx_at pts i) * (xx_at pts (i + 1) - xx_at pts i) +
      (yy_at pts (i + 1) - yy_at pts i) * (yy_at pts (i + 1) - yy_at pts i)) =
      pyth realLibm (xx_at pts i) (yy_at pts i) (xx_at pts (i + 1)) (yy_at pts (i + 1)) := rfl
  rw [hpy] at hsn hcs
  simp only [recalculate_line, relocate, realLibm_sin, realLibm_cos]
  generalize pyth realLibm (xx_at pts i) (yy_at pts i) (xx_at pts (i + 1)) (yy_at pts (i + 1))
    = ll at hll hl2 hsn hcs ⊢
  generalize Real.sin (realLibm.atan2 (yy_at pts (i + 1) - yy_at pts i)
    (xx_at pts (i + 1) - xx_at pts i)) = sn at hsn ⊢
  generalize Real.cos (realLibm.atan2 (yy_at pts (i + 1) - yy_at pts i)
    (xx_at pts (i + 1) - xx_at pts i)) = cs at hcs ⊢
  generalize ((cx - xx_at pts i) * (xx_at pts (i + 1) - xx_at pts i) +
    (cy - yy_at pts i) * (yy_at pts (i + 1) - yy_at pts i)) / (ll * ll) = r
  by_cases hs : Real.sin (realLibm.atan2 (yy_at pts (i + 1) - yy_at pts i)
      (xx_at pts (i + 1) - xx_at pts i) - g) < 0
  · simp only [if_pos hs]
    have hx : xx_at pts i + r * (xx_at pts (i + 1) - xx_at pts i) - d * sn =
        xx_at pts i + r * (xx_at pts (i + 1) - xx_at pts i) + (-d) * sn := by ring
    have hy : yy_at pts i + r * (yy_at pts (i + 1) - yy_at pts i) + d * cs =
        yy_at pts i + r * (yy_at pts (i + 1) - yy_at pts i) - (-d) * cs := by ring
    rw [hx, hy]
    have := shift_core (xx_at pts i) (yy_at pts i) (xx_at pts (i + 1)) (yy_at pts (i + 1))
      r ll (-d) sn cs hll hl2 hsn hcs
    rw [abs_neg] at this
    exact this
  · simp only [if_neg hs]
    exact shift_core (xx_at pts i) (yy_at pts i) (xx_at pts (i + 1)) (yy_at pts (i + 1))
      r ll d sn cs hll hl2 hsn hcs

/-- The point assigned by the shared relocation code is at Euclidean distance
`|distance|` from the anchor. -/
lemma relocate_dist (pts : List (ℝ × ℝ)) (d g ox oy a : ℝ) :
    euclid ((relocate realLibm d g pts ox oy a).x, (relocate realLibm d g pts ox oy a).y)
      (ox, oy) = |d| := by
  have key : ∀ u v : ℝ, u ^ 2 + v ^ 2 = d ^ 2 → Real.sqrt (u ^ 2 + v ^ 2) = |d| := by
    intro u v huv
    rw [huv]
    exact Real.sqrt_sq_eq_abs d
  simp only [relocate, euclid, realLibm_sin, realLibm_cos]
  apply key
  by_cases hs : Real.sin (a - g) < 0
  · simp only [if_pos hs]
    nlinarith [Real.sin_sq_add_cos_sq a]
  · simp only [if_neg hs]
    nlinarith [Real.sin_sq_add_cos_sq a]

lemma relocate_fresh {K : Type} [LinearOrderedField K] (L : Libm K) (d g : K)
    (pts : List (K × K)) (ox oy a : K) :
    (relocate L d g pts ox oy a).point_info =
      (recalculate L (relocate L d g pts ox oy a).x (relocate L d g pts ox oy a).y pts).1 ∧
    (relocate L d g pts ox oy a).line_info =
      (recalculate L (relocate L d g pts ox oy a).x (relocate L d g pts ox oy a).y pts).2 :=
  ⟨rfl, rfl⟩

/-! ## The passes of `move_point_away` -/

/-- A property that holds of the starting state and is kept by every iteration holds
after the loop. -/
lemma foldl_invariant {σ ι : Type} (Inv : σ → Prop) (f : σ → ι → σ) (l : List ι) :
    ∀ s : σ, Inv s → (∀ t i, i ∈ l → Inv t → Inv (f t i)) → Inv (l.foldl f s) := by
  induction l with
  | nil => intro s h0 _; exact h0
  | cons a l ih =>
    intro s h0 hstep
    rw [List.foldl_cons]
    apply ih
    · exact hstep s a (List.mem_cons_self _ _) h0
    · intro t i hi ht
      exact hstep t i (List.mem_cons_of_mem _ hi) ht

/-- The value of `move_point_away` on a line with at least two vertices. -/
lemma move_point_away_general {K : Type} [LinearOrderedField K] (L : Libm K)
    (x y d g : K) (pts : List (K × K)) (hn : 2 ≤ pts.length) :
    move_point_away L x y d g pts =
      ((endpoint_step L d (d + 1 / 1000) g pts
        ((List.range (pts.length - 1)).foldl (segment_step L d (d + 1 / 1000) g pts)
          ((List.range (pts.length - 2)).foldl (corner_step L d (d + 1 / 1000) g pts)
            { x := x, y := y, point_info := (recalculate L x y pts).1,
              line_info := (recalculate L x y pts).2 }))).x,
       (endpoint_step L d (d + 1 / 1000) g pts
        ((List.range (pts.length - 1)).foldl (segment_step L d (d + 1 / 1000) g pts)
          ((List.range (pts.length - 2)).foldl (corner_step L d (d + 1 / 1000) g pts)
            { x := x, y := y, point_info := (recalculate L x y pts).1,
              line_info := (recalculate L x y pts).2 }))).y) := by
  have h1 : ¬ pts.length < 1 := by omega
  have h2 : ¬ pts.length = 1 := by omega
  simp only [move_point_away, if_neg h1, if_neg h2]

/-- A query that is clear of the line triggers no segment test. -/
lemma no_segment_trigger (pts : List (ℝ × ℝ)) (h : List.Chain' (fun a b => a ≠ b) pts)
    (qx qy thr : ℝ) (hc : clear_of (qx, qy) pts thr) (i : Nat) (hi : i + 1 < pts.length) :
    ¬ ((recalculate_line realLibm qx qy pts i).dl < thr ∧
       (recalculate_line realLibm qx qy pts i).rl ≥ 0 ∧
       (recalculate_line realLibm qx qy pts i).rl ≤ 1) := by
  rintro ⟨hdl, h0, h1⟩
  have := hc.2 i hi _ h0 h1
  rw [← line_foot_eq, ← line_dl_eq_euclid pts h i hi] at this
  exact absurd hdl (not_lt.mpr this)

/-- A query that is clear of the line triggers no vertex test. -/
lemma no_vertex_trigger (pts : List (ℝ × ℝ)) (qx qy thr : ℝ)
    (hc : clear_of (qx, qy) pts thr) (i : Nat) (hi : i < pts.length) :
    ¬ (((recalculate realLibm qx qy pts).1.getD i default).dp < thr) := by
  rw [recalc_point_getD realLibm qx qy pts i hi, pyth_eq_euclid]
  have hmem : pts.getD i (0, 0) ∈ pts := by
    rw [List.getD_eq_getElem pts (0, 0) hi]
    exact List.getElem_mem hi
  exact not_lt.mpr (hc.1 _ hmem)

/-- C4. A query at Euclidean distance at least `d + 0.001` from every vertex and
from every closed segment of a line without consecutive equal vertices is returned
unchanged by `move_point_away`, for a line of any length (the empty line
included), any `d` and any preferred direction. -/
theorem clearance_unmoved (pts : List (ℝ × ℝ)) (qx qy d g : ℝ)
    (hchain : List.Chain' (fun a b => a ≠ b) pts)
    (hclear : clear_of (qx, qy) pts (d + 1 / 1000)) :
    move_point_away realLibm qx qy d g pts = (qx, qy) := by
  by_cases h0 : pts.length < 1
  · simp only [move_point_away, if_pos h0]
  by_cases h1 : pts.length = 1
  · have hv := no_vertex_trigger pts qx qy _ hclear 0 (by omega)
    rw [recalc_point_getD realLibm qx qy pts 0 (by omega)] at hv
    simp only [move_point_away, if_neg h0, if_pos h1, if_neg hv]
  have hn : 2 ≤ pts.length := by omega
  rw [move_point_away_general realLibm qx qy d g pts hn]
  have hcorner : (List.range (pts.length - 2)).foldl
      (corner_step realLibm d (d + 1 / 1000) g pts)
      { x := qx, y := qy, point_info := (recalculate realLibm qx qy pts).1,
        line_info := (recalculate realLibm qx qy pts).2 } =
      { x := qx, y := qy, point_info := (recalculate realLibm qx qy pts).1,
        line_info := (recalculate realLibm qx qy pts).2 } := by
    apply foldl_invariant (fun s => s = _) _ _ _ rfl
    intro t i hi ht
    rw [List.mem_range] at hi
    subst ht
    have hs := no_segment_trigger pts hchain qx qy _ hclear i (by omega)
    have hv := no_vertex_trigger pts qx qy _ hclear (i + 1) (by omega)
    simp only [corner_step]
    rw [recalc_line_getD realLibm qx qy pts i (by omega)]
    rw [if_neg]
    rintro (hc | hc)
    · exact hs ⟨hc.1, hc.2.2.1, hc.2.2.2.1⟩
    · exact hv hc
  have hsegment : (List.range (pts.length - 1)).foldl
      (segment_step realLibm d (d + 1 / 1000) g pts)
      { x := qx, y := qy, point_info := (recalculate realLibm qx qy pts).1,
        line_info := (recalculate realLibm qx qy pts).2 } =
      { x := qx, y := qy, point_info := (recalculate realLibm qx qy pts).1,
        line_info := (recalculate realLibm qx qy pts).2 } := by
    apply foldl_invariant (fun s => s = _) _ _ _ rfl
    intro t i hi ht
    rw [List.mem_range] at hi
    subst ht
    have hs := no_segment_trigger pts hchain qx qy _ hclear i (by omega)
    simp only [segment_step]
    rw [recalc_line_getD realLibm qx qy pts i (by omega), if_neg hs]
  rw [hcorner, hsegment]
  have hv0 := no_vertex_trigger pts qx qy _ hclear 0 (by omega)
  have hvn := no_vertex_trigger pts qx qy _ hclear (pts.length - 1) (by omega)
  simp only [endpoint_step, if_neg hv0, if_neg hvn]

/-- The point assigned by the shared relocation code, in the stated form. -/
lemma relocate_eq_stated (pts : List (ℝ × ℝ)) (d g px py t : ℝ) :
    ((relocate realLibm d g pts px py t).x, (relocate realLibm d g pts px py t).y) =
      stated_segment_target px py d t g := by
  simp only [relocate, stated_segment_target, realLibm_sin, realLibm_cos]
  by_cases hs : Real.sin (t - g) < 0
  · simp only [if_pos hs]
    refine Prod.ext ?_ ?_
    · show px - d * Real.sin t = px + d * (-Real.sin t)
      ring
    · rfl
  · simp only [if_neg hs]
    refine Prod.ext ?_ ?_
    · rfl
    · show py - d * Real.cos t = py + d * (-Real.cos t)
      ring

/-- C1. On a two-vertex line `[A, B]` with `A ≠ B` and `d ≥ 0`, for a query whose
`rl` on `AB` lies in `[0, 1]` and whose `dl` is below `d + 0.001`: if the point
`Q' = P + d * n` (with `P` the projected point of the query, `t` the angle of the
segment and `n` the normal chosen by the side rule) is at Euclidean distance at
least `d + 0.001` from `A` and from `B`, then `move_point_away` returns `Q'`, the
`rl` of `Q'` is the `rl` of the query, and the `dl` of `Q'` is `d`, which is its
Euclidean distance from `P`. -/
theorem segment_pass_single_segment (ax ay bx b_y qx qy d g : ℝ)
    (hAB : (ax, ay) ≠ (bx, b_y)) (hd : 0 ≤ d)
    (hrl0 : 0 ≤ (recalculate_line realLibm qx qy [(ax, ay), (bx, b_y)] 0).rl)
    (hrl1 : (recalculate_line realLibm qx qy [(ax, ay), (bx, b_y)] 0).rl ≤ 1)
    (hdl : (recalculate_line realLibm qx qy [(ax, ay), (bx, b_y)] 0).dl < d + 1 / 1000)
    (hA : d + 1 / 1000 ≤ euclid
      (stated_segment_target (recalculate_line realLibm qx qy [(ax, ay), (bx, b_y)] 0).px
        (recalculate_line realLibm qx qy [(ax, ay), (bx, b_y)] 0).py d
        (realLibm.atan2 (b_y - ay) (bx - ax)) g) (ax, ay))
    (hB : d + 1 / 1000 ≤ euclid
      (stated_segment_target (recalculate_line realLibm qx qy [(ax, ay), (bx, b_y)] 0).px
        (recalculate_line realLibm qx qy [(ax, ay), (bx, b_y)] 0).py d
        (realLibm.atan2 (b_y - ay) (bx - ax)) g) (bx, b_y)) :
    move_point_away realLibm qx qy d g [(ax, ay), (bx, b_y)] =
      stated_segment_target (recalculate_line realLibm qx qy [(ax, ay), (bx, b_y)] 0).px
        (recalculate_line realLibm qx qy [(ax, ay), (bx, b_y)] 0).py d
        (realLibm.atan2 (b_y - ay) (bx - ax)) g ∧
    (recalculate_line realLibm
        (move_point_away realLibm qx qy d g [(ax, ay), (bx, b_y)]).1
        (move_point_away realLibm qx qy d g [(ax, ay), (bx, b_y)]).2
        [(ax, ay), (bx, b_y)] 0).rl =
      (recalculate_line realLibm qx qy [(ax, ay), (bx, b_y)] 0).rl ∧
    (recalculate_line realLibm
        (move_point_away realLibm qx qy d g [(ax, ay), (bx, b_y)]).1
        (move_point_away realLibm qx qy d g [(ax, ay), (bx, b_y)]).2
        [(ax, ay), (bx, b_y)] 0).dl = d ∧
    euclid (move_point_away realLibm qx qy d g [(ax, ay), (bx, b_y)])
      ((recalculate_line realLibm qx qy [(ax, ay), (bx, b_y)] 0).px,
       (recalculate_line realLibm qx qy [(ax, ay), (bx, b_y)] 0).py) = d := by
  have hchain : List.Chain' (fun a b : ℝ × ℝ => a ≠ b) [(ax, ay), (bx, b_y)] := by
    simp [hAB]
  have hlen : 0 + 1 < ([(ax, ay), (bx, b_y)] : List (ℝ × ℝ)).length := by simp
  have htheta : (recalculate_line realLibm qx qy [(ax, ay), (bx, b_y)] 0).theta =
      realLibm.atan2 (b_y - ay) (bx - ax) := rfl
  have hstate := relocate_eq_stated [(ax, ay), (bx, b_y)] d g
    (recalculate_line realLibm qx qy [(ax, ay), (bx, b_y)] 0).px
    (recalculate_line realLibm qx qy [(ax, ay), (bx, b_y)] 0).py
    (recalculate_line realLibm qx qy [(ax, ay), (bx, b_y)] 0).theta
  rw [htheta] at hstate
  have hres : move_point_away realLibm qx qy d g [(ax, ay), (bx, b_y)] =
      ((relocate realLibm d g [(ax, ay), (bx, b_y)]
          (recalculate_line realLibm qx qy [(ax, ay), (bx, b_y)] 0).px
          (recalculate_line realLibm qx qy [(ax, ay), (bx, b_y)] 0).py
          (realLibm.atan2 (b_y - ay) (bx - ax))).x,
       (relocate realLibm d g [(ax, ay), (bx, b_y)]
          (recalculate_line realLibm qx qy [(ax, ay), (bx, b_y)] 0).px
          (recalculate_line realLibm qx qy [(ax, ay), (bx, b_y)] 0).py
          (realLibm.atan2 (b_y - ay) (bx - ax))).y) := by
    rw [move_point_away_general realLibm qx qy d g _ (by simp)]
    have e2 : ([(ax, ay), (bx, b_y)] : List (ℝ × ℝ)).length - 2 = 0 := rfl
    have e1 : ([(ax, ay), (bx, b_y)] : List (ℝ × ℝ)).length - 1 = 1 := rfl
    have r1 : List.range 1 = [0] := rfl
    rw [e2, e1, List.range_zero, r1, List.foldl_nil, List.foldl_cons, List.foldl_nil]
    have hseg : segment_step realLibm d (d + 1 / 1000) g [(ax, ay), (bx, b_y)]
        { x := qx, y := qy,
          point_info := (recalculate realLibm qx qy [(ax, ay), (bx, b_y)]).1,
          line_info := (recalculate realLibm qx qy [(ax, ay), (bx, b_y)]).2 } 0 =
        relocate realLibm d g [(ax, ay), (bx, b_y)]
          (recalculate_line realLibm qx qy [(ax, ay), (bx, b_y)] 0).px
          (recalculate_line realLibm qx qy [(ax, ay), (bx, b_y)] 0).py
          (realLibm.atan2 (b_y - ay) (bx - ax)) := by
      simp only [segment_step]
      rw [recalc_line_getD realLibm qx qy _ 0 hlen, if_pos ⟨hdl, hrl0, hrl1⟩, htheta]
    rw [hseg]
    have h0 : ¬ (((relocate realLibm d g [(ax, ay), (bx, b_y)]
          (recalculate_line realLibm qx qy [(ax, ay), (bx, b_y)] 0).px
          (recalculate_line realLibm qx qy [(ax, ay), (bx, b_y)] 0).py
          (realLibm.atan2 (b_y - ay) (bx - ax))).point_info.getD 0 default).dp
          < d + 1 / 1000) := by
      rw [(relocate_fresh _ _ _ _ _ _ _).1, recalc_point_getD realLibm _ _ _ 0 (by simp),
        pyth_eq_euclid, hstate]
      exact not_lt.mpr hA
    have h1 : ¬ (((relocate realLibm d g [(ax, ay), (bx, b_y)]
          (recalculate_line realLibm qx qy [(ax, ay), (bx, b_y)] 0).px
          (recalculate_line realLibm qx qy [(ax, ay), (bx, b_y)] 0).py
          (realLibm.atan2 (b_y - ay) (bx - ax))).point_info.getD 1 default).dp
          < d + 1 / 1000) := by
      rw [(relocate_fresh _ _ _ _ _ _ _).1, recalc_point_getD realLibm _ _ _ 1 (by simp),
        pyth_eq_euclid, hstate]
      exact not_lt.mpr hB
    simp only [endpoint_step, e1, if_neg h0, if_neg h1]
  obtain ⟨k1, k2⟩ := relocate_on_segment [(ax, ay), (bx, b_y)] hchain 0 hlen qx qy d g
  rw [htheta] at k1 k2
  rw [abs_of_nonneg hd] at k2
  have k3 := relocate_dist [(ax, ay), (bx, b_y)] d g
    (recalculate_line realLibm qx qy [(ax, ay), (bx, b_y)] 0).px
    (recalculate_line realLibm qx qy [(ax, ay), (bx, b_y)] 0).py
    (realLibm.atan2 (b_y - ay) (bx - ax))
  rw [abs_of_nonneg hd] at k3
  refine ⟨by rw [hres, hstate], ?_, ?_, ?_⟩
  · rw [hres]; exact k1
  · rw [hres]; exact k2
  · rw [hres]; exact k3

/-- A relocation anchored at the vertex `j` gives a point anchored at distance `d`. -/
lemma relocate_vertex_inv (pts : List (ℝ × ℝ)) (d g a : ℝ) (hd : 0 ≤ d) (j : Nat)
    (hj : j < pts.length) :
    anchored pts d
      ((relocate realLibm d g pts (xx_at pts j) (yy_at pts j) a).x,
       (relocate realLibm d g pts (xx_at pts j) (yy_at pts j) a).y) := by
  left
  refine ⟨j, hj, ?_⟩
  have := relocate_dist pts d g (xx_at pts j) (yy_at pts j) a
  rw [abs_of_nonneg hd] at this
  exact this

/-- After the three passes the array `line_info` is that of the final point, and the
final point is the query or is anchored at distance `d`. -/
lemma passes_invariant (pts : List (ℝ × ℝ)) (qx qy d g : ℝ)
    (hn : 2 ≤ pts.length) (hchain : List.Chain' (fun a b => a ≠ b) pts) (hd : 0 ≤ d) :
    (endpoint_step realLibm d (d + 1 / 1000) g pts
        ((List.range (pts.length - 1)).foldl (segment_step realLibm d (d + 1 / 1000) g pts)
          ((List.range (pts.length - 2)).foldl (corner_step realLibm d (d + 1 / 1000) g pts)
            { x := qx, y := qy, point_info := (recalculate realLibm qx qy pts).1,
              line_info := (recalculate realLibm qx qy pts).2 }))).line_info =
      (recalculate realLibm
        (endpoint_step realLibm d (d + 1 / 1000) g pts
        ((List.range (pts.length - 1)).foldl (segment_step realLibm d (d + 1 / 1000) g pts)
          ((List.range (pts.length - 2)).foldl (corner_step realLibm d (d + 1 / 1000) g pts)
            { x := qx, y := qy, point_info := (recalculate realLibm qx qy pts).1,
              line_info := (recalculate realLibm qx qy pts).2 }))).x
        (endpoint_step realLibm d (d + 1 / 1000) g pts
        ((List.range (pts.length - 1)).foldl (segment_step realLibm d (d + 1 / 1000) g pts)
          ((List.range (pts.length - 2)).foldl (corner_step realLibm d (d + 1 / 1000) g pts)
            { x := qx, y := qy, point_info := (recalculate realLibm qx qy pts).1,
              line_info := (recalculate realLibm qx qy pts).2 }))).y pts).2 ∧
    (((endpoint_step realLibm d (d + 1 / 1000) g pts
        ((List.range (pts.length - 1)).foldl (segment_step realLibm d (d + 1 / 1000) g pts)
          ((List.range (pts.length - 2)).foldl (corner_step realLibm d (d + 1 / 1000) g pts)
            { x := qx, y := qy, point_info := (recalculate realLibm qx qy pts).1,
              line_info := (recalculate realLibm qx qy pts).2 }))).x,
      (endpoint_step realLibm d (d + 1 / 1000) g pts
        ((List.range (pts.length - 1)).foldl (segment_step realLibm d (d + 1 / 1000) g pts)
          ((List.range (pts.length - 2)).foldl (corner_step realLibm d (d + 1 / 1000) g pts)
            { x := qx, y := qy, point_info := (recalculate realLibm qx qy pts).1,
              line_info := (recalculate realLibm qx qy pts).2 }))).y) = (qx, qy) ∨
     anchored pts d
      ((endpoint_step realLibm d (d + 1 / 1000) g pts
        ((List.range (pts.length - 1)).foldl (segment_step realLibm d (d + 1 / 1000) g pts)
          ((List.range (pts.length - 2)).foldl (corner_step realLibm d (d + 1 / 1000) g pts)
            { x := qx, y := qy, point_info := (recalculate realLibm qx qy pts).1,
              line_info := (recalculate realLibm qx qy pts).2 }))).x,
       (endpoint_step realLibm d (d + 1 / 1000) g pts
        ((List.range (pts.length - 1)).foldl (segment_step realLibm d (d + 1 / 1000) g pts)
          ((List.range (pts.length - 2)).foldl (corner_step realLibm d (d + 1 / 1000) g pts)
            { x := qx, y := qy, point_info := (recalculate realLibm qx qy pts).1,
              line_info := (recalculate realLibm qx qy pts).2 }))).y)) := by
  have hcorner := foldl_invariant
    (fun s : mpa_state ℝ => s.line_info = (recalculate realLibm s.x s.y pts).2 ∧
      ((s.x, s.y) = (qx, qy) ∨ anchored pts d (s.x, s.y)))
    (corner_step realLibm d (d + 1 / 1000) g pts) (List.range (pts.length - 2))
    { x := qx, y := qy, point_info := (recalculate realLibm qx qy pts).1,
      line_info := (recalculate realLibm qx qy pts).2 }
    ⟨rfl, Or.inl rfl⟩
    (by
      intro t i hi ht
      rw [List.mem_range] at hi
      simp only [corner_step]
      split_ifs
      · exact ⟨(relocate_fresh _ _ _ _ _ _ _).2,
          Or.inr (relocate_vertex_inv pts d g _ hd (i + 1) (by omega))⟩
      · exact ht)
  have hsegment := foldl_invariant
    (fun s : mpa_state ℝ => s.line_info = (recalculate realLibm s.x s.y pts).2 ∧
      ((s.x, s.y) = (qx, qy) ∨ anchored pts d (s.x, s.y)))
    (segment_step realLibm d (d + 1 / 1000) g pts) (List.range (pts.length - 1))
    _ hcorner
    (by
      intro t i hi ht
      rw [List.mem_range] at hi
      simp only [segment_step]
      split_ifs with htrig
      · refine ⟨(relocate_fresh _ _ _ _ _ _ _).2, Or.inr (Or.inr ⟨i, by omega, ?_⟩)⟩
        rw [ht.1, recalc_line_getD realLibm t.x t.y pts i (by omega)] at htrig ⊢
        obtain ⟨e1, e2⟩ := relocate_on_segment pts hchain i (by omega) t.x t.y d g
        rw [abs_of_nonneg hd] at e2
        exact ⟨by rw [e1]; exact htrig.2.1, by rw [e1]; exact htrig.2.2, e2⟩
      · exact ht)
  simp only [endpoint_step]
  split_ifs
  · exact ⟨(relocate_fresh _ _ _ _ _ _ _).2,
      Or.inr (relocate_vertex_inv pts d g _ hd 0 (by omega))⟩
  · exact ⟨(relocate_fresh _ _ _ _ _ _ _).2,
      Or.inr (relocate_vertex_inv pts d g _ hd (pts.length - 1) (by omega))⟩
  · exact hsegment

/-- C5. For a line with at least one vertex and no consecutive equal vertices and
`d ≥ 0`, the result of `move_point_away` is the unchanged query, or it is at
Euclidean distance exactly `d` from some vertex, or on some segment its `rl` lies
in `[0, 1]` and its `dl` is exactly `d`. -/
theorem displacement_is_min_distance (pts : List (ℝ × ℝ)) (qx qy d g : ℝ)
    (hn : 1 ≤ pts.length) (hchain : List.Chain' (fun a b => a ≠ b) pts) (hd : 0 ≤ d) :
    move_point_away realLibm qx qy d g pts = (qx, qy) ∨
    anchored pts d (move_point_away realLibm qx qy d g pts) := by
  by_cases h1 : pts.length = 1
  · have h0 : ¬ pts.length < 1 := by omega
    simp only [move_point_away, if_neg h0, if_pos h1]
    split_ifs
    · right
      left
      refine ⟨0, by omega, ?_⟩
      have hxy : pts.getD 0 (0, 0) = (xx_at pts 0, yy_at pts 0) := rfl
      rw [hxy]
      simp only [euclid, realLibm_cos, realLibm_sin]
      have e : (xx_at pts 0 + d * Real.cos (realLibm.atan2 (yy_at pts 0 - qy) (xx_at pts 0 - qx))
            - xx_at pts 0) ^ 2 +
          (yy_at pts 0 + d * Real.sin (realLibm.atan2 (yy_at pts 0 - qy) (xx_at pts 0 - qx))
            - yy_at pts 0) ^ 2 = d ^ 2 := by
        nlinarith [Real.sin_sq_add_cos_sq (realLibm.atan2 (yy_at pts 0 - qy) (xx_at pts 0 - qx))]
      rw [e]
      exact Real.sqrt_sq hd
    · left
      rfl
  · have hn2 : 2 ≤ pts.length := by omega
    rw [move_point_away_general realLibm qx qy d g pts hn2]
    exact (passes_invariant pts qx qy d g hn2 hchain hd).2

/-! ## The segment example: the line from `(0, 0)` to `(10, 0)` -/

lemma example_pyth : pyth realLibm 0 0 10 0 = 10 := by
  simp only [pyth, realLibm_sqrt]
  rw [show ((10 : ℝ) - 0) * (10 - 0) + (0 - 0) * (0 - 0) = 10 ^ 2 by norm_num]
  exact Real.sqrt_sq (by norm_num)

lemma example_atan2 : realLibm.atan2 (0 - 0) (10 - 0) = 0 := by
  rw [realLibm_atan2]
  have h : (⟨10 - 0, 0 - 0⟩ : ℂ) = ((10 : ℝ) : ℂ) := by
    apply Complex.ext <;> simp
  rw [h]
  exact Complex.arg_ofReal_of_nonneg (by norm_num)

/-- The entry of `line_info` for the query `(5, y)` and the example line. -/
lemma example_line (y : ℝ) :
    (recalculate_line realLibm 5 y [(0, 0), (10, 0)] 0).rl = 1 / 2 ∧
    (recalculate_line realLibm 5 y [(0, 0), (10, 0)] 0).px = 5 ∧
    (recalculate_line realLibm 5 y [(0, 0), (10, 0)] 0).py = 0 ∧
    (recalculate_line realLibm 5 y [(0, 0), (10, 0)] 0).dl = |y| := by
  have hx0 : xx_at [((0 : ℝ), (0 : ℝ)), (10, 0)] 0 = 0 := rfl
  have hy0 : yy_at [((0 : ℝ), (0 : ℝ)), (10, 0)] 0 = 0 := rfl
  have hx1 : xx_at [((0 : ℝ), (0 : ℝ)), (10, 0)] (0 + 1) = 10 := rfl
  have hy1 : yy_at [((0 : ℝ), (0 : ℝ)), (10, 0)] (0 + 1) = 0 := rfl
  simp only [recalculate_line, hx0, hy0, hx1, hy1, example_pyth]
  refine ⟨by norm_num, by norm_num, by norm_num, ?_⟩
  rw [show ((0 - y) * (10 - 0) - (0 - 5) * (0 - 0)) / (10 * 10) = -y / 10 by ring,
    abs_div, abs_neg, abs_of_pos (show (0 : ℝ) < 10 by norm_num)]
  ring

lemma example_target :
    stated_segment_target 5 0 1 (realLibm.atan2 (0 - 0) (10 - 0)) 0 = (5, -1) := by
  rw [example_atan2]
  simp [stated_segment_target]

lemma example_far (x : ℝ) (hx : 25 ≤ (5 - x) ^ 2) :
    (1 : ℝ) + 1 / 1000 ≤ euclid (5, -1) (x, 0) := by
  simp only [euclid]
  apply Real.le_sqrt_of_sq_le
  nlinarith

/-- The segment pass at the line `[(0,0), (10,0)]`, the query `(5, 0.0005)`,
`d = 1` and direction `0`: the result is `(5, -1)`. -/
theorem segment_pass_single_segment_witness :
    move_point_away realLibm 5 (1 / 2000) 1 0 [(0, 0), (10, 0)] = (5, -1) := by
  obtain ⟨hrl, hpx, hpy, hdl⟩ := example_line (1 / 2000)
  have h := segment_pass_single_segment 0 0 10 0 5 (1 / 2000) 1 0
    (by intro h; have := congrArg Prod.fst h; norm_num at this)
    (by norm_num)
    (by rw [hrl]; norm_num)
    (by rw [hrl]; norm_num)
    (by rw [hdl, abs_of_pos (by norm_num : (0 : ℝ) < 1 / 2000)]; norm_num)
    (by rw [hpx, hpy, example_target]; exact example_far 0 (by norm_num))
    (by rw [hpx, hpy, example_target]; exact example_far 10 (by norm_num))
  rw [h.1, hpx, hpy, example_target]

/-- The query `(5, 3)` is clear of the example line by `1.001`. -/
lemma example_clear : clear_of (5, 3) [(0, 0), (10, 0)] (1 + 1 / 1000) := by
  have hfar : ∀ x : ℝ, (1 : ℝ) + 1 / 1000 ≤ euclid (5, 3) (x, 0) := by
    intro x
    simp only [euclid]
    apply Real.le_sqrt_of_sq_le
    nlinarith [sq_nonneg (5 - x)]
  constructor
  · intro v hv
    simp only [List.mem_cons, List.mem_singleton, List.not_mem_nil, or_false] at hv
    rcases hv with rfl | rfl
    · exact hfar 0
    · exact hfar 10
  · intro i hi s _ _
    have hi0 : i = 0 := by
      simp only [List.length_cons, List.length_nil] at hi
      omega
    subst hi0
    have e : segment_point (List.getD [((0 : ℝ), (0 : ℝ)), (10, 0)] 0 (0, 0))
        (List.getD [((0 : ℝ), (0 : ℝ)), (10, 0)] (0 + 1) (0, 0)) s = (s * 10, 0) := by
      simp [segment_point]
    rw [e]
    exact hfar (s * 10)

/-- The clearance theorem at the example line and the query `(5, 3)` with `d = 1`. -/
theorem clearance_unmoved_witness :
    move_point_away realLibm 5 3 1 0 [(0, 0), (10, 0)] = (5, 3) :=
  clearance_unmoved [(0, 0), (10, 0)] 5 3 1 0
    (by
      simp only [List.chain'_cons, List.chain'_singleton, and_true]
      intro h
      have := congrArg Prod.fst h
      norm_num at this)
    example_clear

/-- The displacement theorem at the example line and the query `(5, 0.0005)` with
`d = 1`. -/
theorem displacement_is_min_distance_witness :
    move_point_away realLibm 5 (1 / 2000) 1 0 [(0, 0), (10, 0)] = (5, 1 / 2000) ∨
    anchored [(0, 0), (10, 0)] 1
      (move_point_away realLibm 5 (1 / 2000) 1 0 [(0, 0), (10, 0)]) :=
  displacement_is_min_distance [(0, 0), (10, 0)] 5 (1 / 2000) 1 0
    (by simp)
    (by
      simp only [List.chain'_cons, List.chain'_singleton, and_true]
      intro h
      have := congrArg Prod.fst h
      norm_num at this)
    (by norm_num)

end Passes

/-! ## Symmetries of the segment projection -/

section Symmetry

variable {K : Type} [LinearOrderedField K]

/-- C11. For `A ≠ B`: (i) the mirror image `C' = 2P - C` of the query across the
line has the same `rl`, projected point and `dl` as `C` and the negated `sl`;
(ii) with the segment reversed, the projected point and `dl` are the same, `sl` is
negated and `rl` becomes `1 - rl`. -/
theorem segment_voodoo_side_symmetry (L : Libm K) (cx cy ax ay bx b_y : K)
    (hAB : (ax, ay) ≠ (bx, b_y)) :
    ((segment_voodoo L
        (2 * (segment_voodoo L cx cy ax ay bx b_y).px - cx)
        (2 * (segment_voodoo L cx cy ax ay bx b_y).py - cy) ax ay bx b_y).rl
        = (segment_voodoo L cx cy ax ay bx b_y).rl ∧
     (segment_voodoo L
        (2 * (segment_voodoo L cx cy ax ay bx b_y).px - cx)
        (2 * (segment_voodoo L cx cy ax ay bx b_y).py - cy) ax ay bx b_y).px
        = (segment_voodoo L cx cy ax ay bx b_y).px ∧
     (segment_voodoo L
        (2 * (segment_voodoo L cx cy ax ay bx b_y).px - cx)
        (2 * (segment_voodoo L cx cy ax ay bx b_y).py - cy) ax ay bx b_y).py
        = (segment_voodoo L cx cy ax ay bx b_y).py ∧
     (segment_voodoo L
        (2 * (segment_voodoo L cx cy ax ay bx b_y).px - cx)
        (2 * (segment_voodoo L cx cy ax ay bx b_y).py - cy) ax ay bx b_y).dl
        = (segment_voodoo L cx cy ax ay bx b_y).dl ∧
     (segment_voodoo L
        (2 * (segment_voodoo L cx cy ax ay bx b_y).px - cx)
        (2 * (segment_voodoo L cx cy ax ay bx b_y).py - cy) ax ay bx b_y).sl
        = -(segment_voodoo L cx cy ax ay bx b_y).sl) ∧
    ((segment_voodoo L cx cy bx b_y ax ay).px = (segment_voodoo L cx cy ax ay bx b_y).px ∧
     (segment_voodoo L cx cy bx b_y ax ay).py = (segment_voodoo L cx cy ax ay bx b_y).py ∧
     (segment_voodoo L cx cy bx b_y ax ay).dl = (segment_voodoo L cx cy ax ay bx b_y).dl ∧
     (segment_voodoo L cx cy bx b_y ax ay).sl = -(segment_voodoo L cx cy ax ay bx b_y).sl ∧
     (segment_voodoo L cx cy bx b_y ax ay).rl
        = 1 - (segment_voodoo L cx cy ax ay bx b_y).rl) := by
  have hS := seg_l2_ne_zero hAB
  have hrev : (ax - bx) * (ax - bx) + (ay - b_y) * (ay - b_y) =
      (bx - ax) * (bx - ax) + (b_y - ay) * (b_y - ay) := by ring
  simp only [segment_voodoo, hrev]
  have hrl : ((cx - ax) * (bx - ax) + (cy - ay) * (b_y - ay)) /
      ((bx - ax) * (bx - ax) + (b_y - ay) * (b_y - ay)) *
      ((bx - ax) * (bx - ax) + (b_y - ay) * (b_y - ay)) =
      (cx - ax) * (bx - ax) + (cy - ay) * (b_y - ay) := div_mul_cancel₀ _ hS
  generalize hr : ((cx - ax) * (bx - ax) + (cy - ay) * (b_y - ay)) /
      ((bx - ax) * (bx - ax) + (b_y - ay) * (b_y - ay)) = rl at hrl ⊢
  have e1 : ((2 * (ax + rl * (bx - ax)) - cx - ax) * (bx - ax) +
      (2 * (ay + rl * (b_y - ay)) - cy - ay) * (b_y - ay)) /
      ((bx - ax) * (bx - ax) + (b_y - ay) * (b_y - ay)) = rl := by
    rw [div_eq_iff hS]
    linear_combination hrl
  have e2 : ((ay - (2 * (ay + rl * (b_y - ay)) - cy)) * (bx - ax) -
      (ax - (2 * (ax + rl * (bx - ax)) - cx)) * (b_y - ay)) /
      ((bx - ax) * (bx - ax) + (b_y - ay) * (b_y - ay)) =
      -(((ay - cy) * (bx - ax) - (ax - cx) * (b_y - ay)) /
      ((bx - ax) * (bx - ax) + (b_y - ay) * (b_y - ay))) := by
    rw [← neg_div]
    congr 1
    ring
  have e3 : ((cx - bx) * (ax - bx) + (cy - b_y) * (ay - b_y)) /
      ((bx - ax) * (bx - ax) + (b_y - ay) * (b_y - ay)) = 1 - rl := by
    rw [div_eq_iff hS]
    linear_combination hrl
  have e4 : ((b_y - cy) * (ax - bx) - (bx - cx) * (ay - b_y)) /
      ((bx - ax) * (bx - ax) + (b_y - ay) * (b_y - ay)) =
      -(((ay - cy) * (bx - ax) - (ax - cx) * (b_y - ay)) /
      ((bx - ax) * (bx - ax) + (b_y - ay) * (b_y - ay))) := by
    rw [← neg_div]
    congr 1
    ring
  rw [e1, e2, e3, e4, abs_neg]
  refine ⟨⟨rfl, rfl, rfl, rfl, rfl⟩, ?_, ?_, rfl, rfl, rfl⟩
  · ring
  · ring

/-- The symmetry theorem at the query `(5, 1)` and the segment from `(0, 0)` to
`(10, 0)`, over the rationals: the mirror image is `(5, -1)`. -/
theorem segment_voodoo_side_symmetry_witness :
    ((0 : ℚ), (0 : ℚ)) ≠ (10, 0) ∧
    (segment_voodoo (K := ℚ) ⟨id, id, id, fun y _ => y⟩ 5 1 0 0 10 0).sl = -1 / 10 ∧
    (segment_voodoo (K := ℚ) ⟨id, id, id, fun y _ => y⟩ 5 (-1) 0 0 10 0).sl = 1 / 10 ∧
    (segment_voodoo (K := ℚ) ⟨id, id, id, fun y _ => y⟩ 5 1 10 0 0 0).rl
      = 1 - (segment_voodoo (K := ℚ) ⟨id, id, id, fun y _ => y⟩ 5 1 0 0 10 0).rl :=
  ⟨by decide, by norm_num [segment_voodoo], by norm_num [segment_voodoo],
    (segment_voodoo_side_symmetry (K := ℚ) ⟨id, id, id, fun y _ => y⟩ 5 1 0 0 10 0
      (by decide)).2.2.2.2.2⟩

end Symmetry

/-! ## The perpendicular distance -/

section PerpDistance

/-- Over the reals the entry of `line_info` for a segment carries the outputs of
`segment_voodoo` for that segment. -/
lemma line_eq_voodoo (cx cy : ℝ) (pts : List (ℝ × ℝ)) (i : Nat) :
    (recalculate_line realLibm cx cy pts i).rl =
      (segment_voodoo realLibm cx cy (xx_at pts i) (yy_at pts i)
        (xx_at pts (i + 1)) (yy_at pts (i + 1))).rl ∧
    (recalculate_line realLibm cx cy pts i).px =
      (segment_voodoo realLibm cx cy (xx_at pts i) (yy_at pts i)
        (xx_at pts (i + 1)) (yy_at pts (i + 1))).px ∧
    (recalculate_line realLibm cx cy pts i).py =
      (segment_voodoo realLibm cx cy (xx_at pts i) (yy_at pts i)
        (xx_at pts (i + 1)) (yy_at pts (i + 1))).py ∧
    (recalculate_line realLibm cx cy pts i).sl =
      (segment_voodoo realLibm cx cy (xx_at pts i) (yy_at pts i)
        (xx_at pts (i + 1)) (yy_at pts (i + 1))).sl ∧
    (recalculate_line realLibm cx cy pts i).dl =
      (segment_voodoo realLibm cx cy (xx_at pts i) (yy_at pts i)
        (xx_at pts (i + 1)) (yy_at pts (i + 1))).dl := by
  have hnn : 0 ≤ (xx_at pts (i + 1) - xx_at pts i) * (xx_at pts (i + 1) - xx_at pts i) +
      (yy_at pts (i + 1) - yy_at pts i) * (yy_at pts (i + 1) - yy_at pts i) :=
    add_nonneg (mul_self_nonneg _) (mul_self_nonneg _)
  simp only [recalculate_line, segment_voodoo, pyth, realLibm_sqrt, Real.mul_self_sqrt hnn,
    and_self]

/-- The foot of the perpendicular is the point of the line nearest to the query. -/
lemma foot_closest (dx dy u v S rl sl s : ℝ) (hS : S = dx * dx + dy * dy) (hne : S ≠ 0)
    (hrl : rl * S = u * dx + v * dy) (hsl : sl * S = -v * dx + u * dy) :
    (u - rl * dx) ^ 2 + (v - rl * dy) ^ 2 ≤ (u - s * dx) ^ 2 + (v - s * dy) ^ 2 := by
  obtain ⟨e1, e2⟩ := foot_offsets dx dy u v S rl sl hS hne hrl hsl
  have h : (u - s * dx) ^ 2 + (v - s * dy) ^ 2 =
      (u - rl * dx) ^ 2 + (v - rl * dy) ^ 2 + (rl - s) ^ 2 * (dx * dx + dy * dy) +
      2 * (rl - s) * ((u - rl * dx) * dx + (v - rl * dy) * dy) := by ring
  have horth : (u - rl * dx) * dx + (v - rl * dy) * dy = 0 := by
    rw [e1, e2]; ring
  rw [h, horth]
  have : 0 ≤ (rl - s) ^ 2 * (dx * dx + dy * dy) :=
    mul_nonneg (sq_nonneg _) (add_nonneg (mul_self_nonneg _) (mul_self_nonneg _))
  linarith

/-- The value `dl` of `segment_voodoo` is the Euclidean distance from the query to
the projected point, and no point of the line is nearer to the query. -/
lemma voodoo_dl_facts (cx cy ax ay bx b_y : ℝ) (hAB : (ax, ay) ≠ (bx, b_y)) :
    (segment_voodoo realLibm cx cy ax ay bx b_y).dl =
      euclid (cx, cy) ((segment_voodoo realLibm cx cy ax ay bx b_y).px,
        (segment_voodoo realLibm cx cy ax ay bx b_y).py) ∧
    ∀ s : ℝ, (segment_voodoo realLibm cx cy ax ay bx b_y).dl ≤
      euclid (cx, cy) (segment_point (ax, ay) (bx, b_y) s) := by
  have hchain : List.Chain' (fun a b : ℝ × ℝ => a ≠ b) [(ax, ay), (bx, b_y)] := by
    simp [hAB]
  have hlen : 0 + 1 < ([(ax, ay), (bx, b_y)] : List (ℝ × ℝ)).length := by simp
  have hv := line_eq_voodoo cx cy [(ax, ay), (bx, b_y)] 0
  have hx0 : xx_at [(ax, ay), (bx, b_y)] 0 = ax := rfl
  have hy0 : yy_at [(ax, ay), (bx, b_y)] 0 = ay := rfl
  have hx1 : xx_at [(ax, ay), (bx, b_y)] (0 + 1) = bx := rfl
  have hy1 : yy_at [(ax, ay), (bx, b_y)] (0 + 1) = b_y := rfl
  rw [hx0, hy0, hx1, hy1] at hv
  have hd := line_dl_eq_euclid [(ax, ay), (bx, b_y)] hchain 0 hlen cx cy
  rw [hv.2.1, hv.2.2.1, hv.2.2.2.2] at hd
  refine ⟨hd, ?_⟩
  intro s
  rw [hd]
  have hS := seg_l2_ne_zero hAB
  simp only [euclid, segment_point, segment_voodoo]
  apply Real.sqrt_le_sqrt
  have key := foot_closest (bx - ax) (b_y - ay) (cx - ax) (cy - ay)
    ((bx - ax) * (bx - ax) + (b_y - ay) * (b_y - ay))
    (((cx - ax) * (bx - ax) + (cy - ay) * (b_y - ay)) /
      ((bx - ax) * (bx - ax) + (b_y - ay) * (b_y - ay)))
    (((ay - cy) * (bx - ax) - (ax - cx) * (b_y - ay)) /
      ((bx - ax) * (bx - ax) + (b_y - ay) * (b_y - ay))) s rfl hS
    (div_mul_cancel₀ _ hS) (by rw [div_mul_cancel₀ _ hS]; ring)
  have el : ∀ r : ℝ, (cx - (ax + r * (bx - ax))) ^ 2 + (cy - (ay + r * (b_y - ay))) ^ 2 =
      (cx - ax - r * (bx - ax)) ^ 2 + (cy - ay - r * (b_y - ay)) ^ 2 := by
    intro r; ring
  rw [el, el]
  exact key

/-- C19. For `A ≠ B`, the value `dl = fabs(sl) * ll` computed by `segment_voodoo`,
and the same value computed by `recalculate`, is the Euclidean distance from the
query to the projected point `(px, py)`; no point of the line through `A` and `B`
is nearer to the query, so it is the distance to the line itself. The projected
point is the point `A + rl * (B - A)` of that line, and the vector from it to the
query is orthogonal to `B - A`. -/
theorem perp_distance_is_euclidean (cx cy ax ay bx b_y : ℝ) (hAB : (ax, ay) ≠ (bx, b_y)) :
    (segment_voodoo realLibm cx cy ax ay bx b_y).dl =
      |(segment_voodoo realLibm cx cy ax ay bx b_y).sl| * euclid (ax, ay) (bx, b_y) ∧
    (segment_voodoo realLibm cx cy ax ay bx b_y).dl =
      euclid (cx, cy) ((segment_voodoo realLibm cx cy ax ay bx b_y).px,
        (segment_voodoo realLibm cx cy ax ay bx b_y).py) ∧
    (∀ s : ℝ, (segment_voodoo realLibm cx cy ax ay bx b_y).dl ≤
      euclid (cx, cy) (segment_point (ax, ay) (bx, b_y) s)) ∧
    (∀ li ∈ (recalculate realLibm cx cy [(ax, ay), (bx, b_y)]).2,
      li.dl = |li.sl| * li.ll ∧ li.dl = euclid (cx, cy) (li.px, li.py) ∧
      (li.px, li.py) = segment_point (ax, ay) (bx, b_y) li.rl ∧
      (∀ s : ℝ, li.dl ≤ euclid (cx, cy) (segment_point (ax, ay) (bx, b_y) s))) ∧
    ((segment_voodoo realLibm cx cy ax ay bx b_y).px,
        (segment_voodoo realLibm cx cy ax ay bx b_y).py) =
      segment_point (ax, ay) (bx, b_y) (segment_voodoo realLibm cx cy ax ay bx b_y).rl ∧
    (cx - (segment_voodoo realLibm cx cy ax ay bx b_y).px) * (bx - ax) +
      (cy - (segment_voodoo realLibm cx cy ax ay bx b_y).py) * (b_y - ay) = 0 ∧
    (recalculate realLibm cx cy [(ax, ay), (bx, b_y)]).2.length = 1 := by
  obtain ⟨h1, h2⟩ := voodoo_dl_facts cx cy ax ay bx b_y hAB
  refine ⟨?_, h1, h2, ?_, rfl, ?_, rfl⟩
  · simp only [segment_voodoo, euclid, realLibm_sqrt]
    congr 2
    ring
  · intro li hli
    have hchain : List.Chain' (fun a b : ℝ × ℝ => a ≠ b) [(ax, ay), (bx, b_y)] := by
      simp [hAB]
    simp only [recalculate, List.mem_map, List.mem_range] at hli
    obtain ⟨i, hi, rfl⟩ := hli
    have hi0 : i = 0 := by
      simp only [List.length_cons, List.length_nil] at hi
      omega
    subst hi0
    have hv := line_eq_voodoo cx cy [(ax, ay), (bx, b_y)] 0
    have hx0 : xx_at [(ax, ay), (bx, b_y)] 0 = ax := rfl
    have hy0 : yy_at [(ax, ay), (bx, b_y)] 0 = ay := rfl
    have hx1 : xx_at [(ax, ay), (bx, b_y)] (0 + 1) = bx := rfl
    have hy1 : yy_at [(ax, ay), (bx, b_y)] (0 + 1) = b_y := rfl
    rw [hx0, hy0, hx1, hy1] at hv
    refine ⟨rfl, line_dl_eq_euclid _ hchain 0 (by simp) cx cy, ?_, ?_⟩
    · rw [hv.1, hv.2.1, hv.2.2.1]
      rfl
    · intro s
      rw [hv.2.2.2.2]
      exact h2 s
  · have hS := seg_l2_ne_zero hAB
    simp only [segment_voodoo]
    field_simp
    ring

/-- The perpendicular distance of the query `(5, 3)` from the segment `(0,0)-(10,0)`
is its Euclidean distance from `(5, 0)`. -/
theorem perp_distance_is_euclidean_witness :
    ((0 : ℝ), (0 : ℝ)) ≠ (10, 0) ∧
    (segment_voodoo realLibm 5 3 0 0 10 0).dl =
      euclid (5, 3) ((segment_voodoo realLibm 5 3 0 0 10 0).px,
        (segment_voodoo realLibm 5 3 0 0 10 0).py) :=
  ⟨by intro h; have := congrArg Prod.fst h; norm_num at this,
   (perp_distance_is_euclidean 5 3 0 0 10 0
      (by intro h; have := congrArg Prod.fst h; norm_num at this)).2.1⟩

end PerpDistance

/-! ## `recalculate` and its reference definition -/

section Recalculate

lemma getD_eq_xy (pts : List (ℝ × ℝ)) (i : Nat) (hi : i < pts.length) :
    (xx_at pts i, yy_at pts i) = pts[i] := by
  simp only [xx_at, yy_at, List.getD_eq_getElem pts (0, 0) hi]

/-- C12. For a line without consecutive equal vertices, `recalculate` is its
reference definition: `n` vertex entries with `dp` the Euclidean distance from the
query, and `n - 1` segment entries carrying the outputs of `segment_voodoo` for
the segment, its length, the square of the length, the segment vector and its
angle; every `dl` is non-negative. -/
theorem recalculate_eq_reference (cx cy : ℝ) (pts : List (ℝ × ℝ))
    (hchain : List.Chain' (fun a b => a ≠ b) pts) :
    recalculate realLibm cx cy pts = recalculate_reference cx cy pts ∧
    (recalculate realLibm cx cy pts).1.length = pts.length ∧
    (recalculate realLibm cx cy pts).2.length = pts.length - 1 ∧
    (∀ li ∈ (recalculate realLibm cx cy pts).2, 0 ≤ li.dl) := by
  have hlen1 : (recalculate realLibm cx cy pts).1.length = pts.length := by
    simp [recalculate]
  have hlen2 : (recalculate realLibm cx cy pts).2.length = pts.length - 1 := by
    simp [recalculate]
  refine ⟨?_, hlen1, hlen2, ?_⟩
  · apply Prod.ext
    · apply List.ext_getElem
      · simp [recalculate, recalculate_reference]
      · intro i h1 h2
        have hi : i < pts.length := by rw [← hlen1]; exact h1
        simp only [recalculate, recalculate_reference, List.getElem_map, List.getElem_range]
        rw [pyth_eq_euclid, getD_eq_xy pts i hi]
    · apply List.ext_getElem
      · simp only [recalculate, recalculate_reference, List.length_map, List.length_range,
          List.length_zip, List.length_tail]
        omega
      · intro i h1 h2
        have hi : i + 1 < pts.length := by
          have := h1
          rw [hlen2] at this
          omega
        have hA := getD_eq_xy pts i (by omega)
        have hB := getD_eq_xy pts (i + 1) hi
        have hA1 : xx_at pts i = pts[i].1 := congrArg Prod.fst hA
        have hA2 : yy_at pts i = pts[i].2 := congrArg Prod.snd hA
        have hB1 : xx_at pts (i + 1) = pts[i + 1].1 := congrArg Prod.fst hB
        have hB2 : yy_at pts (i + 1) = pts[i + 1].2 := congrArg Prod.snd hB
        obtain ⟨e1, e2, e3, e4, e5⟩ := line_eq_voodoo cx cy pts i
        simp only [recalculate, recalculate_reference, List.getElem_map, List.getElem_range,
          List.getElem_zip, List.getElem_tail]
        rw [← hA1, ← hA2, ← hB1, ← hB2, ← e1, ← e2, ← e3, ← e4, ← e5]
        have hll : (recalculate_line realLibm cx cy pts i).ll =
            euclid pts[i] pts[i + 1] := by
          simp only [recalculate_line]
          rw [pyth_eq_euclid, hA, hB]
        have hl2 : (recalculate_line realLibm cx cy pts i).ll ^ 2 =
            (recalculate_line realLibm cx cy pts i).l2 := by
          rw [sq]
          rfl
        rw [← hll, hl2]
        rfl
  · intro li hli
    simp only [recalculate, List.mem_map, List.mem_range] at hli
    obtain ⟨i, hi, rfl⟩ := hli
    have hpos := (seg_len_facts pts hchain i (by omega)).1
    simp only [recalculate_line]
    exact mul_nonneg (abs_nonneg _) hpos.le

/-- The reference theorem at the line `(0,0), (10,0), (10,10)` and the query
`(11, 1/5)`. -/
theorem recalculate_eq_reference_witness :
    recalculate realLibm 11 (1 / 5) [(0, 0), (10, 0), (10, 10)] =
      recalculate_reference 11 (1 / 5) [(0, 0), (10, 0), (10, 10)] ∧
    (recalculate realLibm 11 (1 / 5) [(0, 0), (10, 0), (10, 10)]).1.length = 3 ∧
    (recalculate realLibm 11 (1 / 5) [(0, 0), (10, 0), (10, 10)]).2.length = 2 := by
  have h := recalculate_eq_reference 11 (1 / 5) [(0, 0), (10, 0), (10, 10)]
    (by
      simp only [List.chain'_cons, List.chain'_singleton, and_true]
      constructor
      · intro h
        have := congrArg Prod.fst h
        norm_num at this
      · intro h
        have := congrArg Prod.snd h
        norm_num at this)
  exact ⟨h.1, h.2.1, h.2.2.1⟩

end Recalculate

/-! ## The compass vocabulary -/

section Compass

/-- The angle of a point given in polar form. -/
lemma atan2_polar (x y r t : ℝ) (hr : 0 < r) (ht : t ∈ Set.Ioc (-Real.pi) Real.pi)
    (hx : x = r * Real.cos t) (hy : y = r * Real.sin t) : realLibm.atan2 y x = t := by
  rw [realLibm_atan2]
  have h : (⟨x, y⟩ : ℂ) = (r : ℂ) * (Complex.cos t + Complex.sin t * Complex.I) := by
    apply Complex.ext
    · simp [hx, ← Complex.ofReal_cos, ← Complex.ofReal_sin]
    · simp [hy, ← Complex.ofReal_cos, ← Complex.ofReal_sin]
  rw [h]
  exact Complex.arg_mul_cos_add_sin_mul_I hr ht

lemma sqrt_two_mul_half : Real.sqrt 2 * (Real.sqrt 2 / 2) = 1 := by
  have h : Real.sqrt 2 * Real.sqrt 2 = 2 := Real.mul_self_sqrt (by norm_num)
  linarith

lemma atan2_east : realLibm.atan2 0 1 = 0 :=
  atan2_polar 1 0 1 0 one_pos ⟨by linarith [Real.pi_pos], Real.pi_pos.le⟩
    (by simp) (by simp)

lemma atan2_south : realLibm.atan2 1 0 = Real.pi / 2 :=
  atan2_polar 0 1 1 (Real.pi / 2) one_pos
    ⟨by linarith [Real.pi_pos], by linarith [Real.pi_pos]⟩ (by simp) (by simp)

lemma atan2_west : realLibm.atan2 0 (-1) = Real.pi :=
  atan2_polar (-1) 0 1 Real.pi one_pos ⟨by linarith [Real.pi_pos], le_refl _⟩
    (by simp) (by simp)

lemma atan2_north : realLibm.atan2 (-1) 0 = -(Real.pi / 2) :=
  atan2_polar 0 (-1) 1 (-(Real.pi / 2)) one_pos
    ⟨by linarith [Real.pi_pos], by linarith [Real.pi_pos]⟩ (by simp) (by simp)

lemma atan2_southeast : realLibm.atan2 1 1 = Real.pi / 4 :=
  atan2_polar 1 1 (Real.sqrt 2) (Real.pi / 4) (Real.sqrt_pos.mpr (by norm_num))
    ⟨by linarith [Real.pi_pos], by linarith [Real.pi_pos]⟩
    (by rw [Real.cos_pi_div_four, sqrt_two_mul_half])
    (by rw [Real.sin_pi_div_four, sqrt_two_mul_half])

lemma atan2_northeast : realLibm.atan2 (-1) 1 = -(Real.pi / 4) :=
  atan2_polar 1 (-1) (Real.sqrt 2) (-(Real.pi / 4)) (Real.sqrt_pos.mpr (by norm_num))
    ⟨by linarith [Real.pi_pos], by linarith [Real.pi_pos]⟩
    (by rw [Real.cos_neg, Real.cos_pi_div_four, sqrt_two_mul_half])
    (by rw [Real.sin_neg, Real.sin_pi_div_four, mul_neg, sqrt_two_mul_half])

lemma atan2_southwest : realLibm.atan2 1 (-1) = Real.pi - Real.pi / 4 :=
  atan2_polar (-1) 1 (Real.sqrt 2) (Real.pi - Real.pi / 4) (Real.sqrt_pos.mpr (by norm_num))
    ⟨by linarith [Real.pi_pos], by linarith [Real.pi_pos]⟩
    (by rw [Real.cos_pi_sub, Real.cos_pi_div_four, mul_neg, sqrt_two_mul_half])
    (by rw [Real.sin_pi_sub, Real.sin_pi_div_four, sqrt_two_mul_half])

lemma atan2_northwest : realLibm.atan2 (-1) (-1) = -(Real.pi - Real.pi / 4) :=
  atan2_polar (-1) (-1) (Real.sqrt 2) (-(Real.pi - Real.pi / 4))
    (Real.sqrt_pos.mpr (by norm_num))
    ⟨by linarith [Real.pi_pos], by linarith [Real.pi_pos]⟩
    (by rw [Real.cos_neg, Real.cos_pi_sub, Real.cos_pi_div_four, mul_neg, sqrt_two_mul_half])
    (by rw [Real.sin_neg, Real.sin_pi_sub, Real.sin_pi_div_four, mul_neg, sqrt_two_mul_half])

/-- C13. The sixteen compass tokens `e, ese, se, ..., ene`, in this order, are
mapped to angles congruent modulo `2π` to `k * π / 8` for `k = 0, ..., 15`; an
undefined direction gives the angle `0`, and an undefined minimum distance makes
`move_line_away` behave as with the minimum distance `1`. -/
theorem compass_vocabulary (P : Perl ℝ) :
    (∀ k : Fin 16, ∃ m : ℤ,
      general_direction_of realLibm P (SV.pv (compass_tokens.getD k.val "")) =
        (k.val : ℝ) * (Real.pi / 8) + (m : ℝ) * (2 * Real.pi)) ∧
    general_direction_of realLibm P SV.undef = 0 ∧
    (∀ (u : av_locals ℝ) (h : Heap ℝ)
      (arg_north arg_south arg_east arg_west arg_general_direction arg_points_b
        arg_points_a : SV ℝ),
      move_line_away realLibm P u h arg_north arg_south arg_east arg_west SV.undef
          arg_general_direction arg_points_b arg_points_a =
        move_line_away realLibm P u h arg_north arg_south arg_east arg_west (SV.nv 1)
          arg_general_direction arg_points_b arg_points_a) := by
  refine ⟨?_, ?_, ?_⟩
  · intro k
    fin_cases k
    · exact ⟨0, by
        simp [compass_tokens, general_direction_of, SvOK, SvPV, atan2_east]⟩
    · exact ⟨0, by
        simp [compass_tokens, general_direction_of, SvOK, SvPV, atan2_southeast]; ring⟩
    · exact ⟨0, by
        simp [compass_tokens, general_direction_of, SvOK, SvPV, atan2_southeast]; ring⟩
    · exact ⟨0, by
        simp [compass_tokens, general_direction_of, SvOK, SvPV, atan2_southeast]; ring⟩
    · exact ⟨0, by
        simp [compass_tokens, general_direction_of, SvOK, SvPV, atan2_south]; ring⟩
    · exact ⟨0, by
        simp [compass_tokens, general_direction_of, SvOK, SvPV, atan2_southeast]; ring⟩
    · exact ⟨0, by
        simp [compass_tokens, general_direction_of, SvOK, SvPV, atan2_southwest]; ring⟩
    · exact ⟨0, by
        simp [compass_tokens, general_direction_of, SvOK, SvPV, atan2_southeast]; ring⟩
    · exact ⟨0, by
        simp [compass_tokens, general_direction_of, SvOK, SvPV, atan2_west]; ring⟩
    · exact ⟨0, by
        simp [compass_tokens, general_direction_of, SvOK, SvPV, atan2_southeast]; ring⟩
    · exact ⟨-1, by
        simp [compass_tokens, general_direction_of, SvOK, SvPV, atan2_northwest]; ring⟩
    · exact ⟨0, by
        simp [compass_tokens, general_direction_of, SvOK, SvPV, atan2_southeast]; ring⟩
    · exact ⟨-1, by
        simp [compass_tokens, general_direction_of, SvOK, SvPV, atan2_north]; ring⟩
    · exact ⟨0, by
        simp [compass_tokens, general_direction_of, SvOK, SvPV, atan2_southeast]; ring⟩
    · exact ⟨-1, by
        simp [compass_tokens, general_direction_of, SvOK, SvPV, atan2_northeast]; ring⟩
    · exact ⟨0, by
        simp [compass_tokens, general_direction_of, SvOK, SvPV, atan2_southeast]; ring⟩
  · simp [general_direction_of, SvOK]
  · intro u h arg_north arg_south arg_east arg_west arg_general_direction arg_points_b
      arg_points_a
    simp [move_line_away, SvOK, SvNV]

end Compass

/-! ## Repeated application on a single vertex -/

section SingleVertexFlip

/-- On the one-vertex line, a query other than the vertex and nearer than
`d + 0.001` is sent to `V0 + d * (V0 - q) / |V0 - q|`. -/
lemma singleton_relocated (qx qy d g vx vy : ℝ) (hne : vx - qx ≠ 0 ∨ vy - qy ≠ 0)
    (hlt : Real.sqrt ((vx - qx) * (vx - qx) + (vy - qy) * (vy - qy)) < d + 1 / 1000) :
    move_point_away realLibm qx qy d g [(vx, vy)] =
      (vx + d * ((vx - qx) / Real.sqrt ((vx - qx) * (vx - qx) + (vy - qy) * (vy - qy))),
       vy + d * ((vy - qy) / Real.sqrt ((vx - qx) * (vx - qx) + (vy - qy) * (vy - qy)))) := by
  have hp : pyth realLibm qx qy vx vy < d + 1 / 1000 := hlt
  rw [move_point_away_singleton, if_pos hp]
  simp only [realLibm_cos, realLibm_sin]
  rw [cos_atan2 hne, sin_atan2]

/-- On the one-vertex line, the point `V0 + d * w` with `w` a unit vector and `d > 0`
is sent to `V0 - d * w`. -/
lemma singleton_flip (d g vx vy wx wy : ℝ) (hd : 0 < d) (hw : wx * wx + wy * wy = 1) :
    move_point_away realLibm (vx + d * wx) (vy + d * wy) d g [(vx, vy)] =
      (vx - d * wx, vy - d * wy) := by
  have hrho : Real.sqrt ((vx - (vx + d * wx)) * (vx - (vx + d * wx)) +
      (vy - (vy + d * wy)) * (vy - (vy + d * wy))) = d := by
    have h : (vx - (vx + d * wx)) * (vx - (vx + d * wx)) +
        (vy - (vy + d * wy)) * (vy - (vy + d * wy)) = d ^ 2 := by
      linear_combination d ^ 2 * hw
    rw [h]
    exact Real.sqrt_sq hd.le
  have hne : vx - (vx + d * wx) ≠ 0 ∨ vy - (vy + d * wy) ≠ 0 := by
    by_contra hc
    push_neg at hc
    have h1 : d * wx = 0 := by linarith [hc.1]
    have h2 : d * wy = 0 := by linarith [hc.2]
    have h3 : wx = 0 := by
      rcases mul_eq_zero.mp h1 with h | h
      · exact absurd h hd.ne'
      · exact h
    have h4 : wy = 0 := by
      rcases mul_eq_zero.mp h2 with h | h
      · exact absurd h hd.ne'
      · exact h
    rw [h3, h4] at hw
    norm_num at hw
  rw [singleton_relocated _ _ d g vx vy hne (by rw [hrho]; linarith), hrho]
  apply Prod.ext
  · show vx + d * ((vx - (vx + d * wx)) / d) = vx - d * wx
    field_simp
    ring
  · show vy + d * ((vy - (vy + d * wy)) / d) = vy - d * wy
    field_simp
    ring

/-- A point at Euclidean distance `d > 0` from `V0` is `V0 + d * w` for a unit
vector `w`. -/
lemma on_circle (d vx vy px py : ℝ) (hd : 0 < d) (h : euclid (px, py) (vx, vy) = d) :
    ∃ wx wy : ℝ, wx * wx + wy * wy = 1 ∧ px = vx + d * wx ∧ py = vy + d * wy := by
  have hsq : (px - vx) ^ 2 + (py - vy) ^ 2 = d ^ 2 := by
    have h0 : 0 ≤ (px - vx) ^ 2 + (py - vy) ^ 2 := by positivity
    have := Real.sq_sqrt h0
    simp only [euclid] at h
    rw [h] at this
    exact this.symm
  refine ⟨(px - vx) / d, (py - vy) / d, ?_, ?_, ?_⟩
  · field_simp
    linear_combination hsq
  · field_simp
  · field_simp

/-- C20. On the one-vertex line `[V0]` with `d > 0`, for a query `q` with
`0 < |q - V0| < d + 0.001`: the result `r` is at Euclidean distance `d` from `V0`;
applying `move_point_away` to `r` gives the mirror image `2 V0 - r`, which differs
from `r`; applying it once more gives `r` again; and a query at distance exactly
`d` is moved to the diametrically opposite point. -/
theorem single_vertex_flip (qx qy d g vx vy : ℝ) (hd : 0 < d)
    (hpos : 0 < euclid (qx, qy) (vx, vy)) (hlt : euclid (qx, qy) (vx, vy) < d + 1 / 1000) :
    euclid (move_point_away realLibm qx qy d g [(vx, vy)]) (vx, vy) = d ∧
    move_point_away realLibm (move_point_away realLibm qx qy d g [(vx, vy)]).1
        (move_point_away realLibm qx qy d g [(vx, vy)]).2 d g [(vx, vy)] =
      (2 * vx - (move_point_away realLibm qx qy d g [(vx, vy)]).1,
       2 * vy - (move_point_away realLibm qx qy d g [(vx, vy)]).2) ∧
    (2 * vx - (move_point_away realLibm qx qy d g [(vx, vy)]).1,
       2 * vy - (move_point_away realLibm qx qy d g [(vx, vy)]).2) ≠
      move_point_away realLibm qx qy d g [(vx, vy)] ∧
    move_point_away realLibm (2 * vx - (move_point_away realLibm qx qy d g [(vx, vy)]).1)
        (2 * vy - (move_point_away realLibm qx qy d g [(vx, vy)]).2) d g [(vx, vy)] =
      move_point_away realLibm qx qy d g [(vx, vy)] ∧
    (euclid (qx, qy) (vx, vy) = d →
      move_point_away realLibm qx qy d g [(vx, vy)] = (2 * vx - qx, 2 * vy - qy)) := by
  have hS : (vx - qx) * (vx - qx) + (vy - qy) * (vy - qy) = (qx - vx) ^ 2 + (qy - vy) ^ 2 := by
    ring
  have hrho : Real.sqrt ((vx - qx) * (vx - qx) + (vy - qy) * (vy - qy)) =
      euclid (qx, qy) (vx, vy) := by
    simp only [euclid]
    rw [hS]
  have hne : vx - qx ≠ 0 ∨ vy - qy ≠ 0 := by
    by_contra hc
    push_neg at hc
    have : euclid (qx, qy) (vx, vy) = 0 := by
      rw [← hrho, hc.1, hc.2]
      simp
    linarith
  have hres := singleton_relocated qx qy d g vx vy hne (by rw [hrho]; exact hlt)
  rw [hrho] at hres
  have hrne : euclid (qx, qy) (vx, vy) ≠ 0 := hpos.ne'
  have hw : (vx - qx) / euclid (qx, qy) (vx, vy) * ((vx - qx) / euclid (qx, qy) (vx, vy)) +
      (vy - qy) / euclid (qx, qy) (vx, vy) * ((vy - qy) / euclid (qx, qy) (vx, vy)) = 1 := by
    have h2 : euclid (qx, qy) (vx, vy) * euclid (qx, qy) (vx, vy) =
        (vx - qx) * (vx - qx) + (vy - qy) * (vy - qy) := by
      rw [← hrho]
      exact Real.mul_self_sqrt (add_nonneg (mul_self_nonneg _) (mul_self_nonneg _))
    field_simp
    linear_combination -h2
  generalize (vx - qx) / euclid (qx, qy) (vx, vy) = wx at hres hw
  generalize (vy - qy) / euclid (qx, qy) (vx, vy) = wy at hres hw
  have hflip := singleton_flip d g vx vy wx wy hd hw
  have hw' : (-wx) * (-wx) + (-wy) * (-wy) = 1 := by linear_combination hw
  have hflip' := singleton_flip d g vx vy (-wx) (-wy) hd hw'
  have e1 : 2 * vx - (vx + d * wx) = vx + d * (-wx) := by ring
  have e2 : 2 * vy - (vy + d * wy) = vy + d * (-wy) := by ring
  rw [hres]
  refine ⟨?_, ?_, ?_, ?_, ?_⟩
  · simp only [euclid]
    have h : (vx + d * wx - vx) ^ 2 + (vy + d * wy - vy) ^ 2 = d ^ 2 := by
      linear_combination d ^ 2 * hw
    rw [h]
    exact Real.sqrt_sq hd.le
  · show move_point_away realLibm (vx + d * wx) (vy + d * wy) d g [(vx, vy)] = _
    rw [hflip]
    apply Prod.ext
    · show vx - d * wx = 2 * vx - (vx + d * wx)
      ring
    · show vy - d * wy = 2 * vy - (vy + d * wy)
      ring
  · intro hc
    have h1 : 2 * vx - (vx + d * wx) = vx + d * wx := congrArg Prod.fst hc
    have h2 : 2 * vy - (vy + d * wy) = vy + d * wy := congrArg Prod.snd hc
    have h3 : d * wx = 0 := by linarith
    have h4 : d * wy = 0 := by linarith
    have h5 : wx = 0 := by
      rcases mul_eq_zero.mp h3 with h | h
      · exact absurd h hd.ne'
      · exact h
    have h6 : wy = 0 := by
      rcases mul_eq_zero.mp h4 with h | h
      · exact absurd h hd.ne'
      · exact h
    rw [h5, h6] at hw
    norm_num at hw
  · show move_point_away realLibm (2 * vx - (vx + d * wx)) (2 * vy - (vy + d * wy)) d g
      [(vx, vy)] = _
    rw [e1, e2, hflip']
    apply Prod.ext
    · show vx - d * -wx = vx + d * wx
      ring
    · show vy - d * -wy = vy + d * wy
      ring
  · intro hdist
    obtain ⟨ux, uy, hu, hx, hy⟩ := on_circle d vx vy qx qy hd hdist
    rw [← hres, hx, hy, singleton_flip d g vx vy ux uy hd hu]
    apply Prod.ext
    · show vx - d * ux = 2 * vx - (vx + d * ux)
      ring
    · show vy - d * uy = 2 * vy - (vy + d * uy)
      ring

/-- The flip at `V0 = (0, 0)`, `q = (1/2, 0)`, `d = 1`: the query goes to `(-1, 0)`,
which goes to `(1, 0)`, which goes back to `(-1, 0)`. -/
theorem single_vertex_flip_witness :
    move_point_away realLibm
        (move_point_away realLibm (1 / 2) 0 1 0 [(0, 0)]).1
        (move_point_away realLibm (1 / 2) 0 1 0 [(0, 0)]).2 1 0 [(0, 0)] =
      (2 * 0 - (move_point_away realLibm (1 / 2) 0 1 0 [(0, 0)]).1,
       2 * 0 - (move_point_away realLibm (1 / 2) 0 1 0 [(0, 0)]).2) := by
  have he : euclid ((1 / 2 : ℝ), (0 : ℝ)) (0, 0) = 1 / 2 := by
    simp only [euclid]
    rw [show ((1 / 2 : ℝ) - 0) ^ 2 + ((0 : ℝ) - 0) ^ 2 = (1 / 2) ^ 2 by norm_num]
    exact Real.sqrt_sq (by norm_num)
  exact (single_vertex_flip (1 / 2) 0 1 0 0 0 one_pos (by rw [he]; norm_num)
    (by rw [he]; norm_num)).2.1

/-- C15. Idempotence fails: on the one-vertex line `[(0, 0)]` with `d = 1`, the
query `(1, 0)` goes to `(-1, 0)`, and `move_point_away` applied to that output
returns `(1, 0)`, a different point. -/
theorem not_idempotent :
    ∃ (pts : List (ℝ × ℝ)) (qx qy d g : ℝ),
      move_point_away realLibm (move_point_away realLibm qx qy d g pts).1
          (move_point_away realLibm qx qy d g pts).2 d g pts ≠
        move_point_away realLibm qx qy d g pts := by
  refine ⟨[(0, 0)], 1, 0, 1, 0, ?_⟩
  have h1 : move_point_away realLibm 1 0 1 0 [((0 : ℝ), (0 : ℝ))] = (-1, 0) := by
    have h := singleton_flip 1 0 0 0 1 0 one_pos (by norm_num)
    norm_num at h
    exact h
  have h2 : move_point_away realLibm (-1) 0 1 0 [((0 : ℝ), (0 : ℝ))] = (1, 0) := by
    have h := singleton_flip 1 0 0 0 (-1) 0 one_pos (by norm_num)
    norm_num at h
    exact h
  rw [h1]
  show move_point_away realLibm (-1) 0 1 0 [((0 : ℝ), (0 : ℝ))] ≠ (-1, 0)
  rw [h2]
  intro hc
  have := congrArg Prod.fst hc
  norm_num at this

end SingleVertexFlip

/-! ## Freshness of the arrays -/

section Freshness

variable {K : Type} [LinearOrderedField K]

lemma fresh_start (L : Libm K) (x y : K) (pts : List (K × K)) :
    fresh L pts (mpa_start L x y pts) := ⟨rfl, rfl⟩

lemma fresh_relocate (L : Libm K) (d g : K) (pts : List (K × K)) (ox oy a : K) :
    fresh L pts (relocate L d g pts ox oy a) := ⟨rfl, rfl⟩

lemma fresh_corner_step (L : Libm K) (d thr g : K) (pts : List (K × K)) (s : mpa_state K)
    (i : Nat) (h : fresh L pts s) : fresh L pts (corner_step L d thr g pts s i) := by
  simp only [corner_step]
  split_ifs
  · exact fresh_relocate _ _ _ _ _ _ _
  · exact h

lemma fresh_segment_step (L : Libm K) (d thr g : K) (pts : List (K × K)) (s : mpa_state K)
    (i : Nat) (h : fresh L pts s) : fresh L pts (segment_step L d thr g pts s i) := by
  simp only [segment_step]
  split_ifs
  · exact fresh_relocate _ _ _ _ _ _ _
  · exact h

lemma fresh_endpoint_step (L : Libm K) (d thr g : K) (pts : List (K × K)) (s : mpa_state K)
    (h : fresh L pts s) : fresh L pts (endpoint_step L d thr g pts s) := by
  simp only [endpoint_step]
  split_ifs
  · exact fresh_relocate _ _ _ _ _ _ _
  · exact fresh_relocate _ _ _ _ _ _ _
  · exact h

lemma after_corner_succ (L : Libm K) (x y d g : K) (pts : List (K × K)) (k : Nat) :
    after_corner L x y d g pts (k + 1) =
      corner_step L d (d + 1 / 1000) g pts (after_corner L x y d g pts k) k := by
  simp only [after_corner, List.range_succ, List.foldl_append, List.foldl_cons,
    List.foldl_nil]

lemma after_segment_succ (L : Libm K) (x y d g : K) (pts : List (K × K)) (k : Nat) :
    after_segment L x y d g pts (k + 1) =
      segment_step L d (d + 1 / 1000) g pts (after_segment L x y d g pts k) k := by
  simp only [after_segment, List.range_succ, List.foldl_append, List.foldl_cons,
    List.foldl_nil]

lemma fresh_after_corner (L : Libm K) (x y d g : K) (pts : List (K × K)) (k : Nat) :
    fresh L pts (after_corner L x y d g pts k) := by
  induction k with
  | zero => exact fresh_start L x y pts
  | succ k ih =>
    rw [after_corner_succ]
    exact fresh_corner_step _ _ _ _ _ _ _ ih

lemma fresh_after_segment (L : Libm K) (x y d g : K) (pts : List (K × K)) (k : Nat) :
    fresh L pts (after_segment L x y d g pts k) := by
  induction k with
  | zero => exact fresh_after_corner L x y d g pts _
  | succ k ih =>
    rw [after_segment_succ]
    exact fresh_segment_step _ _ _ _ _ _ _ ih

/-- C17. For a line with at least two vertices, `move_point_away` returns the point
of the state reached by the corner loop, the segment loop and the endpoint check
in this order. The state read by iteration `k` of either loop, the state read by
the endpoint check, and the final state are fresh: their arrays are those that
`recalculate` gives for the current point. Iteration `k` is applied once, to the
state left by iteration `k - 1`: the sweep does not start again. -/
theorem snapshot_freshness (L : Libm K) (x y d g : K) (pts : List (K × K))
    (hn : 2 ≤ pts.length) :
    move_point_away L x y d g pts =
      ((endpoint_step L d (d + 1 / 1000) g pts
          (after_segment L x y d g pts (pts.length - 1))).x,
       (endpoint_step L d (d + 1 / 1000) g pts
          (after_segment L x y d g pts (pts.length - 1))).y) ∧
    after_corner L x y d g pts 0 = mpa_start L x y pts ∧
    after_segment L x y d g pts 0 = after_corner L x y d g pts (pts.length - 2) ∧
    (∀ k, fresh L pts (after_corner L x y d g pts k) ∧
      after_corner L x y d g pts (k + 1) =
        corner_step L d (d + 1 / 1000) g pts (after_corner L x y d g pts k) k) ∧
    (∀ k, fresh L pts (after_segment L x y d g pts k) ∧
      after_segment L x y d g pts (k + 1) =
        segment_step L d (d + 1 / 1000) g pts (after_segment L x y d g pts k) k) ∧
    fresh L pts (endpoint_step L d (d + 1 / 1000) g pts
      (after_segment L x y d g pts (pts.length - 1))) := by
  refine ⟨?_, rfl, rfl, ?_, ?_, ?_⟩
  · rw [move_point_away_general L x y d g pts hn]
    rfl
  · intro k
    exact ⟨fresh_after_corner L x y d g pts k, after_corner_succ L x y d g pts k⟩
  · intro k
    exact ⟨fresh_after_segment L x y d g pts k, after_segment_succ L x y d g pts k⟩
  · exact fresh_endpoint_step _ _ _ _ _ _ (fresh_after_segment L x y d g pts _)

/-- The freshness theorem at the line `(0,0), (10,0), (10,10)` and the query
`(11, 1/5)`, over the rationals. -/
theorem snapshot_freshness_witness :
    fresh (K := ℚ) ⟨id, id, id, fun y _ => y⟩ [(0, 0), (10, 0), (10, 10)]
      (endpoint_step (K := ℚ) ⟨id, id, id, fun y _ => y⟩ 1 (1 + 1 / 1000) 0
        [(0, 0), (10, 0), (10, 10)]
        (after_segment (K := ℚ) ⟨id, id, id, fun y _ => y⟩ 11 (1 / 5) 1 0
          [(0, 0), (10, 0), (10, 10)] (3 - 1))) :=
  (snapshot_freshness (K := ℚ) ⟨id, id, id, fun y _ => y⟩ 11 (1 / 5) 1 0
    [(0, 0), (10, 0), (10, 10)] (by decide)).2.2.2.2.2

end Freshness


/-! ## A line of one segment -/

section SingleSegment

/-- Relocating from the point of parameter `r` of segment `i` along the normal of
that segment gives a point with `rl = r` and `dl = |distance|` on that segment. -/
lemma relocate_at_param (pts : List (ℝ × ℝ)) (h : List.Chain' (fun a b => a ≠ b) pts)
    (i : Nat) (hi : i + 1 < pts.length) (r d g : ℝ) :
    (recalculate_line realLibm
        (relocate realLibm d g pts
          (xx_at pts i + r * (xx_at pts (i + 1) - xx_at pts i))
          (yy_at pts i + r * (yy_at pts (i + 1) - yy_at pts i))
          (realLibm.atan2 (yy_at pts (i + 1) - yy_at pts i)
            (xx_at pts (i + 1) - xx_at pts i))).x
        (relocate realLibm d g pts
          (xx_at pts i + r * (xx_at pts (i + 1) - xx_at pts i))
          (yy_at pts i + r * (yy_at pts (i + 1) - yy_at pts i))
          (realLibm.atan2 (yy_at pts (i + 1) - yy_at pts i)
            (xx_at pts (i + 1) - xx_at pts i))).y pts i).rl = r ∧
    (recalculate_line realLibm
        (relocate realLibm d g pts
          (xx_at pts i + r * (xx_at pts (i + 1) - xx_at pts i))
          (yy_at pts i + r * (yy_at pts (i + 1) - yy_at pts i))
          (realLibm.atan2 (yy_at pts (i + 1) - yy_at pts i)
            (xx_at pts (i + 1) - xx_at pts i))).x
        (relocate realLibm d g pts
          (xx_at pts i + r * (xx_at pts (i + 1) - xx_at pts i))
          (yy_at pts i + r * (yy_at pts (i + 1) - yy_at pts i))
          (realLibm.atan2 (yy_at pts (i + 1) - yy_at pts i)
            (xx_at pts (i + 1) - xx_at pts i))).y pts i).dl = |d| := by
  obtain ⟨hll, hl2, hd⟩ := seg_len_facts pts h i hi
  have hsn := sin_atan2 (xx_at pts (i + 1) - xx_at pts i) (yy_at pts (i + 1) - yy_at pts i)
  have hcs := cos_atan2 hd
  have hpy : Real.sqrt ((xx_at pts (i + 1) - xx_at pts i) * (xx_at pts (i + 1) - xx_at pts i) +
      (yy_at pts (i + 1) - yy_at pts i) * (yy_at pts (i + 1) - yy_at pts i)) =
      pyth realLibm (xx_at pts i) (yy_at pts i) (xx_at pts (i + 1)) (yy_at pts (i + 1)) := rfl
  rw [hpy] at hsn hcs
  simp only [recalculate_line, relocate, realLibm_sin, realLibm_cos]
  generalize pyth realLibm (xx_at pts i) (yy_at pts i) (xx_at pts (i + 1)) (yy_at pts (i + 1))
    = ll at hll hl2 hsn hcs ⊢
  generalize Real.sin (realLibm.atan2 (yy_at pts (i + 1) - yy_at pts i)
    (xx_at pts (i + 1) - xx_at pts i)) = sn at hsn ⊢
  generalize Real.cos (realLibm.atan2 (yy_at pts (i + 1) - yy_at pts i)
    (xx_at pts (i + 1) - xx_at pts i)) = cs at hcs ⊢
  by_cases hs : Real.sin (realLibm.atan2 (yy_at pts (i + 1) - yy_at pts i)
      (xx_at pts (i + 1) - xx_at pts i) - g) < 0
  · simp only [if_pos hs]
    have hx : xx_at pts i + r * (xx_at pts (i + 1) - xx_at pts i) - d * sn =
        xx_at pts i + r * (xx_at pts (i + 1) - xx_at pts i) + (-d) * sn := by ring
    have hy : yy_at pts i + r * (yy_at pts (i + 1) - yy_at pts i) + d * cs =
        yy_at pts i + r * (yy_at pts (i + 1) - yy_at pts i) - (-d) * cs := by ring
    rw [hx, hy]
    have := shift_core (xx_at pts i) (yy_at pts i) (xx_at pts (i + 1)) (yy_at pts (i + 1))
      r ll (-d) sn cs hll hl2 hsn hcs
    rw [abs_neg] at this
    exact this
  · simp only [if_neg hs]
    exact shift_core (xx_at pts i) (yy_at pts i) (xx_at pts (i + 1)) (yy_at pts (i + 1))
      r ll d sn cs hll hl2 hsn hcs

/-- No point of the line through segment `i` is nearer to the query than `dl`. -/
lemma line_dl_le (pts : List (ℝ × ℝ)) (h : List.Chain' (fun a b => a ≠ b) pts)
    (i : Nat) (hi : i + 1 < pts.length) (cx cy s : ℝ) :
    (recalculate_line realLibm cx cy pts i).dl ≤
      euclid (cx, cy) (segment_point (pts.getD i (0, 0)) (pts.getD (i + 1) (0, 0)) s) := by
  have hne : (xx_at pts i, yy_at pts i) ≠ (xx_at pts (i + 1), yy_at pts (i + 1)) :=
    chain_getD pts (0, 0) h i hi
  rw [(line_eq_voodoo cx cy pts i).2.2.2.2]
  exact (voodoo_dl_facts cx cy _ _ _ _ hne).2 s

/-- Beyond an end of the segment, that end is the nearest point of the segment. -/
lemma endpoint_closest (dx dy u v S rl s : ℝ) (hS : S = dx * dx + dy * dy)
    (hrl : rl * S = u * dx + v * dy) :
    (rl ≤ 0 → 0 ≤ s → u ^ 2 + v ^ 2 ≤ (u - s * dx) ^ 2 + (v - s * dy) ^ 2) ∧
    (1 ≤ rl → s ≤ 1 →
      (u - dx) ^ 2 + (v - dy) ^ 2 ≤ (u - s * dx) ^ 2 + (v - s * dy) ^ 2) := by
  have hSnn : 0 ≤ S := by
    rw [hS]
    exact add_nonneg (mul_self_nonneg _) (mul_self_nonneg _)
  constructor
  · intro h0 hs
    have e : (u - s * dx) ^ 2 + (v - s * dy) ^ 2 - (u ^ 2 + v ^ 2) = s * (S * (s - 2 * rl)) := by
      linear_combination (2 * s) * hrl - s ^ 2 * hS
    have : 0 ≤ s * (S * (s - 2 * rl)) :=
      mul_nonneg hs (mul_nonneg hSnn (by linarith))
    linarith
  · intro h1 hs
    have e : (u - s * dx) ^ 2 + (v - s * dy) ^ 2 - ((u - dx) ^ 2 + (v - dy) ^ 2) =
        (1 - s) * (S * (2 * rl - 1 - s)) := by
      linear_combination (-2 * (1 - s)) * hrl + (1 - s) * (1 + s) * hS
    have : 0 ≤ (1 - s) * (S * (2 * rl - 1 - s)) :=
      mul_nonneg (by linarith) (mul_nonneg hSnn (by linarith))
    linarith

/-- A query that triggers neither the segment test nor an endpoint test of a
one-segment line is at Euclidean distance at least the threshold from the closed
segment. -/
lemma untriggered_clear (ax ay bx b_y cx cy thr : ℝ) (hAB : (ax, ay) ≠ (bx, b_y))
    (hseg : ¬ ((recalculate_line realLibm cx cy [(ax, ay), (bx, b_y)] 0).dl < thr ∧
      (recalculate_line realLibm cx cy [(ax, ay), (bx, b_y)] 0).rl ≥ 0 ∧
      (recalculate_line realLibm cx cy [(ax, ay), (bx, b_y)] 0).rl ≤ 1))
    (hA : ¬ (pyth realLibm cx cy ax ay < thr)) (hB : ¬ (pyth realLibm cx cy bx b_y < thr))
    (s : ℝ) (hs0 : 0 ≤ s) (hs1 : s ≤ 1) :
    thr ≤ euclid (cx, cy) (segment_point (ax, ay) (bx, b_y) s) := by
  have hchain : List.Chain' (fun a b : ℝ × ℝ => a ≠ b) [(ax, ay), (bx, b_y)] := by
    simp [hAB]
  have hS := seg_l2_ne_zero hAB
  have hrlv := (line_eq_voodoo cx cy [(ax, ay), (bx, b_y)] 0).1
  have hrl : (recalculate_line realLibm cx cy [(ax, ay), (bx, b_y)] 0).rl *
      ((bx - ax) * (bx - ax) + (b_y - ay) * (b_y - ay)) =
      (cx - ax) * (bx - ax) + (cy - ay) * (b_y - ay) := by
    rw [hrlv]
    exact div_mul_cancel₀ _ hS
  obtain ⟨k0, k1⟩ := endpoint_closest (bx - ax) (b_y - ay) (cx - ax) (cy - ay)
    ((bx - ax) * (bx - ax) + (b_y - ay) * (b_y - ay))
    (recalculate_line realLibm cx cy [(ax, ay), (bx, b_y)] 0).rl s rfl hrl
  by_cases h0 : (recalculate_line realLibm cx cy [(ax, ay), (bx, b_y)] 0).rl < 0
  · have hle := k0 h0.le hs0
    have hA' := not_lt.mp hA
    rw [pyth_eq_euclid] at hA'
    refine le_trans hA' ?_
    simp only [euclid, segment_point]
    apply Real.sqrt_le_sqrt
    have e2 : (cx - (ax + s * (bx - ax))) ^ 2 + (cy - (ay + s * (b_y - ay))) ^ 2 =
        (cx - ax - s * (bx - ax)) ^ 2 + (cy - ay - s * (b_y - ay)) ^ 2 := by ring
    rw [e2]
    exact hle
  by_cases h1 : 1 < (recalculate_line realLibm cx cy [(ax, ay), (bx, b_y)] 0).rl
  · have hle := k1 h1.le hs1
    have hB' := not_lt.mp hB
    rw [pyth_eq_euclid] at hB'
    refine le_trans hB' ?_
    simp only [euclid, segment_point]
    apply Real.sqrt_le_sqrt
    have e1 : (cx - bx) ^ 2 + (cy - b_y) ^ 2 =
        (cx - ax - (bx - ax)) ^ 2 + (cy - ay - (b_y - ay)) ^ 2 := by ring
    have e2 : (cx - (ax + s * (bx - ax))) ^ 2 + (cy - (ay + s * (b_y - ay))) ^ 2 =
        (cx - ax - s * (bx - ax)) ^ 2 + (cy - ay - s * (b_y - ay)) ^ 2 := by ring
    rw [e1, e2]
    exact hle
  · have hdl : thr ≤ (recalculate_line realLibm cx cy [(ax, ay), (bx, b_y)] 0).dl := by
      by_contra hc
      exact hseg ⟨not_le.mp hc, not_lt.mp h0, not_lt.mp h1⟩
    exact le_trans hdl (line_dl_le [(ax, ay), (bx, b_y)] hchain 0 (by simp) cx cy s)

end SingleSegment

section SingleSegmentClearance

/-- The endpoint check on a one-segment line: the new point has `dl = d`, or the
state is unchanged and neither endpoint test fired. -/
lemma endpoint_two (ax ay bx b_y d thr g : ℝ) (hAB : (ax, ay) ≠ (bx, b_y)) (hd : 0 ≤ d)
    (t : mpa_state ℝ) (hfresh : fresh realLibm [(ax, ay), (bx, b_y)] t) :
    (recalculate_line realLibm
        (endpoint_step realLibm d thr g [(ax, ay), (bx, b_y)] t).x
        (endpoint_step realLibm d thr g [(ax, ay), (bx, b_y)] t).y
        [(ax, ay), (bx, b_y)] 0).dl = d ∨
    (endpoint_step realLibm d thr g [(ax, ay), (bx, b_y)] t = t ∧
      ¬ (pyth realLibm t.x t.y ax ay < thr) ∧ ¬ (pyth realLibm t.x t.y bx b_y < thr)) := by
  have hchain : List.Chain' (fun a b : ℝ × ℝ => a ≠ b) [(ax, ay), (bx, b_y)] := by
    simp [hAB]
  have hlen : 0 + 1 < ([(ax, ay), (bx, b_y)] : List (ℝ × ℝ)).length := by simp
  have hn1 : ([(ax, ay), (bx, b_y)] : List (ℝ × ℝ)).length - 1 = 1 := rfl
  have hn2 : ([(ax, ay), (bx, b_y)] : List (ℝ × ℝ)).length - 2 = 0 := rfl
  have htheta : (t.line_info.getD 0 default).theta =
      realLibm.atan2 (yy_at [(ax, ay), (bx, b_y)] (0 + 1) - yy_at [(ax, ay), (bx, b_y)] 0)
        (xx_at [(ax, ay), (bx, b_y)] (0 + 1) - xx_at [(ax, ay), (bx, b_y)] 0) := by
    rw [hfresh.2, recalc_line_getD realLibm t.x t.y _ 0 hlen]
    rfl
  have hdp0 : (t.point_info.getD 0 default).dp = pyth realLibm t.x t.y ax ay := by
    rw [hfresh.1, recalc_point_getD realLibm t.x t.y _ 0 (by simp)]
    rfl
  have hdp1 : (t.point_info.getD 1 default).dp = pyth realLibm t.x t.y bx b_y := by
    rw [hfresh.1, recalc_point_getD realLibm t.x t.y _ 1 (by simp)]
    rfl
  have hA0 : xx_at [(ax, ay), (bx, b_y)] 0 = xx_at [(ax, ay), (bx, b_y)] 0 +
      0 * (xx_at [(ax, ay), (bx, b_y)] (0 + 1) - xx_at [(ax, ay), (bx, b_y)] 0) := by ring
  have hA1 : yy_at [(ax, ay), (bx, b_y)] 0 = yy_at [(ax, ay), (bx, b_y)] 0 +
      0 * (yy_at [(ax, ay), (bx, b_y)] (0 + 1) - yy_at [(ax, ay), (bx, b_y)] 0) := by ring
  have hB0 : xx_at [(ax, ay), (bx, b_y)] 1 = xx_at [(ax, ay), (bx, b_y)] 0 +
      1 * (xx_at [(ax, ay), (bx, b_y)] (0 + 1) - xx_at [(ax, ay), (bx, b_y)] 0) := by ring
  have hB1 : yy_at [(ax, ay), (bx, b_y)] 1 = yy_at [(ax, ay), (bx, b_y)] 0 +
      1 * (yy_at [(ax, ay), (bx, b_y)] (0 + 1) - yy_at [(ax, ay), (bx, b_y)] 0) := by ring
  simp only [endpoint_step, hn1, hn2, htheta, hdp0, hdp1]
  by_cases c0 : pyth realLibm t.x t.y ax ay < thr
  · left
    rw [if_pos c0]
    have := (relocate_at_param [(ax, ay), (bx, b_y)] hchain 0 hlen 0 d g).2
    rw [abs_of_nonneg hd, ← hA0, ← hA1] at this
    exact this
  · by_cases c1 : pyth realLibm t.x t.y bx b_y < thr
    · left
      rw [if_neg c0, if_pos c1]
      have := (relocate_at_param [(ax, ay), (bx, b_y)] hchain 0 hlen 1 d g).2
      rw [abs_of_nonneg hd, ← hB0, ← hB1] at this
      exact this
    · right
      rw [if_neg c0, if_neg c1]
      exact ⟨rfl, c0, c1⟩

/-- C18. On a two-vertex line `[A, B]` with `A ≠ B` and `d ≥ 0`, the point returned
by `move_point_away` is at Euclidean distance at least `d` from every point of the
closed segment `AB`, for every query and every preferred direction. -/
theorem single_segment_clearance (ax ay bx b_y qx qy d g s : ℝ)
    (hAB : (ax, ay) ≠ (bx, b_y)) (hd : 0 ≤ d) (hs0 : 0 ≤ s) (hs1 : s ≤ 1) :
    d ≤ euclid (move_point_away realLibm qx qy d g [(ax, ay), (bx, b_y)])
      (segment_point (ax, ay) (bx, b_y) s) := by
  have hchain : List.Chain' (fun a b : ℝ × ℝ => a ≠ b) [(ax, ay), (bx, b_y)] := by
    simp [hAB]
  have hlen : 0 + 1 < ([(ax, ay), (bx, b_y)] : List (ℝ × ℝ)).length := by simp
  have hgood : ∀ x y : ℝ, (recalculate_line realLibm x y [(ax, ay), (bx, b_y)] 0).dl = d →
      d ≤ euclid (x, y) (segment_point (ax, ay) (bx, b_y) s) := by
    intro x y h
    have := line_dl_le [(ax, ay), (bx, b_y)] hchain 0 hlen x y s
    rw [h] at this
    exact this
  rw [move_point_away_general realLibm qx qy d g _ (by simp)]
  have e2 : ([(ax, ay), (bx, b_y)] : List (ℝ × ℝ)).length - 2 = 0 := rfl
  have e1 : ([(ax, ay), (bx, b_y)] : List (ℝ × ℝ)).length - 1 = 1 := rfl
  have r1 : List.range 1 = [0] := rfl
  rw [e2, e1, List.range_zero, r1, List.foldl_nil, List.foldl_cons, List.foldl_nil]
  have hfresh0 : fresh realLibm [(ax, ay), (bx, b_y)]
      { x := qx, y := qy,
        point_info := (recalculate realLibm qx qy [(ax, ay), (bx, b_y)]).1,
        line_info := (recalculate realLibm qx qy [(ax, ay), (bx, b_y)]).2 } := ⟨rfl, rfl⟩
  have hfresh2 := fresh_segment_step realLibm d (d + 1 / 1000) g [(ax, ay), (bx, b_y)] _ 0
    hfresh0
  rcases endpoint_two ax ay bx b_y d (d + 1 / 1000) g hAB hd _ hfresh2 with h3 | ⟨h3, hA, hB⟩
  · exact hgood _ _ h3
  · rw [h3]
    revert hA hB
    simp only [segment_step]
    rw [recalc_line_getD realLibm qx qy _ 0 hlen]
    by_cases htrig : (recalculate_line realLibm qx qy [(ax, ay), (bx, b_y)] 0).dl
          < d + 1 / 1000 ∧
        (recalculate_line realLibm qx qy [(ax, ay), (bx, b_y)] 0).rl ≥ 0 ∧
        (recalculate_line realLibm qx qy [(ax, ay), (bx, b_y)] 0).rl ≤ 1
    · rw [if_pos htrig]
      intro _ _
      have := (relocate_on_segment [(ax, ay), (bx, b_y)] hchain 0 hlen qx qy d g).2
      rw [abs_of_nonneg hd] at this
      exact hgood _ _ this
    · rw [if_neg htrig]
      intro hA hB
      have := untriggered_clear ax ay bx b_y qx qy (d + 1 / 1000) hAB htrig hA hB s hs0 hs1
      exact le_trans (by linarith) this

/-- The clearance theorem at the line `(0,0), (10,0)`, the query `(5, 0.0005)` and
`d = 1`, for the point `(5, 0)` of the segment. -/
theorem single_segment_clearance_witness :
    (1 : ℝ) ≤ euclid (move_point_away realLibm 5 (1 / 2000) 1 0 [(0, 0), (10, 0)])
      (segment_point (0, 0) (10, 0) (1 / 2)) :=
  single_segment_clearance 0 0 10 0 5 (1 / 2000) 1 0 (1 / 2)
    (by intro h; have := congrArg Prod.fst h; norm_num at this)
    (by norm_num) (by norm_num) (by norm_num)

end SingleSegmentClearance

/-! ## A result that is too near a segment -/

section TooNear

lemma corner_pyth : pyth realLibm 10 0 10 10 = 10 := by
  simp only [pyth, realLibm_sqrt]
  rw [show ((10 : ℝ) - 10) * (10 - 10) + (10 - 0) * (10 - 0) = 10 ^ 2 by norm_num]
  exact Real.sqrt_sq (by norm_num)

/-- The entries of `line_info` for the line `(0,0), (10,0), (10,10)`. -/
lemma corner_lines (x y : ℝ) :
    (recalculate_line realLibm x y [(0, 0), (10, 0), (10, 10)] 0).rl = x / 10 ∧
    (recalculate_line realLibm x y [(0, 0), (10, 0), (10, 10)] 1).rl = y / 10 ∧
    (recalculate_line realLibm x y [(0, 0), (10, 0), (10, 10)] 1).dl = |x - 10| ∧
    (recalculate_line realLibm x y [(0, 0), (10, 0), (10, 10)] 1).px = 10 ∧
    (recalculate_line realLibm x y [(0, 0), (10, 0), (10, 10)] 1).py = y ∧
    (recalculate_line realLibm x y [(0, 0), (10, 0), (10, 10)] 1).theta =
      realLibm.atan2 (10 - 0) (10 - 10) := by
  have hx0 : xx_at [((0 : ℝ), (0 : ℝ)), (10, 0), (10, 10)] 0 = 0 := rfl
  have hy0 : yy_at [((0 : ℝ), (0 : ℝ)), (10, 0), (10, 10)] 0 = 0 := rfl
  have hx1 : xx_at [((0 : ℝ), (0 : ℝ)), (10, 0), (10, 10)] (0 + 1) = 10 := rfl
  have hy1 : yy_at [((0 : ℝ), (0 : ℝ)), (10, 0), (10, 10)] (0 + 1) = 0 := rfl
  have hx1' : xx_at [((0 : ℝ), (0 : ℝ)), (10, 0), (10, 10)] 1 = 10 := rfl
  have hy1' : yy_at [((0 : ℝ), (0 : ℝ)), (10, 0), (10, 10)] 1 = 0 := rfl
  have hx2 : xx_at [((0 : ℝ), (0 : ℝ)), (10, 0), (10, 10)] (1 + 1) = 10 := rfl
  have hy2 : yy_at [((0 : ℝ), (0 : ℝ)), (10, 0), (10, 10)] (1 + 1) = 10 := rfl
  simp only [recalculate_line, hx0, hy0, hx1, hy1, hx1', hy1', hx2, hy2, example_pyth,
    corner_pyth]
  refine ⟨by ring, by ring, ?_, by ring, by ring, trivial⟩
  rw [show ((0 - y) * (10 - 10) - (10 - x) * (10 - 0)) / (10 * 10) = (x - 10) / 10 by ring,
    abs_div, abs_of_pos (show (0 : ℝ) < 10 by norm_num)]
  ring

/-- The sine and cosine of the angle of the second segment. -/
lemma corner_angle :
    Real.sin (realLibm.atan2 (10 - 0) (10 - 10)) = 1 ∧
    Real.cos (realLibm.atan2 (10 - 0) (10 - 10)) = 0 := by
  have hs : Real.sqrt (((10 : ℝ) - 10) * (10 - 10) + (10 - 0) * (10 - 0)) = 10 := by
    rw [show ((10 : ℝ) - 10) * (10 - 10) + (10 - 0) * (10 - 0) = 10 ^ 2 by norm_num]
    exact Real.sqrt_sq (by norm_num)
  constructor
  · rw [sin_atan2, hs]
    norm_num
  · rw [cos_atan2 (Or.inr (by norm_num)), hs]
    norm_num

/-- The point assigned by the segment pass on the second segment. -/
lemma corner_relocate :
    (relocate realLibm 1 Real.pi [(0, 0), (10, 0), (10, 10)] 10 (1 / 5)
      (realLibm.atan2 (10 - 0) (10 - 10))).x = 9 ∧
    (relocate realLibm 1 Real.pi [(0, 0), (10, 0), (10, 10)] 10 (1 / 5)
      (realLibm.atan2 (10 - 0) (10 - 10))).y = 1 / 5 := by
  obtain ⟨hsin, hcos⟩ := corner_angle
  have hneg : Real.sin (realLibm.atan2 (10 - 0) (10 - 10) - Real.pi) < 0 := by
    rw [Real.sin_sub_pi, hsin]
    norm_num
  simp only [relocate, realLibm_sin, realLibm_cos, if_pos hneg, hsin, hcos]
  constructor <;> norm_num

lemma far_sqrt (a b : ℝ) (h : (1 + 1 / 1000 : ℝ) ^ 2 ≤ a ^ 2 + b ^ 2) :
    ¬ (Real.sqrt (a ^ 2 + b ^ 2) < 1 + 1 / 1000) := by
  rw [not_lt]
  exact Real.le_sqrt_of_sq_le h

/-- The result of `move_point_away` on the line `(0,0), (10,0), (10,10)` for the
query `(11, 1/5)`, `d = 1` and the direction `π`. -/
lemma corner_result :
    move_point_away realLibm 11 (1 / 5) 1 Real.pi [(0, 0), (10, 0), (10, 10)] =
      (9, 1 / 5) := by
  obtain ⟨q0rl, q1rl, q1dl, q1px, q1py, q1th⟩ := corner_lines 11 (1 / 5)
  obtain ⟨hrx, hry⟩ := corner_relocate
  have hfar : ∀ (x y vx vy : ℝ), (1 + 1 / 1000 : ℝ) ^ 2 ≤ (x - vx) ^ 2 + (y - vy) ^ 2 →
      ¬ (pyth realLibm x y vx vy < 1 + 1 / 1000) := by
    intro x y vx vy h
    rw [pyth_eq_euclid]
    exact far_sqrt _ _ h
  rw [move_point_away_general realLibm 11 (1 / 5) 1 Real.pi _ (by simp)]
  have e2 : ([((0 : ℝ), (0 : ℝ)), (10, 0), (10, 10)] : List (ℝ × ℝ)).length - 2 = 1 := rfl
  have e1 : ([((0 : ℝ), (0 : ℝ)), (10, 0), (10, 10)] : List (ℝ × ℝ)).length - 1 = 2 := rfl
  have r1 : List.range 1 = [0] := rfl
  have r2 : List.range 2 = [0, 1] := rfl
  rw [e2, e1, r1, r2]
  simp only [List.foldl_cons, List.foldl_nil]
  have hcorner : corner_step realLibm 1 (1 + 1 / 1000) Real.pi [(0, 0), (10, 0), (10, 10)]
      { x := 11, y := 1 / 5,
        point_info := (recalculate realLibm 11 (1 / 5) [(0, 0), (10, 0), (10, 10)]).1,
        line_info := (recalculate realLibm 11 (1 / 5) [(0, 0), (10, 0), (10, 10)]).2 } 0 =
      { x := 11, y := 1 / 5,
        point_info := (recalculate realLibm 11 (1 / 5) [(0, 0), (10, 0), (10, 10)]).1,
        line_info := (recalculate realLibm 11 (1 / 5) [(0, 0), (10, 0), (10, 10)]).2 } := by
    simp only [corner_step]
    rw [recalc_line_getD realLibm 11 (1 / 5) _ 0 (by simp),
      recalc_point_getD realLibm 11 (1 / 5) _ (0 + 1) (by simp), if_neg]
    rintro (h | h)
    · rw [q0rl] at h
      norm_num at h
    · exact hfar 11 (1 / 5) 10 0 (by norm_num) h
  have hseg0 : segment_step realLibm 1 (1 + 1 / 1000) Real.pi [(0, 0), (10, 0), (10, 10)]
      { x := 11, y := 1 / 5,
        point_info := (recalculate realLibm 11 (1 / 5) [(0, 0), (10, 0), (10, 10)]).1,
        line_info := (recalculate realLibm 11 (1 / 5) [(0, 0), (10, 0), (10, 10)]).2 } 0 =
      { x := 11, y := 1 / 5,
        point_info := (recalculate realLibm 11 (1 / 5) [(0, 0), (10, 0), (10, 10)]).1,
        line_info := (recalculate realLibm 11 (1 / 5) [(0, 0), (10, 0), (10, 10)]).2 } := by
    simp only [segment_step]
    rw [recalc_line_getD realLibm 11 (1 / 5) _ 0 (by simp), if_neg]
    rintro ⟨_, _, h⟩
    rw [q0rl] at h
    norm_num at h
  have hseg1 : segment_step realLibm 1 (1 + 1 / 1000) Real.pi [(0, 0), (10, 0), (10, 10)]
      { x := 11, y := 1 / 5,
        point_info := (recalculate realLibm 11 (1 / 5) [(0, 0), (10, 0), (10, 10)]).1,
        line_info := (recalculate realLibm 11 (1 / 5) [(0, 0), (10, 0), (10, 10)]).2 } 1 =
      relocate realLibm 1 Real.pi [(0, 0), (10, 0), (10, 10)] 10 (1 / 5)
        (realLibm.atan2 (10 - 0) (10 - 10)) := by
    simp only [segment_step]
    rw [recalc_line_getD realLibm 11 (1 / 5) _ 1 (by simp), if_pos, q1px, q1py, q1th]
    rw [q1dl, q1rl]
    refine ⟨?_, by norm_num, by norm_num⟩
    rw [show (11 : ℝ) - 10 = 1 by norm_num, abs_one]
    norm_num
  rw [hcorner, hseg0, hseg1]
  have hend : endpoint_step realLibm 1 (1 + 1 / 1000) Real.pi [(0, 0), (10, 0), (10, 10)]
      (relocate realLibm 1 Real.pi [(0, 0), (10, 0), (10, 10)] 10 (1 / 5)
        (realLibm.atan2 (10 - 0) (10 - 10))) =
      relocate realLibm 1 Real.pi [(0, 0), (10, 0), (10, 10)] 10 (1 / 5)
        (realLibm.atan2 (10 - 0) (10 - 10)) := by
    have hp0 : ¬ (((relocate realLibm 1 Real.pi [(0, 0), (10, 0), (10, 10)] 10 (1 / 5)
        (realLibm.atan2 (10 - 0) (10 - 10))).point_info.getD 0 default).dp
        < 1 + 1 / 1000) := by
      rw [(relocate_fresh _ _ _ _ _ _ _).1, recalc_point_getD realLibm _ _ _ 0 (by simp),
        hrx, hry]
      exact hfar 9 (1 / 5) 0 0 (by norm_num)
    have hp2 : ¬ (((relocate realLibm 1 Real.pi [(0, 0), (10, 0), (10, 10)] 10 (1 / 5)
        (realLibm.atan2 (10 - 0) (10 - 10))).point_info.getD 2 default).dp
        < 1 + 1 / 1000) := by
      rw [(relocate_fresh _ _ _ _ _ _ _).1, recalc_point_getD realLibm _ _ _ 2 (by simp),
        hrx, hry]
      exact hfar 9 (1 / 5) 10 10 (by norm_num)
    simp only [endpoint_step, e1, if_neg hp0, if_neg hp2]
  rw [hend, hrx, hry]

/-- C14. The result need not keep the minimum distance: on the line
`(0,0), (10,0), (10,10)`, for the query `(11, 1/5)`, `d = 1` and the direction `π`,
`move_point_away` returns `(9, 1/5)`, which is at Euclidean distance `1/5 < d`
from the point `(9, 0)` of the first segment. -/
theorem min_distance_not_guaranteed :
    ∃ (pts : List (ℝ × ℝ)) (qx qy d g : ℝ),
      List.Chain' (fun a b => a ≠ b) pts ∧ 0 < d ∧
      ∃ i, i + 1 < pts.length ∧ ∃ s : ℝ, 0 ≤ s ∧ s ≤ 1 ∧
        euclid (move_point_away realLibm qx qy d g pts)
          (segment_point (pts.getD i (0, 0)) (pts.getD (i + 1) (0, 0)) s) < d := by
  refine ⟨[(0, 0), (10, 0), (10, 10)], 11, 1 / 5, 1, Real.pi, ?_, one_pos, 0, by simp,
    9 / 10, by norm_num, by norm_num, ?_⟩
  · simp only [List.chain'_cons, List.chain'_singleton, and_true]
    constructor
    · intro h
      have := congrArg Prod.fst h
      norm_num at this
    · intro h
      have := congrArg Prod.snd h
      norm_num at this
  · rw [corner_result]
    have e : segment_point (List.getD [((0 : ℝ), (0 : ℝ)), (10, 0), (10, 10)] 0 (0, 0))
        (List.getD [((0 : ℝ), (0 : ℝ)), (10, 0), (10, 10)] (0 + 1) (0, 0)) (9 / 10) = (9, 0) := by
      simp only [segment_point, List.getD_cons_zero, List.getD_cons_succ]
      norm_num
    rw [e]
    simp only [euclid]
    rw [show ((9 : ℝ) - 9) ^ 2 + (1 / 5 - 0) ^ 2 = (1 / 5) ^ 2 by norm_num,
      Real.sqrt_sq (by norm_num)]
    norm_num

end TooNear

/-! ## Building the reference line -/

section Marshalling

variable {K : Type} [LinearOrderedField K]

lemma for_each_append {σ ι : Type} (body : σ → ι → Option σ) (l1 l2 : List ι) :
    ∀ s : σ, for_each body s (l1 ++ l2) =
      (for_each body s l1).bind (fun s' => for_each body s' l2) := by
  induction l1 with
  | nil => intro s; rfl
  | cons i rest ih =>
    intro s
    simp only [List.cons_append, for_each]
    cases body s i with
    | none => rfl
    | some s' => exact ih s'

/-- A property kept by every successful run of the body holds after a successful
run of the loop. -/
lemma for_each_invariant {σ ι : Type} (Inv : σ → Prop) (body : σ → ι → Option σ)
    (l : List ι) (hstep : ∀ s i s', i ∈ l → Inv s → body s i = some s' → Inv s') :
    ∀ s s' : σ, Inv s → for_each body s l = some s' → Inv s' := by
  induction l with
  | nil =>
    intro s s' h0 hrun
    simp only [for_each, Option.some.injEq] at hrun
    rw [← hrun]
    exact h0
  | cons i rest ih =>
    intro s s' h0 hrun
    simp only [for_each] at hrun
    cases hb : body s i with
    | none => rw [hb] at hrun; exact absurd hrun (by simp)
    | some s1 =>
      rw [hb] at hrun
      exact ih (fun t j t' hj => hstep t j t' (List.mem_cons_of_mem _ hj)) s1 s'
        (hstep s i s1 (List.mem_cons_self _ _) h0 hb) hrun

/-- The step of `av_to_arrays` on an entry that gives no coordinates and does not
fail. -/
lemma av_step_of_skipped (P : Perl K) (h : Heap K) (s : av_state K) (e : Option (SV K))
    (he : skipped_entry h e) : av_to_arrays_step P h s e = some s := by
  match e, he with
  | none, _ => rfl
  | some SV.undef, _ => rfl
  | some (SV.nv _), _ => rfl
  | some (SV.pv _), _ => rfl
  | some (SV.rv_other _), _ => rfl
  | some (SV.rv_av xy), he =>
    have hlt : (h xy).length < 2 := he
    simp only [av_to_arrays_step, if_pos hlt]

/-- The step of `av_to_arrays` on an array with at least two elements whose first
two slots hold scalars. -/
lemma av_step_of_coords (P : Perl K) (h : Heap K) (s : av_state K) (xy : Nat) (p : K × K)
    (hlen : 2 ≤ (h xy).length) (hp : fetch_xy P (h xy) = some p) :
    av_to_arrays_step P h s (some (SV.rv_av xy)) =
      some (if s.prev_exists = true ∧ p.1 = s.prev_x ∧ p.2 = s.prev_y then s
        else { out := s.out ++ [p], prev_exists := true, prev_x := p.1, prev_y := p.2 }) := by
  have hlt : ¬ (h xy).length < 2 := by omega
  simp only [av_to_arrays_step, if_neg hlt, hp]
  split_ifs <;> rfl

/-- Every successful step of `av_to_arrays` leaves the state as it is or appends
the coordinates of the entry. -/
lemma av_step_cases (P : Perl K) (h : Heap K) (s s' : av_state K) (e : Option (SV K))
    (hs : av_to_arrays_step P h s e = some s') :
    (s' = s ∧ (entry_coords P h e = none ∨
      ∃ p, entry_coords P h e = some p ∧ s.prev_exists = true ∧ p = (s.prev_x, s.prev_y))) ∨
    (∃ p, entry_coords P h e = some p ∧
      ¬ (s.prev_exists = true ∧ p = (s.prev_x, s.prev_y)) ∧
      s' = { out := s.out ++ [p], prev_exists := true, prev_x := p.1, prev_y := p.2 }) := by
  by_cases hsk : skipped_entry h e
  · rw [av_step_of_skipped P h s e hsk, Option.some.injEq] at hs
    left
    refine ⟨hs.symm, Or.inl ?_⟩
    match e, hsk with
    | none, _ => rfl
    | some SV.undef, _ => rfl
    | some (SV.nv _), _ => rfl
    | some (SV.pv _), _ => rfl
    | some (SV.rv_other _), _ => rfl
    | some (SV.rv_av xy), hsk =>
      have hlt : (h xy).length < 2 := hsk
      simp only [entry_coords, if_pos hlt]
  · match e, hsk with
    | some (SV.rv_av xy), hsk =>
      have hlt : ¬ (h xy).length < 2 := hsk
      cases hp : fetch_xy P (h xy) with
      | none =>
        simp only [av_to_arrays_step, if_neg hlt, hp] at hs
        exact absurd hs (by simp)
      | some p =>
        rw [av_step_of_coords P h s xy p (by omega) hp, Option.some.injEq] at hs
        have hec : entry_coords P h (some (SV.rv_av xy)) = some p := by
          simp only [entry_coords, if_neg hlt, hp]
        by_cases hdup : s.prev_exists = true ∧ p.1 = s.prev_x ∧ p.2 = s.prev_y
        · rw [if_pos hdup] at hs
          left
          exact ⟨hs.symm, Or.inr ⟨p, hec, hdup.1, Prod.ext hdup.2.1 hdup.2.2⟩⟩
        · rw [if_neg hdup] at hs
          right
          refine ⟨p, hec, ?_, hs.symm⟩
          rintro ⟨h1, h2⟩
          exact hdup ⟨h1, congrArg Prod.fst h2, congrArg Prod.snd h2⟩
    | none, hsk => exact absurd trivial hsk
    | some SV.undef, hsk => exact absurd trivial hsk
    | some (SV.nv _), hsk => exact absurd trivial hsk
    | some (SV.pv _), hsk => exact absurd trivial hsk
    | some (SV.rv_other _), hsk => exact absurd trivial hsk

/-- The output of a successful run of the loop of `av_to_arrays`. -/
lemma av_fold_out (P : Perl K) (h : Heap K) (points : List (Option (SV K))) :
    ∀ s s' : av_state K, for_each (av_to_arrays_step P h) s points = some s' →
      s'.out = s.out ++ collapse_adjacent
        (if s.prev_exists = true then some (s.prev_x, s.prev_y) else none)
        (well_formed_coords P h points) := by
  induction points with
  | nil =>
    intro s s' hrun
    simp only [for_each, Option.some.injEq] at hrun
    simp [well_formed_coords, collapse_adjacent, hrun]
  | cons e rest ih =>
    intro s s' hrun
    simp only [for_each] at hrun
    cases hb : av_to_arrays_step P h s e with
    | none => rw [hb] at hrun; exact absurd hrun (by simp)
    | some s1 =>
      rw [hb] at hrun
      have hrest := ih s1 s' hrun
      rcases av_step_cases P h s s1 e hb with ⟨heq, hnone | ⟨p, hp, hpe, hpp⟩⟩ |
        ⟨p, hp, hnd, heq⟩
      · rw [hrest, heq]
        simp [well_formed_coords, List.filterMap_cons, hnone]
      · rw [hrest, heq]
        simp [well_formed_coords, List.filterMap_cons, hp, collapse_adjacent, hpe, hpp]
      · rw [hrest, heq]
        by_cases hpe : s.prev_exists = true
        · have hne : ¬ ((s.prev_x, s.prev_y) = p) := fun hc => hnd ⟨hpe, hc.symm⟩
          simp [well_formed_coords, List.filterMap_cons, hp, collapse_adjacent, hpe, hne]
        · simp [well_formed_coords, List.filterMap_cons, hp, collapse_adjacent, hpe]

/-- The result of `av_to_arrays`, when it returns, in terms of the starting values
of its locals. -/
lemma av_to_arrays_eq (P : Perl K) (u : av_locals K) (h : Heap K) (points : Nat)
    (pts : List (K × K)) (hrun : av_to_arrays P u h points = some pts) :
    pts = collapse_adjacent (if u.prev_exists = true then some (u.prev_x, u.prev_y) else none)
      (well_formed_coords P h (h points)) := by
  simp only [av_to_arrays, Option.map_eq_some'] at hrun
  obtain ⟨s', hs', hout⟩ := hrun
  rw [← hout, av_fold_out P h (h points) _ s' hs']
  simp

lemma collapse_adjacent_head (prev : Option (K × K)) (l : List (K × K)) :
    ∀ y ∈ (collapse_adjacent prev l).head?, prev ≠ some y := by
  induction l generalizing prev with
  | nil => simp [collapse_adjacent]
  | cons p ps ih =>
    intro y hy
    simp only [collapse_adjacent] at hy
    by_cases h : prev = some p
    · rw [if_pos h] at hy
      have := ih (some p) y hy
      rw [h]
      exact this
    · rw [if_neg h] at hy
      simp at hy
      rw [← hy]
      exact h

/-- No two consecutive points of `collapse_adjacent` are equal. -/
lemma collapse_adjacent_chain (prev : Option (K × K)) (l : List (K × K)) :
    List.Chain' (fun a b => a ≠ b) (collapse_adjacent prev l) := by
  induction l generalizing prev with
  | nil => simp [collapse_adjacent]
  | cons p ps ih =>
    simp only [collapse_adjacent]
    by_cases h : prev = some p
    · rw [if_pos h]
      exact ih (some p)
    · rw [if_neg h, List.chain'_cons']
      refine ⟨?_, ih (some p)⟩
      intro y hy heq
      exact collapse_adjacent_head (some p) ps y hy (by rw [heq])

/-- The line that `av_to_arrays` returns has no two consecutive equal vertices,
whatever the starting values of the locals. -/
lemma av_to_arrays_chain (P : Perl K) (u : av_locals K) (h : Heap K) (points : Nat)
    (pts : List (K × K)) (hrun : av_to_arrays P u h points = some pts) :
    List.Chain' (fun a b => a ≠ b) pts := by
  rw [av_to_arrays_eq P u h points pts hrun]
  exact collapse_adjacent_chain _ _

/-- C8, at stale locals. When the locals of `av_to_arrays` start with
`prev_exists` set and `(prev_x, prev_y) = (0, 0)`, the first point `(0, 0)` of the
reference list is dropped: `[(0,0),(0,0),(1,1)]` gives `[(1,1)]`, and a list of
identical points `(0,0)` gives the empty line; with `prev_exists` clear the first
list gives `[(0,0),(1,1)]`. The reference collection is the array at address `0`
and its points are the arrays at the addresses `1`, `2`, `3`. -/
theorem av_to_arrays_stale_locals (P : Perl ℚ) :
    av_to_arrays P ⟨true, 0, 0⟩
        (heap_of [[some (SV.rv_av 1), some (SV.rv_av 2), some (SV.rv_av 3)],
          point_av (0, 0), point_av (0, 0), point_av (1, 1)]) 0
      = some [(1, 1)] ∧
    av_to_arrays P ⟨true, 0, 0⟩
        (heap_of [[some (SV.rv_av 1), some (SV.rv_av 2)], point_av (0, 0), point_av (0, 0)]) 0
      = some [] ∧
    av_to_arrays P ⟨false, 0, 0⟩
        (heap_of [[some (SV.rv_av 1), some (SV.rv_av 2), some (SV.rv_av 3)],
          point_av (0, 0), point_av (0, 0), point_av (1, 1)]) 0
      = some [(0, 0), (1, 1)] := by
  refine ⟨?_, ?_, ?_⟩ <;>
    simp [av_to_arrays, for_each, av_to_arrays_step, fetch_xy, av_fetch, heap_of, point_av,
      SvNV]

end Marshalling

/-! ## The batch driver -/

section HeapUpdates

variable {K : Type}

/-- Updates at addresses other than `a` leave the array at `a` as it is. -/
lemma foldl_update_other {α : Type} (val : α → AV K) (ts : List (Nat × α)) :
    ∀ (h : Heap K) (a : Nat), a ∉ ts.map Prod.fst →
      (ts.foldl (fun (hh : Heap K) (t : Nat × α) => Function.update hh t.1 (val t.2)) h) a = h a := by
  induction ts with
  | nil => intro h a _; rfl
  | cons t rest ih =>
    intro h a ha
    simp only [List.map_cons, List.mem_cons, not_or] at ha
    rw [List.foldl_cons, ih _ a ha.2, Function.update_noteq ha.1]

/-- After updates at pairwise distinct addresses each address holds its update. -/
lemma foldl_update_mem {α : Type} (val : α → AV K) (ts : List (Nat × α)) :
    ∀ (h : Heap K), (ts.map Prod.fst).Nodup → ∀ t ∈ ts,
      (ts.foldl (fun (hh : Heap K) (t : Nat × α) => Function.update hh t.1 (val t.2)) h) t.1 = val t.2 := by
  induction ts with
  | nil => intro h _ t ht; exact absurd ht (List.not_mem_nil _)
  | cons t0 rest ih =>
    intro h hnd t ht
    simp only [List.map_cons, List.nodup_cons] at hnd
    rw [List.foldl_cons]
    rcases List.mem_cons.mp ht with rfl | hmem
    · rw [foldl_update_other val rest _ _ hnd.1, Function.update_same]
    · exact ih _ hnd.2 t hmem

end HeapUpdates

section BatchDriver

variable {K : Type} [LinearOrderedField K]

/-- The visit of an array with at least two elements whose first two slots hold
scalars. -/
lemma mla_step_of_coords (L : Libm K) (P : Perl K) (b : bbox_t K) (d g : K)
    (pts_a : List (K × K)) (points_b : Nat) (h : Heap K) (i xy : Nat) (p : K × K)
    (hq : av_fetch (h points_b) i = some (SV.rv_av xy)) (hlen : 2 ≤ (h xy).length)
    (hp : fetch_xy P (h xy) = some p) :
    move_line_away_step L P b d g pts_a points_b h i =
      some (if (b.check_north = true ∧ p.2 < b.north) ∨
               (b.check_south = true ∧ p.2 > b.south) ∨
               (b.check_east = true ∧ p.1 > b.east) ∨
               (b.check_west = true ∧ p.1 < b.west) then h
        else Function.update h xy
          (((h xy).set 0 (some (SV.nv (move_point_away L p.1 p.2 d g pts_a).1))).set 1
            (some (SV.nv (move_point_away L p.1 p.2 d g pts_a).2)))) := by
  have hlt : ¬ (h xy).length < 2 := by omega
  simp only [move_line_away_step, hq, if_neg hlt, hp]
  by_cases h1 : b.check_north = true ∧ p.2 < b.north
  · simp [h1]
  by_cases h2 : b.check_south = true ∧ p.2 > b.south
  · simp [h1, h2]
  by_cases h3 : b.check_east = true ∧ p.1 > b.east
  · simp [h1, h2, h3]
  by_cases h4 : b.check_west = true ∧ p.1 < b.west
  · simp [h1, h2, h3, h4]
  · have hn : ¬ ((b.check_north = true ∧ p.2 < b.north) ∨
        (b.check_south = true ∧ p.2 > b.south) ∨
        (b.check_east = true ∧ p.1 > b.east) ∨
        (b.check_west = true ∧ p.1 < b.west)) := by
      rintro (h' | h' | h' | h')
      · exact h1 h'
      · exact h2 h'
      · exact h3 h'
      · exact h4 h'
    rw [if_neg h1, if_neg h2, if_neg h3, if_neg h4, if_neg hn]

/-- The visit of an array with at least two elements whose first two slots hold
scalars, in terms of the stated bounds. -/
lemma mla_step_in_bbox (L : Libm K) (P : Perl K) (aN aS aE aW : SV K) (d g : K)
    (pts_a : List (K × K)) (points_b : Nat) (h : Heap K) (i xy : Nat) (p : K × K)
    (hq : av_fetch (h points_b) i = some (SV.rv_av xy)) (hlen : 2 ≤ (h xy).length)
    (hp : fetch_xy P (h xy) = some p) :
    move_line_away_step L P (bbox_of P aN aS aE aW) d g pts_a points_b h i =
      some (if stated_in_bbox P aN aS aE aW p then
          Function.update h xy
            (((h xy).set 0 (some (SV.nv (move_point_away L p.1 p.2 d g pts_a).1))).set 1
              (some (SV.nv (move_point_away L p.1 p.2 d g pts_a).2)))
        else h) := by
  rw [mla_step_of_coords L P _ d g pts_a points_b h i xy p hq hlen hp]
  have hskip := skip_iff_not_in_bbox P aN aS aE aW p
  by_cases hin : stated_in_bbox P aN aS aE aW p
  · rw [if_pos hin, if_neg (fun hc => (hskip.mp hc) hin)]
  · rw [if_neg hin, if_pos (hskip.mpr hin)]

/-- `move_line_away` on two references to arrays, when the reference line is
built. -/
lemma move_line_away_eq (L : Libm K) (P : Perl K) (u : av_locals K) (h : Heap K)
    (aN aS aE aW aD aG : SV K) (points_b points_a : Nat) (pts_a : List (K × K))
    (href : av_to_arrays P u h points_a = some pts_a) :
    move_line_away L P u h aN aS aE aW aD aG (SV.rv_av points_b) (SV.rv_av points_a) =
      for_each (move_line_away_step L P (bbox_of P aN aS aE aW)
          (if SvOK aD = true then SvNV P aD else 1) (general_direction_of L P aG) pts_a
          points_b)
        h (List.range (h points_b).length) := by
  simp only [move_line_away, href]

/-- The loop of `move_line_away` over numeric targets in pairwise distinct arrays:
after `k` iterations the first `k` target arrays hold their stated values. -/
lemma mla_prefix (L : Libm K) (P : Perl K) (aN aS aE aW : SV K) (d g : K)
    (pts_a : List (K × K)) (points_b : Nat) (h : Heap K) (targets : List (Nat × (K × K)))
    (hb : h points_b = targets.map (fun t => some (SV.rv_av t.1)))
    (hcell : ∀ t ∈ targets, h t.1 = point_av t.2)
    (hnodup : (targets.map Prod.fst).Nodup)
    (hself : points_b ∉ targets.map Prod.fst) :
    ∀ k, k ≤ targets.length →
      for_each (move_line_away_step L P (bbox_of P aN aS aE aW) d g pts_a points_b) h
          (List.range k) =
        some ((targets.take k).foldl
          (fun (hh : Heap K) (t : Nat × (K × K)) =>
            Function.update hh t.1 (stated_target L P aN aS aE aW d g pts_a t.2))
          h) := by
  intro k
  induction k with
  | zero => intro _; rfl
  | succ k ih =>
    intro hk
    have hk' : k < targets.length := hk
    rw [List.range_succ, for_each_append, ih (Nat.le_of_lt hk'), Option.some_bind]
    simp only [List.take_succ, List.getElem?_eq_getElem hk', Option.toList_some,
      List.foldl_append, List.foldl_cons, List.foldl_nil]
    have hmemk : targets[k] ∈ targets := List.getElem_mem hk'
    have hnot_take : (targets[k]).1 ∉ (targets.take k).map Prod.fst := by
      intro hc
      have hnd := hnodup
      rw [← List.take_append_drop k targets, List.map_append, List.nodup_append] at hnd
      have hdrop : (targets[k]).1 ∈ (targets.drop k).map Prod.fst := by
        refine List.mem_map.mpr ⟨targets[k], ?_, rfl⟩
        rw [List.drop_eq_getElem_cons hk']
        exact List.mem_cons_self _ _
      exact hnd.2.2 hc hdrop
    have hpb_take : points_b ∉ (targets.take k).map Prod.fst := by
      intro hc
      apply hself
      obtain ⟨t, ht, hte⟩ := List.mem_map.mp hc
      exact List.mem_map.mpr ⟨t, List.mem_of_mem_take ht, hte⟩
    have hH_pb := foldl_update_other (stated_target L P aN aS aE aW d g pts_a)
      (targets.take k) h points_b hpb_take
    have hH_cell := foldl_update_other (stated_target L P aN aS aE aW d g pts_a)
      (targets.take k) h (targets[k]).1 hnot_take
    generalize (targets.take k).foldl
      (fun (hh : Heap K) (t : Nat × (K × K)) =>
        Function.update hh t.1 (stated_target L P aN aS aE aW d g pts_a t.2)) h
      = H at hH_pb hH_cell
    have hcellk : H (targets[k]).1 = point_av (targets[k]).2 := by
      rw [hH_cell]
      exact hcell _ hmemk
    have hq : av_fetch (H points_b) k = some (SV.rv_av (targets[k]).1) := by
      rw [hH_pb, hb]
      simp [av_fetch, List.getD_eq_getElem?_getD, hk']
    have hp : fetch_xy P (H (targets[k]).1) = some (targets[k]).2 := by
      rw [hcellk]
      simp [fetch_xy, av_fetch, point_av, SvNV]
    have hlen : 2 ≤ (H (targets[k]).1).length := by
      rw [hcellk]
      simp [point_av]
    simp only [for_each]
    rw [mla_step_in_bbox L P aN aS aE aW d g pts_a points_b H k _ _ hq hlen hp]
    by_cases hin : stated_in_bbox P aN aS aE aW (targets[k]).2
    · rw [if_pos hin, hcellk]
      simp [stated_target, hin, point_av]
    · rw [if_neg hin]
      have : stated_target L P aN aS aE aW d g pts_a (targets[k]).2 = H (targets[k]).1 := by
        rw [hcellk]
        simp [stated_target, hin]
      rw [this, Function.update_eq_self]

end BatchDriver

/-! ## The bounding-box filter -/

section TargetArrays

variable {K : Type}

/-- The array of target references is none of the target arrays. -/
lemma targets_not_self (h : Heap K) (points_b : Nat) (targets : List (Nat × (K × K)))
    (hb : h points_b = targets.map (fun t => some (SV.rv_av t.1)))
    (hcell : ∀ t ∈ targets, h t.1 = point_av t.2) :
    points_b ∉ targets.map Prod.fst := by
  intro hc
  obtain ⟨t, ht, hte⟩ := List.mem_map.mp hc
  have h1 := hcell t ht
  rw [hte, hb] at h1
  match targets, h1 with
  | [], h1 => simp [point_av] at h1
  | t0 :: rest, h1 => simp [point_av] at h1

end TargetArrays

section BoundingBoxFilter

variable {K : Type} [LinearOrderedField K]

/-- A loop whose body never fails on the items of the list does not fail. -/
lemma for_each_total {σ ι : Type} (body : σ → ι → Option σ) (l : List ι)
    (hstep : ∀ s i, i ∈ l → ∃ s', body s i = some s') :
    ∀ s, ∃ s', for_each body s l = some s' := by
  induction l with
  | nil => intro s; exact ⟨s, rfl⟩
  | cons i rest ih =>
    intro s
    obtain ⟨s1, h1⟩ := hstep s i (List.mem_cons_self _ _)
    obtain ⟨s2, h2⟩ := ih (fun s j hj => hstep s j (List.mem_cons_of_mem _ hj)) s1
    exact ⟨s2, by simp only [for_each, h1, h2]⟩

/-- An array whose first two slots are assigned gives a coordinate pair. -/
lemma fetch_xy_of_assigned (P : Perl K) (xy : AV K) (h0 : av_fetch xy 0 ≠ none)
    (h1 : av_fetch xy 1 ≠ none) : ∃ p, fetch_xy P xy = some p := by
  unfold fetch_xy
  match e0 : av_fetch xy 0, e1 : av_fetch xy 1 with
  | some a, some b => exact ⟨_, rfl⟩
  | none, _ => exact absurd e0 h0
  | some _, none => exact absurd e1 h1

/-- The visit of a readable entry by `av_to_arrays` does not fail. -/
lemma av_step_total (P : Perl K) (h : Heap K) (s : av_state K) (e : Option (SV K))
    (he : readable_entry h e) : ∃ s', av_to_arrays_step P h s e = some s' := by
  match e, he with
  | none, _ => exact ⟨s, rfl⟩
  | some SV.undef, _ => exact ⟨s, rfl⟩
  | some (SV.nv _), _ => exact ⟨s, rfl⟩
  | some (SV.pv _), _ => exact ⟨s, rfl⟩
  | some (SV.rv_other _), _ => exact ⟨s, rfl⟩
  | some (SV.rv_av xy), he =>
    have he' : (h xy).length < 2 ∨ (av_fetch (h xy) 0 ≠ none ∧ av_fetch (h xy) 1 ≠ none) := he
    rcases he' with hlt | ⟨h0, h1⟩
    · exact ⟨s, av_step_of_skipped P h s _ hlt⟩
    · by_cases hlt : (h xy).length < 2
      · exact ⟨s, av_step_of_skipped P h s _ hlt⟩
      · obtain ⟨p, hp⟩ := fetch_xy_of_assigned P (h xy) h0 h1
        exact ⟨_, av_step_of_coords P h s xy p (by omega) hp⟩

/-- On a collection of readable entries `av_to_arrays` returns a line. -/
lemma av_to_arrays_total (P : Perl K) (u : av_locals K) (h : Heap K) (points : Nat)
    (hread : ∀ e ∈ h points, readable_entry h e) :
    ∃ pts, av_to_arrays P u h points = some pts := by
  obtain ⟨s', hs'⟩ := for_each_total (av_to_arrays_step P h) (h points)
    (fun s e he => av_step_total P h s e (hread e he))
    { out := [], prev_exists := u.prev_exists, prev_x := u.prev_x, prev_y := u.prev_y }
  exact ⟨s'.out, by simp only [av_to_arrays, hs', Option.map_some']⟩

/-- When `prev_exists` starts as false, `av_to_arrays` keeps exactly the well-formed
points that are the first one or differ from the one before. -/
lemma av_to_arrays_clean_start (P : Perl K) (x0 y0 : K) (h : Heap K) (points : Nat)
    (hread : ∀ e ∈ h points, readable_entry h e) :
    av_to_arrays P ⟨false, x0, y0⟩ h points =
      some (collapse_adjacent none (well_formed_coords P h (h points))) := by
  obtain ⟨pts, hp⟩ := av_to_arrays_total P ⟨false, x0, y0⟩ h points hread
  have he := av_to_arrays_eq P ⟨false, x0, y0⟩ h points pts hp
  rw [hp, he]
  simp

/-- C7, as the code behaves. Let the target collection hold references to pairwise distinct
arrays, each a pair of numbers, and let every entry of the reference collection be
readable. Then `av_to_arrays` returns a line, `move_line_away` returns, and
afterwards the array of a target `(x, y)` holds `move_point_away` of it (against
that line, with the given or default minimum distance and direction) exactly when
it satisfies every given bound of the ordered bounding box and holds `(x, y)`
otherwise; the collection of target references is as before (same number, same
order), and so is every array that is not a target. -/
theorem bbox_filter (L : Libm K) (P : Perl K) (u : av_locals K) (h : Heap K)
    (arg_north arg_south arg_east arg_west arg_minimum_distance
      arg_general_direction : SV K) (points_b points_a : Nat)
    (targets : List (Nat × (K × K)))
    (hb : h points_b = targets.map (fun t => some (SV.rv_av t.1)))
    (hcell : ∀ t ∈ targets, h t.1 = point_av t.2)
    (hnodup : (targets.map Prod.fst).Nodup)
    (hread : ∀ e ∈ h points_a, readable_entry h e) :
    ∃ pts_a h', av_to_arrays P u h points_a = some pts_a ∧
      move_line_away L P u h arg_north arg_south arg_east arg_west arg_minimum_distance
        arg_general_direction (SV.rv_av points_b) (SV.rv_av points_a) = some h' ∧
      (∀ t ∈ targets, h' t.1 =
        point_av (if stated_in_bbox P arg_north arg_south arg_east arg_west t.2 then
          move_point_away L t.2.1 t.2.2
            (if SvOK arg_minimum_distance = true then SvNV P arg_minimum_distance else 1)
            (general_direction_of L P arg_general_direction) pts_a
          else t.2)) ∧
      h' points_b = h points_b ∧
      (∀ a, a ∉ targets.map Prod.fst → h' a = h a) := by
  obtain ⟨pts_a, href⟩ := av_to_arrays_total P u h points_a hread
  have hself := targets_not_self h points_b targets hb hcell
  have hlen : (h points_b).length = targets.length := by rw [hb, List.length_map]
  have hrun := mla_prefix L P arg_north arg_south arg_east arg_west
    (if SvOK arg_minimum_distance = true then SvNV P arg_minimum_distance else 1)
    (general_direction_of L P arg_general_direction) pts_a points_b h targets hb hcell
    hnodup hself targets.length (le_refl _)
  rw [List.take_length] at hrun
  refine ⟨pts_a, targets.foldl (fun (hh : Heap K) (t : Nat × (K × K)) =>
    Function.update hh t.1 (stated_target L P arg_north arg_south arg_east arg_west
      (if SvOK arg_minimum_distance = true then SvNV P arg_minimum_distance else 1)
      (general_direction_of L P arg_general_direction) pts_a t.2)) h, href, ?_, ?_, ?_, ?_⟩
  · rw [move_line_away_eq L P u h _ _ _ _ _ _ points_b points_a pts_a href, hlen]
    exact hrun
  · intro t ht
    exact foldl_update_mem _ targets h hnodup t ht
  · exact foldl_update_other _ targets h points_b hself
  · intro a ha
    exact foldl_update_other _ targets h a ha

/-- The filter theorem at two targets `(0, 5)` and `(7, 7)` in distinct arrays, a
one-vertex reference line `(0, 0)` and a north bound `6`: the first target is
outside the box and keeps its coordinates. -/
theorem bbox_filter_witness :
    ∃ pts_a h',
      av_to_arrays (plain_perl ℚ) ⟨false, 0, 0⟩
        (heap_of [[some (SV.rv_av 1), some (SV.rv_av 2)], point_av (0, 5), point_av (7, 7),
          [some (SV.rv_av 4)], point_av (0, 0)]) 3 = some pts_a ∧
      move_line_away (K := ℚ) ⟨id, id, id, fun y _ => y⟩ (plain_perl ℚ) ⟨false, 0, 0⟩
        (heap_of [[some (SV.rv_av 1), some (SV.rv_av 2)], point_av (0, 5), point_av (7, 7),
          [some (SV.rv_av 4)], point_av (0, 0)])
        (SV.nv 6) SV.undef SV.undef SV.undef SV.undef SV.undef (SV.rv_av 0) (SV.rv_av 3)
        = some h' ∧
      h' 1 = point_av (0, 5) := by
  obtain ⟨pts_a, h', h1, h2, h3, _, _⟩ :=
    bbox_filter (K := ℚ) ⟨id, id, id, fun y _ => y⟩ (plain_perl ℚ) ⟨false, 0, 0⟩
      (heap_of [[some (SV.rv_av 1), some (SV.rv_av 2)], point_av (0, 5), point_av (7, 7),
        [some (SV.rv_av 4)], point_av (0, 0)])
      (SV.nv 6) SV.undef SV.undef SV.undef SV.undef SV.undef 0 3
      [(1, (0, 5)), (2, (7, 7))]
      (by simp [heap_of])
      (by simp [heap_of])
      (by decide)
      (by simp [heap_of, readable_entry, point_av, av_fetch])
  refine ⟨pts_a, h', h1, h2, ?_⟩
  have h4 := h3 (1, (0, 5)) (by simp)
  rw [h4]
  have hout : ¬ stated_in_bbox (plain_perl ℚ) (SV.nv 6) SV.undef SV.undef SV.undef
      ((0, 5) : ℚ × ℚ) := by
    norm_num [stated_in_bbox, stated_north_south, SvOK, SvNV]
  rw [if_neg hout]

/-- C7, as stated, fails. The target collection holds the same array twice, with
the point `(3/2, 3)`; the reference line is the single vertex `(2, 3)`, no bound is
given, the minimum distance is the default `1`. The statement gives the array
`move_point_away` of `(3/2, 3)`, which is `(3, 3)`; `move_line_away` visits the
array twice, the second time at `(3, 3)`, and leaves `(1, 3)` in it. -/
theorem shared_target_visited_twice :
    av_to_arrays (plain_perl ℝ) ⟨false, 0, 0⟩
        (heap_of [[some (SV.rv_av 1), some (SV.rv_av 1)], point_av (3 / 2, 3),
          [some (SV.rv_av 3)], point_av (2, 3)]) 2 = some [(2, 3)] ∧
    stated_in_bbox (plain_perl ℝ) SV.undef SV.undef SV.undef SV.undef ((3 / 2, 3) : ℝ × ℝ) ∧
    move_point_away realLibm (3 / 2) 3 1 0 [(2, 3)] = (3, 3) ∧
    (move_line_away realLibm (plain_perl ℝ) ⟨false, 0, 0⟩
        (heap_of [[some (SV.rv_av 1), some (SV.rv_av 1)], point_av (3 / 2, 3),
          [some (SV.rv_av 3)], point_av (2, 3)])
        SV.undef SV.undef SV.undef SV.undef SV.undef SV.undef (SV.rv_av 0) (SV.rv_av 2)).map
      (fun h' => h' 1) = some (point_av (1, 3)) ∧
    point_av ((1, 3) : ℝ × ℝ) ≠ point_av (3, 3) := by
  have hpts : av_to_arrays (plain_perl ℝ) ⟨false, 0, 0⟩
      (heap_of [[some (SV.rv_av 1), some (SV.rv_av 1)], point_av (3 / 2, 3),
        [some (SV.rv_av 3)], point_av (2, 3)]) 2 = some [(2, 3)] := by
    simp [av_to_arrays, for_each, av_to_arrays_step, fetch_xy, av_fetch, heap_of, point_av,
      SvNV]
  have hin : ∀ p : ℝ × ℝ,
      stated_in_bbox (plain_perl ℝ) SV.undef SV.undef SV.undef SV.undef p := by
    intro p
    simp [stated_in_bbox, SvOK]
  have hs1 : Real.sqrt ((2 - 3 / 2) * (2 - 3 / 2) + (3 - 3) * (3 - 3)) = 1 / 2 := by
    have : ((2 : ℝ) - 3 / 2) * (2 - 3 / 2) + (3 - 3) * (3 - 3) = (1 / 2) ^ 2 := by norm_num
    rw [this]
    exact Real.sqrt_sq (by norm_num)
  have hs2 : Real.sqrt (((2 : ℝ) - 3) * (2 - 3) + (3 - 3) * (3 - 3)) = 1 := by
    have : ((2 : ℝ) - 3) * (2 - 3) + (3 - 3) * (3 - 3) = 1 ^ 2 := by norm_num
    rw [this]
    exact Real.sqrt_sq (by norm_num)
  have hm1 : move_point_away realLibm (3 / 2) 3 1 0 [(2, 3)] = (3, 3) := by
    rw [singleton_relocated (3 / 2) 3 1 0 2 3 (Or.inl (by norm_num)) (by rw [hs1]; norm_num),
      hs1]
    norm_num
  have hm2 : move_point_away realLibm 3 3 1 0 [(2, 3)] = (1, 3) := by
    rw [singleton_relocated 3 3 1 0 2 3 (Or.inl (by norm_num)) (by rw [hs2]; norm_num), hs2]
    norm_num
  refine ⟨hpts, hin _, hm1, ?_, ?_⟩
  · rw [move_line_away_eq realLibm (plain_perl ℝ) _ _ _ _ _ _ _ _ 0 2 [(2, 3)] hpts]
    have hd : (if SvOK (SV.undef : SV ℝ) = true then SvNV (plain_perl ℝ) SV.undef else 1)
        = (1 : ℝ) := by simp [SvOK]
    have hg : general_direction_of realLibm (plain_perl ℝ) SV.undef = 0 := by
      simp [general_direction_of, SvOK]
    rw [hd, hg]
    have hr : List.range (heap_of (K := ℝ) [[some (SV.rv_av 1), some (SV.rv_av 1)],
        point_av (3 / 2, 3), [some (SV.rv_av 3)], point_av (2, 3)] 0).length = [0, 1] := rfl
    rw [hr]
    simp only [for_each]
    rw [mla_step_in_bbox realLibm (plain_perl ℝ) _ _ _ _ 1 0 [(2, 3)] 0 _ 0 1 (3 / 2, 3)
      (by simp [heap_of, av_fetch]) (by simp [heap_of, point_av])
      (by simp [heap_of, point_av, fetch_xy, av_fetch, SvNV]), if_pos (hin _), hm1]
    simp only []
    rw [mla_step_in_bbox realLibm (plain_perl ℝ) _ _ _ _ 1 0 [(2, 3)] 0 _ 1 1 (3, 3)
      (by simp [heap_of, av_fetch]) (by simp [heap_of, point_av])
      (by simp [heap_of, point_av, fetch_xy, av_fetch, SvNV]), if_pos (hin _), hm2]
    simp [heap_of, point_av]
  · intro hc
    simp [point_av] at hc

end BoundingBoxFilter

/-! ## Entries that are passed over, processed, or unreadable -/

section HeapSlots

variable {K : Type}

/-- A loop whose body fails on one item of the list, whatever the state, fails. -/
lemma for_each_fault {σ ι : Type} (body : σ → ι → Option σ) (i : ι)
    (hi : ∀ s, body s i = none) :
    ∀ (l : List ι), i ∈ l → ∀ s, for_each body s l = none := by
  intro l
  induction l with
  | nil => intro hmem; exact absurd hmem (List.not_mem_nil _)
  | cons j rest ih =>
    intro hmem s
    rcases List.mem_cons.mp hmem with rfl | hrest
    · simp only [for_each, hi]
    · simp only [for_each]
      match body s j with
      | none => rfl
      | some s' => exact ih hrest s'

/-- An entry is readable, or it is an array with at least two elements and an
unassigned first or second slot. -/
lemma unreadable_entry (h : Heap K) (e : Option (SV K)) (he : ¬ readable_entry h e) :
    ∃ xy, e = some (SV.rv_av xy) ∧ 2 ≤ (h xy).length ∧
      (av_fetch (h xy) 0 = none ∨ av_fetch (h xy) 1 = none) := by
  match e, he with
  | none, he => exact absurd trivial he
  | some SV.undef, he => exact absurd trivial he
  | some (SV.nv _), he => exact absurd trivial he
  | some (SV.pv _), he => exact absurd trivial he
  | some (SV.rv_other _), he => exact absurd trivial he
  | some (SV.rv_av xy), he =>
    have he' : ¬ ((h xy).length < 2 ∨
        (av_fetch (h xy) 0 ≠ none ∧ av_fetch (h xy) 1 ≠ none)) := he
    push_neg at he'
    refine ⟨xy, rfl, he'.1, ?_⟩
    by_cases h0 : av_fetch (h xy) 0 = none
    · exact Or.inl h0
    · exact Or.inr (he'.2 h0)

end HeapSlots

section Unreadable

variable {K : Type} [LinearOrderedField K]

/-- An array with an unassigned first or second slot gives no coordinate pair. -/
lemma fetch_xy_of_hole (P : Perl K) (xy : AV K)
    (hh : av_fetch xy 0 = none ∨ av_fetch xy 1 = none) : fetch_xy P xy = none := by
  unfold fetch_xy
  rcases hh with h0 | h1
  · rw [h0]
  · rw [h1]
    match av_fetch xy 0 with
    | none => rfl
    | some _ => rfl

/-- The visit by `av_to_arrays` of an array with at least two elements and an
unassigned first or second slot fails. -/
lemma av_step_of_hole (P : Perl K) (h : Heap K) (s : av_state K) (xy : Nat)
    (hlen : 2 ≤ (h xy).length) (hh : av_fetch (h xy) 0 = none ∨ av_fetch (h xy) 1 = none) :
    av_to_arrays_step P h s (some (SV.rv_av xy)) = none := by
  have hlt : ¬ (h xy).length < 2 := by omega
  simp only [av_to_arrays_step, if_neg hlt, fetch_xy_of_hole P (h xy) hh]

/-- The visit by `move_line_away` of an array with at least two elements and an
unassigned first or second slot fails. -/
lemma mla_step_of_hole (L : Libm K) (P : Perl K) (b : bbox_t K) (d g : K)
    (pts_a : List (K × K)) (points_b : Nat) (h : Heap K) (i xy : Nat)
    (hq : av_fetch (h points_b) i = some (SV.rv_av xy)) (hlen : 2 ≤ (h xy).length)
    (hh : av_fetch (h xy) 0 = none ∨ av_fetch (h xy) 1 = none) :
    move_line_away_step L P b d g pts_a points_b h i = none := by
  have hlt : ¬ (h xy).length < 2 := by omega
  simp only [move_line_away_step, hq, if_neg hlt, fetch_xy_of_hole P (h xy) hh]

/-- With an unreadable entry in the reference collection `av_to_arrays` fails. -/
lemma av_to_arrays_fault (P : Perl K) (u : av_locals K) (h : Heap K) (points : Nat)
    (hbad : ∃ e ∈ h points, ¬ readable_entry h e) : av_to_arrays P u h points = none := by
  obtain ⟨e, hmem, he⟩ := hbad
  obtain ⟨xy, rfl, hlen, hh⟩ := unreadable_entry h e he
  have := for_each_fault (av_to_arrays_step P h) (some (SV.rv_av xy))
    (fun s => av_step_of_hole P h s xy hlen hh) (h points) hmem
    { out := [], prev_exists := u.prev_exists, prev_x := u.prev_x, prev_y := u.prev_y }
  simp only [av_to_arrays, this, Option.map_none']

end Unreadable

section Skipped

variable {K : Type} [LinearOrderedField K]

end Skipped

section SkippedExample

end SkippedExample

end GeoMapMaker
